import Mathlib

/-!
# rocSPARSE `csr2csc`: a shallow embedding and its verification

Sources: `library/src/conversion/rocsparse_csr2csc.cpp` and, for the last section of
the definitions, `library/src/level1/rocsparse_spvv.cpp`.

Device arrays are lists of naturals (index arrays) or of an arbitrary value
type `α` (value arrays).  A copy or a kernel that writes `k` elements into an
array overwrites its first `k` entries and leaves the rest alone.  Operations
enqueued on the stream run in issue order, so the stream is a sequence of state
updates.  Enqueueing a device operation is taken to succeed.

The scratch arithmetic is `size_t` arithmetic: every operation is reduced
modulo `2 ^ 64`.

The file `rocsparse_csr2csc.cpp` calls helpers that are declared in headers outside the
translated sources (`rocsparse_csr2coo_core`, `rocsparse_coo2csr_core`,
`rocsparse_create_identity_permutation_core`, the kernels `set_array_to_value` and
`csr2csc_permute_kernel`) and the rocPRIM sort.  These are modelled from the
specification.  The helper `rocsparse_clz` (utility.h) is outside them too: the transform
takes the end bit function as a parameter, so that a result stated for every such function
holds whatever the helper returns, and the definition `rocsparse_clz` below is the end bit
as the specification describes it, `ceil(log2(n))`.  The lemmas named `..._of_cover` show
what the transform computes when the end bit covers the admissible column indices.

The dimensions `m` and `n` have the type `J` of the column indices; the one expression
that can leave its range, `(n + 1)`, is computed by `wrap_signed`.
-/

namespace RocSparse

/-! ## Enumerations -/

/-- The status codes used by the library (`rocsparse_status`). -/
inductive rocsparse_status where
  | success
  | invalid_handle
  | not_implemented
  | invalid_pointer
  | invalid_size
  | memory_error
  | internal_error
  | invalid_value
  | not_initialized
  deriving DecidableEq, Repr

/-- The conversion action (`rocsparse_action`). -/
inductive rocsparse_action where
  | symbolic
  | numeric
  deriving DecidableEq, Repr

/-- The index base (`rocsparse_index_base`). -/
inductive rocsparse_index_base where
  | zero
  | one
  deriving DecidableEq, Repr

/-- Integer value of an index base, as produced by `static_cast<I>(idx_base)`. -/
def rocsparse_index_base.val : rocsparse_index_base → Nat
  | .zero => 0
  | .one => 1

/-! ## Device memory -/

/-- Overwrite the leading entries of `dst` with `src`. -/
def copy_into {β : Type} (dst src : List β) : List β :=
  src ++ dst.drop src.length

/-- `hipMemcpyAsync(dst, src, count)` with `count` in elements. -/
def hipMemcpyAsync {β : Type} (dst src : List β) (count : Nat) : List β :=
  copy_into dst (src.take count)

/-- The three regions that `rocsparse_csr2csc_core` carves out of `temp_buffer`. -/
structure Scratch where
  tmp_work1 : List Nat
  tmp_work2 : List Nat
  tmp_perm : List Nat
  deriving DecidableEq, Repr

/-- The arrays `rocsparse_csr2csc_template` may write: the three outputs and the
caller's scratch buffer (`none` is the null pointer). -/
structure DeviceState (α : Type) where
  csc_val : List α
  csc_row_ind : List Nat
  csc_col_ptr : List Nat
  temp_buffer : Option Scratch

/-- The arrays seen by `rocsparse_csr2csc_core`, which runs with a non-null scratch. -/
structure Mem (α : Type) where
  csc_val : List α
  csc_row_ind : List Nat
  csc_col_ptr : List Nat
  tmp_work1 : List Nat
  tmp_work2 : List Nat
  tmp_perm : List Nat

/-- The index buffers a `rocprim::double_buffer` of the core can point to. -/
inductive Buf where
  | tmp_work1
  | tmp_work2
  | tmp_perm
  | csc_row_ind
  deriving DecidableEq, Repr

/-- Contents of the buffer a pointer designates. -/
def Mem.read {α : Type} (mem : Mem α) : Buf → List Nat
  | .tmp_work1 => mem.tmp_work1
  | .tmp_work2 => mem.tmp_work2
  | .tmp_perm => mem.tmp_perm
  | .csc_row_ind => mem.csc_row_ind

/-- Overwrite the leading entries of the buffer a pointer designates. -/
def Mem.write {α : Type} (mem : Mem α) (b : Buf) (data : List Nat) : Mem α :=
  match b with
  | .tmp_work1 => { mem with tmp_work1 := copy_into mem.tmp_work1 data }
  | .tmp_work2 => { mem with tmp_work2 := copy_into mem.tmp_work2 data }
  | .tmp_perm => { mem with tmp_perm := copy_into mem.tmp_perm data }
  | .csc_row_ind => { mem with csc_row_ind := copy_into mem.csc_row_ind data }

/-- A pair of buffers with a selector (`rocprim::double_buffer`). -/
structure double_buffer where
  current : Buf
  alternate : Buf
  deriving DecidableEq, Repr

/-- Launch of a one-dimensional grid: `blocks` blocks of `threads` threads, each
running `kernel blockIdx threadIdx` on the shared state. -/
def hipLaunchKernelGGL {σ : Type} (blocks threads : Nat) (kernel : Nat → Nat → σ → σ)
    (s : σ) : σ :=
  (List.range blocks).foldl
    (fun acc b => (List.range threads).foldl (fun acc2 t => kernel b t acc2) acc) s

/-! ## Collaborators declared outside the translated file -/

/-- Modelled from the spec: kernel `set_array_to_value` (common.h). The fast path
"fills the CSC column-offset array with `n+1` copies of the index base"; a thread whose
global index is past `size` writes nothing. -/
def set_array_to_value {β : Type} (BLOCKSIZE size : Nat) (value : β)
    (blockIdx threadIdx : Nat) (array : List β) : List β :=
  let idx := blockIdx * BLOCKSIZE + threadIdx
  if idx < size then array.set idx value else array

/-- Modelled from the spec: `rocsparse_csr2coo_core` (rocsparse_csr2coo.hpp). It "expands
the CSR row-offsets into an explicit row-index array (one entry per nonzero, monotonically
grouped by row)": row `r` contributes `end[r] - begin[r]` copies of `r + idx_base`. -/
def rocsparse_csr2coo_core (csr_row_ptr_begin csr_row_ptr_end : List Nat) (nnz m : Nat)
    (coo_row_ind : List Nat) (idx_base : rocsparse_index_base) : List Nat :=
  copy_into coo_row_ind
    (((List.range m).flatMap fun r =>
        List.replicate (csr_row_ptr_end.getD r 0 - csr_row_ptr_begin.getD r 0)
          (r + idx_base.val)).take nnz)

/-- Position of the first entry of `keys` that is not below `x`. -/
def lower_bound (keys : List Nat) (x : Nat) : Nat :=
  (keys.takeWhile fun k => decide (k < x)).length

/-- Modelled from the spec: `rocsparse_coo2csr_core` (rocsparse_coo2csr.hpp). It "collapses
the sorted key sequence into offset form (a count→offset transform over `m` rows)":
entry `i` is the index base plus the position at which the keys of row `i` start. -/
def rocsparse_coo2csr_core (coo_row_ind : List Nat) (nnz m : Nat) (csr_row_ptr : List Nat)
    (idx_base : rocsparse_index_base) : List Nat :=
  copy_into csr_row_ptr
    ((List.range (m + 1)).map fun i =>
        lower_bound (coo_row_ind.take nnz) (i + idx_base.val) + idx_base.val)

/-- Modelled from the spec: `rocsparse_create_identity_permutation_core`
(rocsparse_identity.hpp), "permutation[i] = i" for `i < nnz`. -/
def rocsparse_create_identity_permutation_core (nnz : Nat) (p : List Nat) : List Nat :=
  copy_into p (List.range nnz)

/-- Modelled from the spec: kernel `csr2csc_permute_kernel` (csr2csc_device.h), the
Permutation-Apply pass: "output position `k` reads exclusively from input position
`permutation[k]`". The state is the pair `(out1, out2)`. -/
def csr2csc_permute_kernel {α : Type} (BLOCKSIZE nnz : Nat) (in1 : List Nat) (in2 : List α)
    (map : List Nat) (blockIdx threadIdx : Nat) (out : List Nat × List α) :
    List Nat × List α :=
  let gid := blockIdx * BLOCKSIZE + threadIdx
  if gid < nnz then
    match map[gid]? with
    | none => out
    | some src =>
      ((match in1[src]? with
        | some r => out.1.set gid r
        | none => out.1),
       (match in2[src]? with
        | some v => out.2.set gid v
        | none => out.2))
  else out

/-- Modelled from the spec: one pass of the sort primitive (rocPRIM, external), "a generic
stable key/value parallel sort over fixed-width integer keys with an explicit bit-range".
A least-significant-digit pass on one key bit: the pairs whose key has the bit clear, in
their order, then the pairs whose key has it set, in their order. -/
def radix_pass {β : Type} (bit : Nat) (l : List (Nat × β)) : List (Nat × β) :=
  l.filter (fun p => !p.1.testBit bit) ++ l.filter (fun p => p.1.testBit bit)

/-- Modelled from the spec: the sort primitive as a function on key/value pairs, a stable
ascending sort on the key bits `[begin_bit, end_bit)` (one radix pass per bit). -/
def radix_sort {β : Type} (begin_bit end_bit : Nat) (l : List (Nat × β)) : List (Nat × β) :=
  (List.range' begin_bit (end_bit - begin_bit)).foldl (fun acc b => radix_pass b acc) l

/-- What an execution of `rocprim::radix_sort_pairs` on double buffers leaves unspecified:
which buffer of each pair holds the result, and the contents of the other one. -/
structure SortOutcome where
  keys_swapped : Bool
  vals_swapped : Bool
  keys_residue : List Nat
  vals_residue : List Nat

/-- Modelled from the spec: execution of `rocprim::radix_sort_pairs(temp, size, keys,
values, size, begin_bit, end_bit)` on double buffers (rocPRIM, external). The first `size`
key/value pairs are stably sorted on the key bits `[begin_bit, end_bit)`; the result is in
the buffers designated `current` afterwards ("ping-pong may leave the result in either
buffer"), and the other buffer of each pair holds leftovers of the passes. -/
def radix_sort_pairs {α : Type} (o : SortOutcome) (mem : Mem α) (keys vals : double_buffer)
    (size begin_bit end_bit : Nat) : Mem α × double_buffer × double_buffer :=
  let sorted := radix_sort begin_bit end_bit
    (((mem.read keys.current).take size).zip ((mem.read vals.current).take size))
  let keys1 : double_buffer :=
    if o.keys_swapped then ⟨keys.alternate, keys.current⟩ else keys
  let vals1 : double_buffer :=
    if o.vals_swapped then ⟨vals.alternate, vals.current⟩ else vals
  let mem1 := mem.write keys1.alternate (o.keys_residue.take size)
  let mem2 := mem1.write vals1.alternate (o.vals_residue.take size)
  let mem3 := mem2.write keys1.current (sorted.map Prod.fst)
  let mem4 := mem3.write vals1.current (sorted.map Prod.snd)
  (mem4, keys1, vals1)

/-! ## Scratch arithmetic -/

/-- Width of `size_t`. -/
def SIZE_BITS : Nat := 64

/-- The expression `((x - 1) / 256 + 1) * 256` on `size_t`. -/
def align256 (x : Nat) : Nat :=
  ((((x + 2 ^ SIZE_BITS - 1) % 2 ^ SIZE_BITS) / 256 + 1) * 256) % 2 ^ SIZE_BITS

/-- The product `sizeof(X) * nnz` on `size_t`. -/
def bytes_of (width nnz : Nat) : Nat := (width * nnz) % 2 ^ SIZE_BITS

/-- Byte offsets, from `temp_buffer`, of the regions carved by `rocsparse_csr2csc_core`. -/
structure ScratchLayout where
  work1 : Nat
  work2 : Nat
  perm : Nat
  rocprim : Nat
  deriving DecidableEq, Repr

/-- The pointer arithmetic of `rocsparse_csr2csc_core`: `tmp_work1` holds `J`, and
`tmp_work2` and `tmp_perm` hold `J` in symbolic mode and `I` in numeric mode. -/
def rocsparse_csr2csc_core_layout (sizeof_I sizeof_J nnz : Nat)
    (copy_values : rocsparse_action) : ScratchLayout :=
  let p0 := 0
  let p1 := (p0 + align256 (bytes_of sizeof_J nnz)) % 2 ^ SIZE_BITS
  match copy_values with
  | .symbolic =>
    let p2 := (p1 + align256 (bytes_of sizeof_J nnz)) % 2 ^ SIZE_BITS
    let p3 := (p2 + align256 (bytes_of sizeof_J nnz)) % 2 ^ SIZE_BITS
    ⟨p0, p1, p2, p3⟩
  | .numeric =>
    let p2 := (p1 + align256 (bytes_of sizeof_I nnz)) % 2 ^ SIZE_BITS
    let p3 := (p2 + align256 (bytes_of sizeof_I nnz)) % 2 ^ SIZE_BITS
    ⟨p0, p1, p2, p3⟩

/-- Size query of `rocprim::radix_sort_pairs` (null temporary storage): given the key
width, the value width, the element count and the bit range, it reports the scratch
bytes the sort needs, or fails with the status the HIP error maps to. -/
abbrev SortStorageQuery := Nat → Nat → Nat → Nat → Nat → Except rocsparse_status Nat

/-- `rocsparse_csr2csc_buffer_size_core`: the value left in `*buffer_size`. -/
def rocsparse_csr2csc_buffer_size_core (query : SortStorageQuery) (sizeof_I sizeof_J : Nat)
    (_m _n nnz : Nat) (_copy_values : rocsparse_action) (buffer_size : Nat) :
    rocsparse_status × Nat :=
  match query sizeof_J sizeof_J nnz 0 32 with
  | .error e => (e, buffer_size)
  | .ok s =>
    let b0 := align256 (s % 2 ^ SIZE_BITS)
    let b1 := (b0 + align256 (bytes_of sizeof_J nnz)) % 2 ^ SIZE_BITS
    let b2 := (b1 + align256 (bytes_of (max sizeof_I sizeof_J) nnz)) % 2 ^ SIZE_BITS
    let b3 := (b2 + align256 (bytes_of (max sizeof_I sizeof_J) nnz)) % 2 ^ SIZE_BITS
    (.success, b3)

/-- `rocsparse_csr2csc_buffer_size_template`. -/
def rocsparse_csr2csc_buffer_size_template (query : SortStorageQuery)
    (sizeof_I sizeof_J : Nat) (m n nnz : Nat) (copy_values : rocsparse_action)
    (buffer_size : Nat) : rocsparse_status × Nat :=
  if m = 0 ∨ n = 0 ∨ nnz = 0 then (.success, 0)
  else rocsparse_csr2csc_buffer_size_core query sizeof_I sizeof_J m n nnz copy_values
    buffer_size

/-- The (row-offset width, column-index width) pairs for which the conversion is
instantiated: `(int32_t, int32_t)`, `(int64_t, int32_t)` and `(int64_t, int64_t)`. -/
def instantiated_widths (sizeof_I sizeof_J : Nat) : Prop :=
  (sizeof_I = 4 ∧ sizeof_J = 4) ∨ (sizeof_I = 8 ∧ sizeof_J = 4) ∨ (sizeof_I = 8 ∧ sizeof_J = 8)

instance (sizeof_I sizeof_J : Nat) : Decidable (instantiated_widths sizeof_I sizeof_J) := by
  unfold instantiated_widths
  infer_instance

/-! ## The transform -/

/-- `rocsparse_csr2csc_core`. `rocsparse_clz` (utility.h) is declared outside the
translated file and is a parameter; `o` resolves what the sort leaves unspecified. -/
def rocsparse_csr2csc_core {α : Type} (rocsparse_clz : Nat → Nat) (o : SortOutcome)
    (m n nnz : Nat) (csr_val : List α)
    (csr_row_ptr_begin csr_row_ptr_end csr_col_ind : List Nat)
    (copy_values : rocsparse_action) (idx_base : rocsparse_index_base) (mem : Mem α) :
    rocsparse_status × Mem α :=
  let startbit := 0
  let endbit := rocsparse_clz n
  -- Load CSR column indices into work1 buffer
  let mem := { mem with tmp_work1 := hipMemcpyAsync mem.tmp_work1 csr_col_ind nnz }
  match copy_values with
  | .symbolic =>
    -- Create row indices
    let mem := { mem with csc_row_ind :=
      rocsparse_csr2coo_core csr_row_ptr_begin csr_row_ptr_end nnz m mem.csc_row_ind idx_base }
    -- Stable sort COO by columns
    let keys : double_buffer := ⟨.tmp_work1, .tmp_perm⟩
    let vals : double_buffer := ⟨.csc_row_ind, .tmp_work2⟩
    let (mem, keys, vals) := radix_sort_pairs o mem keys vals nnz startbit endbit
    -- Create column pointers
    let mem := { mem with csc_col_ptr :=
      rocsparse_coo2csr_core (mem.read keys.current) nnz n mem.csc_col_ptr idx_base }
    -- Copy csc_row_ind if not current
    let mem :=
      if vals.current ≠ Buf.csc_row_ind then
        { mem with csc_row_ind := hipMemcpyAsync mem.csc_row_ind (mem.read vals.current) nnz }
      else mem
    (.success, mem)
  | .numeric =>
    -- Create identity permutation
    let mem := { mem with tmp_perm :=
      rocsparse_create_identity_permutation_core nnz mem.tmp_perm }
    -- Stable sort COO by columns
    let keys : double_buffer := ⟨.tmp_work1, .csc_row_ind⟩
    let vals : double_buffer := ⟨.tmp_perm, .tmp_work2⟩
    let (mem, keys, vals) := radix_sort_pairs o mem keys vals nnz startbit endbit
    -- Create column pointers
    let mem := { mem with csc_col_ptr :=
      rocsparse_coo2csr_core (mem.read keys.current) nnz n mem.csc_col_ptr idx_base }
    -- Create row indices
    let mem := { mem with tmp_work1 :=
      rocsparse_csr2coo_core csr_row_ptr_begin csr_row_ptr_end nnz m mem.tmp_work1 idx_base }
    -- Permute row indices and values
    let out := hipLaunchKernelGGL ((nnz - 1) / 512 + 1) 512
      (csr2csc_permute_kernel 512 nnz mem.tmp_work1 csr_val (mem.read vals.current))
      (mem.csc_row_ind, mem.csc_val)
    (.success, { mem with csc_row_ind := out.1, csc_val := out.2 })

/-- Conversion of an integer to the signed integer type of `bits` bits; a value out of
range wraps around (two's complement). -/
def wrap_signed (bits : Nat) (x : Int) : Int :=
  (x + 2 ^ (bits - 1)) % 2 ^ bits - 2 ^ (bits - 1)

/-- `rocsparse_csr2csc_template`. `sizeof_J` is the width in bytes of the type `J` of the
dimensions: the kernel argument `(n + 1)` is computed in `J`, and a size that is not
positive lets no thread write. -/
def rocsparse_csr2csc_template {α : Type} (sizeof_J : Nat) (rocsparse_clz : Nat → Nat)
    (o : SortOutcome)
    (m n nnz : Nat) (csr_val : List α) (csr_row_ptr csr_col_ind : List Nat)
    (copy_values : rocsparse_action) (idx_base : rocsparse_index_base)
    (st : DeviceState α) : rocsparse_status × DeviceState α :=
  -- Quick return if possible
  if m = 0 ∨ n = 0 then (.success, st)
  else if nnz = 0 then
    let size := (wrap_signed (8 * sizeof_J) ((n : Int) + 1)).toNat
    let filled := hipLaunchKernelGGL (n / 256 + 1) 256
      (set_array_to_value 256 size idx_base.val) st.csc_col_ptr
    (.success, { st with csc_col_ptr := filled })
  else
    match st.temp_buffer with
    | none => (.invalid_pointer, st)
    | some s =>
      let r := rocsparse_csr2csc_core rocsparse_clz o m n nnz csr_val csr_row_ptr
        (csr_row_ptr.drop 1) csr_col_ind copy_values idx_base
        ⟨st.csc_val, st.csc_row_ind, st.csc_col_ptr, s.tmp_work1, s.tmp_work2, s.tmp_perm⟩
      (r.1, ⟨r.2.csc_val, r.2.csc_row_ind, r.2.csc_col_ptr,
        some ⟨r.2.tmp_work1, r.2.tmp_work2, r.2.tmp_perm⟩⟩)

/-! ## Reference semantics -/

/-- Well-formed CSR structure: `m + 1` non-decreasing row offsets from `idx_base` to
`idx_base + nnz`, and `nnz` column indices in `[idx_base, idx_base + n)`. -/
def valid_csr (m n nnz : Nat) (idx_base : rocsparse_index_base)
    (csr_row_ptr csr_col_ind : List Nat) : Prop :=
  csr_row_ptr.length = m + 1 ∧ csr_row_ptr[0]? = some idx_base.val ∧
  csr_row_ptr[m]? = some (idx_base.val + nnz) ∧
  csr_row_ptr.Pairwise (fun a b => a ≤ b) ∧
  csr_col_ind.length = nnz ∧
  ∀ c ∈ csr_col_ind, idx_base.val ≤ c ∧ c < idx_base.val + n

instance (m n nnz : Nat) (idx_base : rocsparse_index_base)
    (csr_row_ptr csr_col_ind : List Nat) :
    Decidable (valid_csr m n nnz idx_base csr_row_ptr csr_col_ind) := by
  unfold valid_csr
  infer_instance

/-- Row (counted from 0) of the nonzero stored at CSR position `p`: the number of rows
that end at or before `p`. -/
def csr_row_of (csr_row_ptr : List Nat) (idx_base : rocsparse_index_base) (p : Nat) : Nat :=
  ((csr_row_ptr.drop 1).filter (fun e => decide (e ≤ p + idx_base.val))).length

/-- The nonzeros of a CSR matrix in storage order, as (row, column, value) with both
indices expressed in the index base. -/
def csr_nonzeros {α : Type} (csr_row_ptr csr_col_ind : List Nat) (csr_val : List α)
    (idx_base : rocsparse_index_base) : List (Nat × Nat × α) :=
  ((List.range csr_col_ind.length).map
      (fun p => csr_row_of csr_row_ptr idx_base p + idx_base.val)).zip
    (csr_col_ind.zip csr_val)

/-- Nonzeros listed by ascending column, those of one column in their given order. -/
def by_column {ρ α : Type} (n : Nat) (idx_base : rocsparse_index_base)
    (nz : List (ρ × Nat × α)) : List (ρ × Nat × α) :=
  (List.range n).flatMap
    (fun j => nz.filter (fun t => decide (t.2.1 = idx_base.val + j)))

/-- Number of nonzeros whose column (counted from 0) is below `j`. -/
def count_below {ρ α : Type} (idx_base : rocsparse_index_base) (nz : List (ρ × Nat × α))
    (j : Nat) : Nat :=
  (nz.filter (fun t => decide (t.2.1 < idx_base.val + j))).length

/-- The sparsity pattern of a CSR matrix: its nonzeros with the values erased. -/
def csr_pattern (csr_row_ptr csr_col_ind : List Nat) (idx_base : rocsparse_index_base) :
    List (Nat × Nat × Unit) :=
  csr_nonzeros csr_row_ptr csr_col_ind (List.replicate csr_col_ind.length ()) idx_base

/-- The part of a CSC array `xs` that the offsets `csc_col_ptr` assign to column `j`. -/
def column_slice {β : Type} (idx_base : rocsparse_index_base) (csc_col_ptr : List Nat)
    (xs : List β) (j : Nat) : List β :=
  (xs.drop (csc_col_ptr.getD j 0 - idx_base.val)).take
    (csc_col_ptr.getD (j + 1) 0 - csc_col_ptr.getD j 0)

/-- Output position of the nonzero stored at CSR position `p` under a stable ordering by
column: the nonzeros of smaller column, then the earlier nonzeros of the same column. -/
def csc_position (csr_col_ind : List Nat) (p : Nat) : Nat :=
  (csr_col_ind.filter (fun c => decide (c < csr_col_ind.getD p 0))).length
    + ((csr_col_ind.take p).filter (fun c => decide (c = csr_col_ind.getD p 0))).length

/-! ## The validation layer -/

/-- The library handle as the entry points see it: `none` is the null pointer. -/
abbrev rocsparse_handle := Option Unit

/-- Modelled from the spec: `rocsparse_enum_utils::is_invalid` (enum_utils.hpp). "Invalid
value — an enumerated option outside its valid set": an argument of enumeration type is
`some v` for a member `v` of the set and `none` for any other integer. -/
def rocsparse_enum_utils.is_invalid {ε : Type} (value : Option ε) : Bool :=
  value.isNone

/-- The output and scratch pointers handed to `rocsparse_csr2csc_impl`; `none` is the
null pointer. -/
structure DevicePointers (α : Type) where
  csc_val : Option (List α)
  csc_row_ind : Option (List Nat)
  csc_col_ptr : Option (List Nat)
  temp_buffer : Option Scratch

/-- The arrays behind the pointers (nothing behind a null pointer). -/
def DevicePointers.deref {α : Type} (p : DevicePointers α) : DeviceState α :=
  ⟨p.csc_val.getD [], p.csc_row_ind.getD [], p.csc_col_ptr.getD [], p.temp_buffer⟩

/-- The pointers after the arrays behind them have been updated; a null pointer stays
null. -/
def DevicePointers.store {α : Type} (p : DevicePointers α) (st : DeviceState α) :
    DevicePointers α :=
  ⟨p.csc_val.map (fun _ => st.csc_val), p.csc_row_ind.map (fun _ => st.csc_row_ind),
    p.csc_col_ptr.map (fun _ => st.csc_col_ptr), st.temp_buffer⟩

/-- The argument checks of `rocsparse_csr2csc_impl` (everything before the call of
`rocsparse_csr2csc_template`): `some e` when a check returns the status `e`, `none` when
all checks pass. Logging is omitted. -/
def rocsparse_csr2csc_impl_checks {α : Type} (handle : rocsparse_handle) (m n nnz : Int)
    (csr_val : Option (List α)) (csr_row_ptr csr_col_ind : Option (List Nat))
    (csc_val : Option (List α)) (csc_row_ind csc_col_ptr : Option (List Nat))
    (copy_values : Option rocsparse_action) (idx_base : Option rocsparse_index_base) :
    Option rocsparse_status :=
  -- Check for valid handle and matrix descriptor
  if handle.isNone then some .invalid_handle
  -- Check action
  else if rocsparse_enum_utils.is_invalid copy_values then some .invalid_value
  -- Check index base
  else if rocsparse_enum_utils.is_invalid idx_base then some .invalid_value
  -- Check sizes
  else if m < 0 ∨ n < 0 ∨ nnz < 0 then some .invalid_size
  -- Check pointer arguments
  else if (m > 0 ∧ csr_row_ptr.isNone) ∨ (n > 0 ∧ csc_col_ptr.isNone) then
    some .invalid_pointer
  else if copy_values = some .numeric then
    -- value arrays and column indices arrays must both be null (zero matrix) or both not null
    if (csr_val.isNone ∧ ¬ csr_col_ind.isNone) ∨ (¬ csr_val.isNone ∧ csr_col_ind.isNone) then
      some .invalid_pointer
    else if (csc_val.isNone ∧ ¬ csc_row_ind.isNone)
        ∨ (¬ csc_val.isNone ∧ csc_row_ind.isNone) then
      some .invalid_pointer
    else if nnz ≠ 0 ∧ (csr_val.isNone ∧ csr_col_ind.isNone) then some .invalid_pointer
    else if nnz ≠ 0 ∧ (csc_val.isNone ∧ csc_row_ind.isNone) then some .invalid_pointer
    else none
  else
    -- if copying symbolically, then column/row indices arrays can only be null if the zero matrix
    if nnz ≠ 0 ∧ (csr_col_ind.isNone ∨ csc_row_ind.isNone) then some .invalid_pointer
    else none

/-- `rocsparse_csr2csc_impl`: the argument checks, then `rocsparse_csr2csc_template` on
the arrays behind the pointers. -/
def rocsparse_csr2csc_impl {α : Type} (sizeof_J : Nat) (rocsparse_clz : Nat → Nat)
    (o : SortOutcome)
    (handle : rocsparse_handle) (m n nnz : Int)
    (csr_val : Option (List α)) (csr_row_ptr csr_col_ind : Option (List Nat))
    (copy_values : Option rocsparse_action) (idx_base : Option rocsparse_index_base)
    (p : DevicePointers α) : rocsparse_status × DevicePointers α :=
  match rocsparse_csr2csc_impl_checks handle m n nnz csr_val csr_row_ptr csr_col_ind
      p.csc_val p.csc_row_ind p.csc_col_ptr copy_values idx_base with
  | some e => (e, p)
  | none =>
    match copy_values, idx_base with
    | some act, some base =>
      let r := rocsparse_csr2csc_template sizeof_J rocsparse_clz o m.toNat n.toNat nnz.toNat
        (csr_val.getD []) (csr_row_ptr.getD []) (csr_col_ind.getD []) act base p.deref
      (r.1, p.store r.2)
    | _, _ => (.invalid_value, p)

/-- `rocsparse_csr2csc_buffer_size_impl`; `buffer_size` is the pointer to the result and
the value behind it. Logging is omitted. -/
def rocsparse_csr2csc_buffer_size_impl (query : SortStorageQuery) (sizeof_I sizeof_J : Nat)
    (handle : rocsparse_handle) (m n nnz : Int) (csr_row_ptr csr_col_ind : Option (List Nat))
    (copy_values : Option rocsparse_action) (buffer_size : Option Nat) :
    rocsparse_status × Option Nat :=
  -- Check for valid handle
  if handle.isNone then (.invalid_handle, buffer_size)
  -- Check action
  else if rocsparse_enum_utils.is_invalid copy_values then (.invalid_value, buffer_size)
  -- Check sizes
  else if m < 0 ∨ n < 0 ∨ nnz < 0 then (.invalid_size, buffer_size)
  -- Check buffer size argument
  else if buffer_size.isNone then (.invalid_pointer, buffer_size)
  -- Check pointer arguments
  else if m > 0 ∧ csr_row_ptr.isNone then (.invalid_pointer, buffer_size)
  else if nnz > 0 ∧ csr_col_ind.isNone then (.invalid_pointer, buffer_size)
  else
    match copy_values, buffer_size with
    | some act, some b =>
      let r := rocsparse_csr2csc_buffer_size_template query sizeof_I sizeof_J m.toNat
        n.toNat nnz.toNat act b
      (r.1, some r.2)
    | _, _ => (.invalid_value, buffer_size)

/-! ## The end bit of the sort, as specified -/

/-- Modelled from the spec: `rocsparse_clz` (utility.h), the end bit of the sort: "bit
range covers `[0, ceil(log2(n)))`". -/
def rocsparse_clz (n : Nat) : Nat := Nat.clog 2 n

/-! ## Sparse dot product

Source: `library/src/level1/rocsparse_spvv.cpp`.  The pointers `result`, `buffer_size` and
`temp_buffer` are options (`none` is the null pointer) and a call returns the status
together with the values behind `buffer_size` and `result` afterwards.  The `catch(...)`
handler of the C wrapper is not modelled: nothing in the model throws. -/

/-- The operation applied to the sparse vector (`rocsparse_operation`). -/
inductive rocsparse_operation where
  | none
  | transpose
  | conjugate_transpose
  deriving DecidableEq, Repr

/-- The data types of vector entries and of the computation (`rocsparse_datatype`). -/
inductive rocsparse_datatype where
  | f32_r
  | f64_r
  | f32_c
  | f64_c
  | i8_r
  | u8_r
  | i32_r
  | u32_r
  deriving DecidableEq, Repr

/-- The index types (`rocsparse_indextype`). -/
inductive rocsparse_indextype where
  | u16
  | i32
  | i64
  deriving DecidableEq, Repr

/-- The C++ types that `RETURN_SPVV` instantiates the templates with. -/
inductive CType where
  | float
  | double
  | int8_t
  | int32_t
  | int64_t
  | rocsparse_float_complex
  | rocsparse_double_complex
  deriving DecidableEq, Repr

/-- The fields of a sparse vector descriptor (`rocsparse_const_spvec_descr`) that
`rocsparse_spvv` reads; `δ` is the type of device data. -/
structure rocsparse_spvec_descr (δ : Type) where
  init : Bool
  nnz : Int
  idx_data : δ
  val_data : δ
  idx_type : rocsparse_indextype
  data_type : rocsparse_datatype
  idx_base : rocsparse_index_base

/-- The fields of a dense vector descriptor (`rocsparse_const_dnvec_descr`) that
`rocsparse_spvv` reads. -/
structure rocsparse_dnvec_descr (δ : Type) where
  init : Bool
  values : δ
  data_type : rocsparse_datatype

/-- The shape of `rocsparse_doti_template` and `rocsparse_dotci_template`
(rocsparse_doti.hpp, rocsparse_dotci.hpp), which are parameters of the model: for the
instantiation `<T, I, X, Y>`, the count `nnz` (a value of `I`), the values and indices of
`x`, the values of `y`, the contents of `result` and the index base, they give a status
and the new contents of `result`. -/
abbrev DotTemplate (δ ρ : Type) :=
  CType → CType → CType → CType → Int → δ → δ → δ → Option ρ → rocsparse_index_base →
    rocsparse_status × Option ρ

/-- The cast `(I)v` of a 64-bit integer to the index type `I`: `int32_t` keeps the low 32
bits (two's complement), `int64_t` keeps the value. -/
def cast_index (I : CType) (v : Int) : Int :=
  match I with
  | .int32_t => wrap_signed 32 v
  | _ => wrap_signed 64 v

/-- `rocsparse_spvv_template_real<T, I, X, Y>`. -/
def rocsparse_spvv_template_real {δ ρ : Type} (rocsparse_doti_template : DotTemplate δ ρ)
    (T I X Y : CType) (_trans : rocsparse_operation) (x : rocsparse_spvec_descr δ)
    (y : rocsparse_dnvec_descr δ) (result : Option ρ) (compute_type : rocsparse_datatype)
    (buffer_size : Option Nat) (temp_buffer : Option Unit) :
    rocsparse_status × Option Nat × Option ρ :=
  -- If temp_buffer is nullptr, return buffer_size
  if temp_buffer.isNone then
    -- We do not need a buffer
    (.success, buffer_size.map (fun _ => 4), result)
  -- real precision
  else if compute_type = .i32_r ∨ compute_type = .f32_r ∨ compute_type = .f64_r then
    let r := rocsparse_doti_template T I X Y (cast_index I x.nnz) x.val_data x.idx_data y.values
        result
      x.idx_base
    (r.1, buffer_size, r.2)
  else (.not_implemented, buffer_size, result)

/-- `rocsparse_spvv_template_complex<T, I, X, Y>`. -/
def rocsparse_spvv_template_complex {δ ρ : Type}
    (rocsparse_doti_template rocsparse_dotci_template : DotTemplate δ ρ)
    (T I X Y : CType) (trans : rocsparse_operation) (x : rocsparse_spvec_descr δ)
    (y : rocsparse_dnvec_descr δ) (result : Option ρ) (compute_type : rocsparse_datatype)
    (buffer_size : Option Nat) (temp_buffer : Option Unit) :
    rocsparse_status × Option Nat × Option ρ :=
  -- If temp_buffer is nullptr, return buffer_size
  if temp_buffer.isNone then
    -- We do not need a buffer
    (.success, buffer_size.map (fun _ => 4), result)
  -- complex precision
  else if compute_type = .f32_c ∨ compute_type = .f64_c then
    -- non transpose
    if trans = .none then
      let r := rocsparse_doti_template T I X Y (cast_index I x.nnz) x.val_data x.idx_data y.values
          result
        x.idx_base
      (r.1, buffer_size, r.2)
    -- conjugate transpose
    else if trans = .conjugate_transpose then
      let r := rocsparse_dotci_template T I X Y (cast_index I x.nnz) x.val_data x.idx_data y.values
          result
        x.idx_base
      (r.1, buffer_size, r.2)
    else (.not_implemented, buffer_size, result)
  else (.not_implemented, buffer_size, result)

/-- The macro `RETURN_SPVV(itype, xtype, ytype, ctype, ...)`: `some r` when one of its
twelve `if` statements returns `r`, `none` when control falls through. `real` and
`complex` stand for the two templates applied to the macro's trailing arguments. -/
def RETURN_SPVV {R : Type} (itype : rocsparse_indextype)
    (xtype ytype ctype : rocsparse_datatype)
    (real complex : CType → CType → CType → CType → R) : Option R :=
  if ctype = .f32_r ∧ itype = .i32 ∧ xtype = .f32_r ∧ ytype = .f32_r then
    some (real .float .int32_t .float .float)
  else if ctype = .f64_r ∧ itype = .i32 ∧ xtype = .f64_r ∧ ytype = .f64_r then
    some (real .double .int32_t .double .double)
  else if ctype = .f32_c ∧ itype = .i32 ∧ xtype = .f32_c ∧ ytype = .f32_c then
    some (complex .rocsparse_float_complex .int32_t .rocsparse_float_complex
      .rocsparse_float_complex)
  else if ctype = .f64_c ∧ itype = .i32 ∧ xtype = .f64_c ∧ ytype = .f64_c then
    some (complex .rocsparse_double_complex .int32_t .rocsparse_double_complex
      .rocsparse_double_complex)
  else if ctype = .i32_r ∧ itype = .i32 ∧ xtype = .i8_r ∧ ytype = .i8_r then
    some (real .int32_t .int32_t .int8_t .int8_t)
  else if ctype = .f32_r ∧ itype = .i32 ∧ xtype = .i8_r ∧ ytype = .i8_r then
    some (real .float .int32_t .int8_t .int8_t)
  else if ctype = .f32_r ∧ itype = .i64 ∧ xtype = .f32_r ∧ ytype = .f32_r then
    some (real .float .int64_t .float .float)
  else if ctype = .f64_r ∧ itype = .i64 ∧ xtype = .f64_r ∧ ytype = .f64_r then
    some (real .double .int64_t .double .double)
  else if ctype = .f32_c ∧ itype = .i64 ∧ xtype = .f32_c ∧ ytype = .f32_c then
    some (complex .rocsparse_float_complex .int64_t .rocsparse_float_complex
      .rocsparse_float_complex)
  else if ctype = .f64_c ∧ itype = .i64 ∧ xtype = .f64_c ∧ ytype = .f64_c then
    some (complex .rocsparse_double_complex .int64_t .rocsparse_double_complex
      .rocsparse_double_complex)
  else if ctype = .i32_r ∧ itype = .i64 ∧ xtype = .i8_r ∧ ytype = .i8_r then
    some (real .int32_t .int64_t .int8_t .int8_t)
  else if ctype = .f32_r ∧ itype = .i64 ∧ xtype = .i8_r ∧ ytype = .i8_r then
    some (real .float .int64_t .int8_t .int8_t)
  else none

/-- `rocsparse_spvv` (the C wrapper). Logging is omitted. -/
def rocsparse_spvv {δ ρ : Type}
    (rocsparse_doti_template rocsparse_dotci_template : DotTemplate δ ρ)
    (handle : rocsparse_handle) (trans : Option rocsparse_operation)
    (x : Option (rocsparse_spvec_descr δ)) (y : Option (rocsparse_dnvec_descr δ))
    (result : Option ρ) (compute_type : Option rocsparse_datatype)
    (buffer_size : Option Nat) (temp_buffer : Option Unit) :
    rocsparse_status × Option Nat × Option ρ :=
  -- Check for invalid handle
  if handle.isNone then (.invalid_handle, buffer_size, result)
  -- Check operation
  else if rocsparse_enum_utils.is_invalid trans then (.invalid_value, buffer_size, result)
  -- Check compute type
  else if rocsparse_enum_utils.is_invalid compute_type then
    (.invalid_value, buffer_size, result)
  -- Check for invalid descriptors
  else if x.isNone then (.invalid_pointer, buffer_size, result)
  else if y.isNone then (.invalid_pointer, buffer_size, result)
  -- Check for valid pointers
  else if result.isNone then (.invalid_pointer, buffer_size, result)
  -- Check for valid buffer_size pointer only if temp_buffer is nullptr
  else if temp_buffer.isNone ∧ buffer_size.isNone then (.invalid_pointer, buffer_size, result)
  else
    match trans, compute_type, x, y with
    | some trans, some compute_type, some x, some y =>
      -- Check if descriptors are initialized
      if x.init = false ∨ y.init = false then (.not_initialized, buffer_size, result)
      else
        match RETURN_SPVV x.idx_type x.data_type y.data_type compute_type
          (fun T I X Y => rocsparse_spvv_template_real rocsparse_doti_template T I X Y trans
            x y result compute_type buffer_size temp_buffer)
          (fun T I X Y => rocsparse_spvv_template_complex rocsparse_doti_template
            rocsparse_dotci_template T I X Y trans x y result compute_type buffer_size
            temp_buffer) with
        | some r => r
        | none => (.not_implemented, buffer_size, result)
    | _, _, _, _ => (.invalid_value, buffer_size, result)

/-- The twelve combinations `(index type, x type, y type, compute type)` that
`RETURN_SPVV` dispatches, in the order of the macro. -/
def spvv_dispatch_table :
    List (rocsparse_indextype × rocsparse_datatype × rocsparse_datatype
      × rocsparse_datatype) :=
  [(.i32, .f32_r, .f32_r, .f32_r), (.i32, .f64_r, .f64_r, .f64_r),
   (.i32, .f32_c, .f32_c, .f32_c), (.i32, .f64_c, .f64_c, .f64_c),
   (.i32, .i8_r, .i8_r, .i32_r), (.i32, .i8_r, .i8_r, .f32_r),
   (.i64, .f32_r, .f32_r, .f32_r), (.i64, .f64_r, .f64_r, .f64_r),
   (.i64, .f32_c, .f32_c, .f32_c), (.i64, .f64_c, .f64_c, .f64_c),
   (.i64, .i8_r, .i8_r, .i32_r), (.i64, .i8_r, .i8_r, .f32_r)]

/-! ## The sort primitive is a stable ascending sort -/

theorem radix_pass_filter_key {β : Type} (b c : Nat) (l : List (Nat × β)) :
    (radix_pass b l).filter (fun p => decide (p.1 = c)) = l.filter (fun p => decide (p.1 = c)) := by
  unfold radix_pass
  rw [List.filter_append, List.filter_filter, List.filter_filter]
  cases hc : c.testBit b
  · have h1 : l.filter (fun p => decide (p.1 = c) && p.1.testBit b) = [] := by
      rw [List.filter_eq_nil_iff]
      intro p _ hp
      simp only [Bool.and_eq_true, decide_eq_true_eq] at hp
      rw [hp.1, hc] at hp
      exact Bool.noConfusion hp.2
    rw [h1, List.append_nil]
    apply List.filter_congr
    intro p _
    by_cases hp : p.1 = c
    · simp [hp, hc]
    · simp [hp]
  · have h1 : l.filter (fun p => decide (p.1 = c) && !p.1.testBit b) = [] := by
      rw [List.filter_eq_nil_iff]
      intro p _ hp
      simp only [Bool.and_eq_true, decide_eq_true_eq, Bool.not_eq_true'] at hp
      rw [hp.1, hc] at hp
      exact Bool.noConfusion hp.2
    rw [h1, List.nil_append]
    apply List.filter_congr
    intro p _
    by_cases hp : p.1 = c
    · simp [hp, hc]
    · simp [hp]

theorem radix_sort_succ {β : Type} (e : Nat) (l : List (Nat × β)) :
    radix_sort 0 (e + 1) l = radix_pass e (radix_sort 0 e l) := by
  unfold radix_sort
  simp only [Nat.sub_zero]
  rw [List.range'_concat, List.foldl_append]
  simp

theorem radix_sort_zero {β : Type} (l : List (Nat × β)) : radix_sort 0 0 l = l := by
  simp [radix_sort]

theorem radix_sort_filter_key {β : Type} (e c : Nat) (l : List (Nat × β)) :
    (radix_sort 0 e l).filter (fun p => decide (p.1 = c)) = l.filter (fun p => decide (p.1 = c)) :=
        by
  induction e with
  | zero => rw [radix_sort_zero]
  | succ e ih => rw [radix_sort_succ, radix_pass_filter_key, ih]

theorem radix_pass_perm {β : Type} (b : Nat) (l : List (Nat × β)) :
    (radix_pass b l).Perm l := by
  unfold radix_pass
  have h := List.filter_append_perm (fun p : Nat × β => p.1.testBit b) l
  exact (List.perm_append_comm.trans h)

theorem radix_sort_perm {β : Type} (e : Nat) (l : List (Nat × β)) :
    (radix_sort 0 e l).Perm l := by
  induction e with
  | zero => rw [radix_sort_zero]
  | succ e ih => rw [radix_sort_succ]; exact (radix_pass_perm e _).trans ih

theorem radix_pass_map {β γ : Type} (f : β → γ) (b : Nat) (l : List (Nat × β)) :
    radix_pass b (l.map (Prod.map id f)) = (radix_pass b l).map (Prod.map id f) := by
  unfold radix_pass
  rw [List.map_append, List.filter_map, List.filter_map]
  rfl

theorem radix_sort_map {β γ : Type} (f : β → γ) (e : Nat) (l : List (Nat × β)) :
    radix_sort 0 e (l.map (Prod.map id f)) = (radix_sort 0 e l).map (Prod.map id f) := by
  induction e with
  | zero => simp [radix_sort_zero]
  | succ e ih => rw [radix_sort_succ, radix_sort_succ, ih, radix_pass_map]

theorem testBit_false_mod_succ (x e : Nat) (h : x.testBit e = false) :
    x % 2 ^ (e + 1) = x % 2 ^ e := by
  rw [Nat.testBit_to_div_mod] at h
  have h2 : x / 2 ^ e % 2 = 0 := by
    have := Nat.mod_two_eq_zero_or_one (x / 2 ^ e)
    simp only [decide_eq_false_iff_not] at h
    omega
  rw [Nat.mod_pow_succ, h2]
  simp

theorem testBit_true_mod_succ (x e : Nat) (h : x.testBit e = true) :
    x % 2 ^ (e + 1) = x % 2 ^ e + 2 ^ e := by
  rw [Nat.testBit_to_div_mod] at h
  simp only [decide_eq_true_eq] at h
  rw [Nat.mod_pow_succ, h]
  simp

theorem radix_pass_sorted {β : Type} (e : Nat) (l : List (Nat × β))
    (h : l.Pairwise (fun p q => p.1 % 2 ^ e ≤ q.1 % 2 ^ e)) :
    (radix_pass e l).Pairwise (fun p q => p.1 % 2 ^ (e + 1) ≤ q.1 % 2 ^ (e + 1)) := by
  unfold radix_pass
  rw [List.pairwise_append]
  refine ⟨?_, ?_, ?_⟩
  · refine List.Pairwise.imp_of_mem ?_ (h.filter _)
    intro p q hp hq hpq
    have hp2 := (List.mem_filter.mp hp).2
    have hq2 := (List.mem_filter.mp hq).2
    simp only [Bool.not_eq_true'] at hp2 hq2
    rw [testBit_false_mod_succ _ _ hp2, testBit_false_mod_succ _ _ hq2]
    exact hpq
  · refine List.Pairwise.imp_of_mem ?_ (h.filter _)
    intro p q hp hq hpq
    have hp2 := (List.mem_filter.mp hp).2
    have hq2 := (List.mem_filter.mp hq).2
    rw [testBit_true_mod_succ _ _ hp2, testBit_true_mod_succ _ _ hq2]
    omega
  · intro p hp q hq
    have hp2 := (List.mem_filter.mp hp).2
    have hq2 := (List.mem_filter.mp hq).2
    simp only [Bool.not_eq_true'] at hp2
    rw [testBit_false_mod_succ _ _ hp2, testBit_true_mod_succ _ _ hq2]
    have := Nat.mod_lt p.1 (Nat.two_pow_pos e)
    omega

theorem radix_sort_sorted_mod {β : Type} (e : Nat) (l : List (Nat × β)) :
    (radix_sort 0 e l).Pairwise (fun p q => p.1 % 2 ^ e ≤ q.1 % 2 ^ e) := by
  induction e with
  | zero =>
    rw [radix_sort_zero]
    exact List.pairwise_of_forall (fun p q => by simp [Nat.mod_one])
  | succ e ih => rw [radix_sort_succ]; exact radix_pass_sorted e _ ih

theorem radix_sort_sorted {β : Type} (e : Nat) (l : List (Nat × β))
    (hbits : ∀ p ∈ l, p.1 < 2 ^ e) :
    (radix_sort 0 e l).Pairwise (fun p q => p.1 ≤ q.1) := by
  refine List.Pairwise.imp_of_mem ?_ (radix_sort_sorted_mod e l)
  intro p q hp hq hpq
  have hp2 := hbits p ((radix_sort_perm e l).mem_iff.mp hp)
  have hq2 := hbits q ((radix_sort_perm e l).mem_iff.mp hq)
  rwa [Nat.mod_eq_of_lt hp2, Nat.mod_eq_of_lt hq2] at hpq

theorem sorted_eq_filter_append {β : Type} (x : Nat) :
    ∀ (l : List (Nat × β)), l.Pairwise (fun p q => p.1 ≤ q.1) →
      l = l.filter (fun p => decide (p.1 < x)) ++ l.filter (fun p => !decide (p.1 < x))
  | [], _ => rfl
  | a :: t, h => by
    rw [List.pairwise_cons] at h
    by_cases ha : a.1 < x
    · have ih := sorted_eq_filter_append x t h.2
      simp only [List.filter_cons, ha, decide_True, Bool.not_true, if_true, List.cons_append]
      simp only [Bool.false_eq_true, if_false]
      rw [← ih]
    · have h1 : t.filter (fun p => decide (p.1 < x)) = [] := by
        rw [List.filter_eq_nil_iff]
        intro p hp hpx
        simp only [decide_eq_true_eq] at hpx
        have := h.1 p hp
        omega
      have h2 : t.filter (fun p => !decide (p.1 < x)) = t := by
        rw [List.filter_eq_self]
        intro p hp
        have := h.1 p hp
        simp only [Bool.not_eq_true', decide_eq_false_iff_not]
        omega
      simp only [List.filter_cons, ha, decide_False, Bool.not_false, if_true, h1, h2]
      simp

theorem sorted_eq_flatMap_filter {β : Type} (lo : Nat) :
    ∀ (N : Nat) (l : List (Nat × β)), l.Pairwise (fun p q => p.1 ≤ q.1) →
      (∀ p ∈ l, lo ≤ p.1 ∧ p.1 < lo + N) →
      l = (List.range N).flatMap (fun j => l.filter (fun p => decide (p.1 = lo + j)))
  | 0, l, _, hb => by
    cases l with
    | nil => rfl
    | cons a t =>
      have := hb a (List.mem_cons_self a t)
      omega
  | N + 1, l, hs, hb => by
    have hsplit := sorted_eq_filter_append (lo + N) l hs
    have ih := sorted_eq_flatMap_filter lo N (l.filter (fun p => decide (p.1 < lo + N)))
      (hs.filter _) (by
        intro p hp
        have hp1 := List.mem_filter.mp hp
        have := hb p hp1.1
        have h2 := hp1.2
        simp only [decide_eq_true_eq] at h2
        omega)
    have hlow : (List.range N).flatMap
        (fun j => (l.filter (fun p => decide (p.1 < lo + N))).filter
          (fun p => decide (p.1 = lo + j)))
        = (List.range N).flatMap (fun j => l.filter (fun p => decide (p.1 = lo + j))) := by
      apply List.flatMap_congr
      intro j hj
      rw [List.filter_filter]
      apply List.filter_congr
      intro p _
      have hj2 := List.mem_range.mp hj
      by_cases hpj : p.1 = lo + j
      · simp [hpj, hj2]
      · simp [hpj]
    have htop : l.filter (fun p => !decide (p.1 < lo + N))
        = l.filter (fun p => decide (p.1 = lo + N)) := by
      apply List.filter_congr
      intro p hp
      have := hb p hp
      by_cases hpN : p.1 = lo + N
      · simp [hpN]
      · have : p.1 < lo + N := by omega
        simp [hpN, this]
    rw [List.range_succ, List.flatMap_append, List.flatMap_singleton, ← hlow, ← ih, ← htop]
    exact hsplit

/-- The sort primitive on a bit range that covers the keys: the pairs come out grouped by
ascending key and, inside a key, in their input order. -/
theorem radix_sort_eq_flatMap {β : Type} (e lo N : Nat) (l : List (Nat × β))
    (hbits : ∀ p ∈ l, p.1 < 2 ^ e) (hrange : ∀ p ∈ l, lo ≤ p.1 ∧ p.1 < lo + N) :
    radix_sort 0 e l
      = (List.range N).flatMap (fun j => l.filter (fun p => decide (p.1 = lo + j))) := by
  have h1 := sorted_eq_flatMap_filter lo N (radix_sort 0 e l) (radix_sort_sorted e l hbits)
    (fun p hp => hrange p ((radix_sort_perm e l).mem_iff.mp hp))
  refine h1.trans ?_
  apply List.flatMap_congr
  intro j _
  exact radix_sort_filter_key e (lo + j) l

/-! ## Kernel launches -/

theorem foldl_threads_invariant {σ : Type} (T b : Nat) (kernel : Nat → Nat → σ → σ)
    (P : Nat → σ → Prop)
    (hstep : ∀ t acc, t < T → P (b * T + t) acc → P (b * T + t + 1) (kernel b t acc)) :
    ∀ t, t ≤ T → ∀ acc, P (b * T) acc →
      P (b * T + t) ((List.range t).foldl (fun acc2 t2 => kernel b t2 acc2) acc) := by
  intro t
  induction t with
  | zero => intro _ acc h; simpa using h
  | succ t ih =>
    intro ht acc h
    rw [List.range_succ, List.foldl_append]
    simp only [List.foldl_cons, List.foldl_nil]
    have := hstep t _ (by omega) (ih (by omega) acc h)
    simpa [Nat.add_assoc] using this

/-- Loop rule for a grid launch: a property indexed by the number of threads that have
run, established initially and preserved by each thread, holds at the end. -/
theorem hipLaunchKernelGGL_invariant {σ : Type} (B T : Nat) (kernel : Nat → Nat → σ → σ)
    (P : Nat → σ → Prop) (s : σ) (h0 : P 0 s)
    (hstep : ∀ b t acc, b < B → t < T → P (b * T + t) acc →
      P (b * T + t + 1) (kernel b t acc)) :
    P (B * T) (hipLaunchKernelGGL B T kernel s) := by
  unfold hipLaunchKernelGGL
  have key : ∀ b, b ≤ B → P (b * T) ((List.range b).foldl
      (fun acc b2 => (List.range T).foldl (fun acc2 t => kernel b2 t acc2) acc) s) := by
    intro b
    induction b with
    | zero => intro _; simpa using h0
    | succ b ih =>
      intro hb
      rw [List.range_succ, List.foldl_append]
      simp only [List.foldl_cons, List.foldl_nil]
      have h1 := foldl_threads_invariant T b kernel P
        (fun t acc ht hP => hstep b t acc (by omega) ht hP) T (Nat.le_refl T) _ (ih (by omega))
      have e : (b + 1) * T = b * T + T := by ring
      rw [e]
      exact h1
  exact key B (Nat.le_refl B)

theorem set_array_to_value_launch {β : Type} (n : Nat) (v : β) (arr : List β) (i : Nat) :
    (hipLaunchKernelGGL (n / 256 + 1) 256 (set_array_to_value 256 (n + 1) v) arr)[i]?
      = if i < n + 1 then arr[i]?.map (fun _ => v) else arr[i]? := by
  have h := hipLaunchKernelGGL_invariant (n / 256 + 1) 256 (set_array_to_value 256 (n + 1) v)
    (fun K a => ∀ i, a[i]? = if i < K ∧ i < n + 1 then arr[i]?.map (fun _ => v) else arr[i]?)
    arr (by intro i; simp)
    (by
      intro b t acc _ _ hP j
      unfold set_array_to_value
      simp only
      by_cases hlt : b * 256 + t < n + 1
      · rw [if_pos hlt, List.getElem?_set']
        by_cases hj : b * 256 + t = j
        · subst hj
          rw [if_pos rfl, hP, if_neg (by omega), if_pos (by omega)]
          cases arr[b * 256 + t]? <;> rfl
        · rw [if_neg hj, hP]
          by_cases hj2 : j < b * 256 + t ∧ j < n + 1
          · rw [if_pos hj2, if_pos (by omega)]
          · rw [if_neg hj2, if_neg (by omega)]
      · rw [if_neg hlt, hP]
        by_cases hj2 : j < b * 256 + t ∧ j < n + 1
        · rw [if_pos hj2, if_pos (by omega)]
        · rw [if_neg hj2, if_neg (by omega)])
  have h2 := h i
  simp only at h2
  rw [h2]
  have hcover : n + 1 ≤ (n / 256 + 1) * 256 := by omega
  by_cases hi : i < n + 1
  · rw [if_pos ⟨by omega, hi⟩, if_pos hi]
  · rw [if_neg (by omega), if_neg hi]

theorem set_array_to_value_launch_eq {β : Type} (n : Nat) (v : β) (arr : List β)
    (hlen : n + 1 ≤ arr.length) :
    hipLaunchKernelGGL (n / 256 + 1) 256 (set_array_to_value 256 (n + 1) v) arr
      = List.replicate (n + 1) v ++ arr.drop (n + 1) := by
  apply List.ext_getElem?
  intro i
  rw [set_array_to_value_launch, List.getElem?_append, List.length_replicate]
  by_cases hi : i < n + 1
  · rw [if_pos hi, if_pos hi, List.getElem?_replicate, if_pos hi,
      List.getElem?_eq_getElem (by omega)]
    rfl
  · rw [if_neg hi, if_neg hi, List.getElem?_drop]
    congr 1
    omega

theorem wrap_signed_of_lt (bits : Nat) (x : Int) (hb : 0 < bits) (h0 : 0 ≤ x)
    (hx : x < 2 ^ (bits - 1)) : wrap_signed bits x = x := by
  unfold wrap_signed
  have hpow : (2 : Int) ^ bits = 2 * 2 ^ (bits - 1) := by
    obtain ⟨k, rfl⟩ : ∃ k, bits = k + 1 := ⟨bits - 1, by omega⟩
    simp only [Nat.add_sub_cancel]
    ring
  have hpos : (0 : Int) < 2 ^ (bits - 1) := by positivity
  rw [Int.emod_eq_of_lt (by omega) (by rw [hpow]; omega)]
  omega

/-- The kernel argument `(n + 1)` when it is representable in `J`. -/
theorem template_fill_size (sizeof_J n : Nat) (hJ : n + 1 < 2 ^ (8 * sizeof_J - 1)) :
    (wrap_signed (8 * sizeof_J) ((n : Int) + 1)).toNat = n + 1 := by
  have hb : 0 < 8 * sizeof_J := by
    rcases Nat.eq_zero_or_pos sizeof_J with h | h
    · subst h
      simp at hJ
    · omega
  have hcast : ((n : Int) + 1) < 2 ^ (8 * sizeof_J - 1) := by exact_mod_cast hJ
  rw [wrap_signed_of_lt _ _ hb (by omega) hcast]
  omega

/-- A launch of `set_array_to_value` with size 0 writes nothing. -/
theorem set_array_to_value_launch_zero {β : Type} (B : Nat) (v : β) (arr : List β) :
    hipLaunchKernelGGL B 256 (set_array_to_value 256 0 v) arr = arr := by
  have h := hipLaunchKernelGGL_invariant B 256 (set_array_to_value 256 0 v)
    (fun _ a => a = arr) arr rfl
    (by
      intro b t acc _ _ hP
      unfold set_array_to_value
      simp only [Nat.not_lt_zero, if_false]
      exact hP)
  exact h

/-- At `n = INT32_MAX` the kernel argument `(n + 1)` wraps around to a negative value. -/
theorem template_fill_size_overflow :
    wrap_signed (8 * 4) (((2 ^ 31 - 1 : Nat) : Int) + 1) = -2 ^ 31 ∧
    (wrap_signed (8 * 4) (((2 ^ 31 - 1 : Nat) : Int) + 1)).toNat = 0 := by
  have h : wrap_signed (8 * 4) (((2 ^ 31 - 1 : Nat) : Int) + 1) = -2 ^ 31 := by
    unfold wrap_signed
    norm_num
  rw [h]
  exact ⟨rfl, by decide⟩

theorem template_nnz_zero {α : Type} (sizeof_J : Nat) (clz : Nat → Nat) (o : SortOutcome)
    (m n : Nat) (csr_val : List α) (ptr cols : List Nat) (act : rocsparse_action)
    (idx_base : rocsparse_index_base) (st : DeviceState α) (hm : 0 < m) (hn : 0 < n) :
    rocsparse_csr2csc_template sizeof_J clz o m n 0 csr_val ptr cols act idx_base st
      = (.success, ⟨st.csc_val, st.csc_row_ind,
          hipLaunchKernelGGL (n / 256 + 1) 256
            (set_array_to_value 256 (wrap_signed (8 * sizeof_J) ((n : Int) + 1)).toNat
              idx_base.val) st.csc_col_ptr,
          st.temp_buffer⟩) := by
  unfold rocsparse_csr2csc_template
  rw [if_neg (by omega), if_pos rfl]

theorem csr2csc_permute_kernel_launch {α : Type} (nnz : Nat) (in1 : List Nat) (in2 : List α)
    (map : List Nat) (f1 : Nat → Nat) (f2 : Nat → α)
    (H : ∀ g, g < nnz → ∃ src, map[g]? = some src ∧ in1[src]? = some (f1 g) ∧
      in2[src]? = some (f2 g))
    (out : List Nat × List α) :
    (∀ i, (hipLaunchKernelGGL ((nnz - 1) / 512 + 1) 512
        (csr2csc_permute_kernel 512 nnz in1 in2 map) out).1[i]?
        = if i < nnz then out.1[i]?.map (fun _ => f1 i) else out.1[i]?) ∧
    (∀ i, (hipLaunchKernelGGL ((nnz - 1) / 512 + 1) 512
        (csr2csc_permute_kernel 512 nnz in1 in2 map) out).2[i]?
        = if i < nnz then out.2[i]?.map (fun _ => f2 i) else out.2[i]?) := by
  have h := hipLaunchKernelGGL_invariant ((nnz - 1) / 512 + 1) 512
    (csr2csc_permute_kernel 512 nnz in1 in2 map)
    (fun K a =>
      (∀ i, a.1[i]? = if i < K ∧ i < nnz then out.1[i]?.map (fun _ => f1 i) else out.1[i]?) ∧
      (∀ i, a.2[i]? = if i < K ∧ i < nnz then out.2[i]?.map (fun _ => f2 i) else out.2[i]?))
    out (by constructor <;> intro i <;> simp)
    (by
      intro b t acc _ _ hP
      unfold csr2csc_permute_kernel
      simp only
      by_cases hlt : b * 512 + t < nnz
      · obtain ⟨src, hm, h1, h2⟩ := H _ hlt
        rw [if_pos hlt, hm]
        simp only [h1, h2]
        constructor
        · intro j
          rw [List.getElem?_set']
          by_cases hj : b * 512 + t = j
          · subst hj
            rw [if_pos rfl, hP.1, if_neg (by omega), if_pos (by omega)]
            cases out.1[b * 512 + t]? <;> rfl
          · rw [if_neg hj, hP.1]
            by_cases hj2 : j < b * 512 + t ∧ j < nnz
            · rw [if_pos hj2, if_pos (by omega)]
            · rw [if_neg hj2, if_neg (by omega)]
        · intro j
          rw [List.getElem?_set']
          by_cases hj : b * 512 + t = j
          · subst hj
            rw [if_pos rfl, hP.2, if_neg (by omega), if_pos (by omega)]
            cases out.2[b * 512 + t]? <;> rfl
          · rw [if_neg hj, hP.2]
            by_cases hj2 : j < b * 512 + t ∧ j < nnz
            · rw [if_pos hj2, if_pos (by omega)]
            · rw [if_neg hj2, if_neg (by omega)]
      · rw [if_neg hlt]
        constructor
        · intro j
          rw [hP.1]
          by_cases hj2 : j < b * 512 + t ∧ j < nnz
          · rw [if_pos hj2, if_pos (by omega)]
          · rw [if_neg hj2, if_neg (by omega)]
        · intro j
          rw [hP.2]
          by_cases hj2 : j < b * 512 + t ∧ j < nnz
          · rw [if_pos hj2, if_pos (by omega)]
          · rw [if_neg hj2, if_neg (by omega)])
  have hcover : nnz ≤ ((nnz - 1) / 512 + 1) * 512 := by omega
  simp only at h
  constructor
  · intro i
    rw [h.1]
    by_cases hi : i < nnz
    · rw [if_pos ⟨by omega, hi⟩, if_pos hi]
    · rw [if_neg (by omega), if_neg hi]
  · intro i
    rw [h.2]
    by_cases hi : i < nnz
    · rw [if_pos ⟨by omega, hi⟩, if_pos hi]
    · rw [if_neg (by omega), if_neg hi]

theorem take_eq_map_range_of_getElem? {β : Type} (k : Nat) (f : Nat → β) (l l0 : List β)
    (hlen : k ≤ l0.length)
    (h : ∀ i, l[i]? = if i < k then l0[i]?.map (fun _ => f i) else l0[i]?) :
    l.take k = (List.range k).map f := by
  apply List.ext_getElem?
  intro i
  rw [List.getElem?_take, List.getElem?_map]
  by_cases hi : i < k
  · rw [if_pos hi, h, if_pos hi, List.getElem?_range hi, List.getElem?_eq_getElem (by omega)]
    rfl
  · rw [if_neg hi, List.getElem?_eq_none (by simpa using hi)]
    rfl

/-! ## Offsets from sorted keys -/

theorem takeWhile_eq_filter_of_sorted (x : Nat) :
    ∀ (l : List Nat), l.Pairwise (fun a b => a ≤ b) →
      l.takeWhile (fun k => decide (k < x)) = l.filter (fun k => decide (k < x))
  | [], _ => rfl
  | a :: t, h => by
    rw [List.pairwise_cons] at h
    by_cases ha : a < x
    · simp only [List.takeWhile_cons, List.filter_cons, ha, decide_True, if_true]
      rw [takeWhile_eq_filter_of_sorted x t h.2]
    · have h1 : t.filter (fun k => decide (k < x)) = [] := by
        rw [List.filter_eq_nil_iff]
        intro p hp hpx
        simp only [decide_eq_true_eq] at hpx
        have := h.1 p hp
        omega
      simp only [List.takeWhile_cons, List.filter_cons, ha, decide_False, h1]
      simp

theorem lower_bound_sorted (x : Nat) (l : List Nat) (h : l.Pairwise (fun a b => a ≤ b)) :
    lower_bound l x = (l.filter (fun k => decide (k < x))).length := by
  unfold lower_bound
  rw [takeWhile_eq_filter_of_sorted x l h]

/-! ## Row expansion -/

theorem filter_range_lt (k : Nat) : ∀ m, k ≤ m →
    (List.range m).filter (fun r => decide (r < k)) = List.range k := by
  intro m
  induction m with
  | zero => intro h; have : k = 0 := by omega
            subst this; rfl
  | succ m ih =>
    intro h
    rw [List.range_succ, List.filter_append]
    by_cases hk : k ≤ m
    · rw [ih hk]
      have : ¬ m < k := by omega
      simp [this]
    · have hk2 : k = m + 1 := by omega
      subst hk2
      have h1 : (List.range m).filter (fun r => decide (r < m + 1)) = List.range m := by
        rw [List.filter_eq_self]
        intro a ha
        have := List.mem_range.mp ha
        simp only [decide_eq_true_eq]
        omega
      rw [h1, List.range_succ]
      simp

theorem row_ptr_mono (ptr : List Nat) (hs : ptr.Pairwise (fun a b => a ≤ b)) (i j : Nat)
    (hij : i ≤ j) (hj : j < ptr.length) : ptr.getD i 0 ≤ ptr.getD j 0 := by
  rw [List.getD_eq_getElem?_getD, List.getD_eq_getElem?_getD,
    List.getElem?_eq_getElem (by omega), List.getElem?_eq_getElem hj]
  simp only [Option.getD_some]
  rcases Nat.lt_or_eq_of_le hij with h | h
  · exact (List.pairwise_iff_getElem.mp hs) i j (by omega) hj h
  · subst h; exact Nat.le_refl _

theorem drop_one_eq_map_range (ptr : List Nat) (m : Nat) (hlen : ptr.length = m + 1) :
    ptr.drop 1 = (List.range m).map (fun r => ptr.getD (r + 1) 0) := by
  apply List.ext_getElem?
  intro i
  rw [List.getElem?_drop, List.getElem?_map]
  by_cases hi : i < m
  · rw [List.getElem?_range hi, List.getElem?_eq_getElem (by omega)]
    simp only [Option.map_some']
    rw [List.getD_eq_getElem?_getD, List.getElem?_eq_getElem (by omega)]
    simp [Nat.add_comm]
  · rw [List.getElem?_eq_none (by omega), List.getElem?_eq_none (by simpa using hi)]
    rfl

theorem csr_row_of_eq (ptr : List Nat) (m : Nat) (idx_base : rocsparse_index_base)
    (hlen : ptr.length = m + 1) (hs : ptr.Pairwise (fun a b => a ≤ b)) (k p : Nat)
    (hk : k < m) (h1 : ptr.getD k 0 ≤ p + idx_base.val)
    (h2 : p + idx_base.val < ptr.getD (k + 1) 0) :
    csr_row_of ptr idx_base p = k := by
  unfold csr_row_of
  rw [drop_one_eq_map_range ptr m hlen, List.filter_map, List.length_map]
  have hf : (List.range m).filter
      ((fun e => decide (e ≤ p + idx_base.val)) ∘ fun r => ptr.getD (r + 1) 0)
      = (List.range m).filter (fun r => decide (r < k)) := by
    apply List.filter_congr
    intro r hr
    have hr2 := List.mem_range.mp hr
    simp only [Function.comp]
    by_cases hrk : r < k
    · have := row_ptr_mono ptr hs (r + 1) k (by omega) (by omega)
      have hle : ptr.getD (r + 1) 0 ≤ p + idx_base.val := by omega
      rw [decide_eq_true hle, decide_eq_true hrk]
    · have := row_ptr_mono ptr hs (k + 1) (r + 1) (by omega) (by omega)
      have hgt : ¬ ptr.getD (r + 1) 0 ≤ p + idx_base.val := by omega
      rw [decide_eq_false hgt, decide_eq_false hrk]
  rw [hf, filter_range_lt k m (by omega), List.length_range]

theorem getD_drop_one (ptr : List Nat) (r : Nat) :
    (ptr.drop 1).getD r 0 = ptr.getD (r + 1) 0 := by
  rw [List.getD_eq_getElem?_getD, List.getD_eq_getElem?_getD, List.getElem?_drop,
    Nat.add_comm]

theorem csr2coo_expand (ptr : List Nat) (m : Nat) (idx_base : rocsparse_index_base)
    (hlen : ptr.length = m + 1) (hs : ptr.Pairwise (fun a b => a ≤ b))
    (h0 : ptr.getD 0 0 = idx_base.val) :
    ∀ k, k ≤ m →
      ((List.range k).flatMap fun r =>
          List.replicate ((ptr.drop 1).getD r 0 - ptr.getD r 0) (r + idx_base.val)).length
        = ptr.getD k 0 - idx_base.val ∧
      ∀ p, p + idx_base.val < ptr.getD k 0 →
        ((List.range k).flatMap fun r =>
          List.replicate ((ptr.drop 1).getD r 0 - ptr.getD r 0) (r + idx_base.val))[p]?
          = some (csr_row_of ptr idx_base p + idx_base.val) := by
  intro k
  induction k with
  | zero =>
    intro _
    constructor
    · rw [h0]; simp
    · intro p hp
      omega
  | succ k ih =>
    intro hk
    obtain ⟨ihl, ihp⟩ := ih (by omega)
    have hmono := row_ptr_mono ptr hs k (k + 1) (by omega) (by omega)
    have hbase := row_ptr_mono ptr hs 0 k (by omega) (by omega)
    rw [List.range_succ, List.flatMap_append, List.flatMap_singleton]
    constructor
    · rw [List.length_append, ihl, List.length_replicate, getD_drop_one]
      omega
    · intro p hp
      rw [List.getElem?_append, ihl]
      by_cases hlow : p < ptr.getD k 0 - idx_base.val
      · rw [if_pos hlow]
        exact ihp p (by omega)
      · rw [if_neg hlow, List.getElem?_replicate, getD_drop_one, if_pos (by omega)]
        rw [csr_row_of_eq ptr m idx_base hlen hs k p (by omega) (by omega) hp]

theorem csr2coo_core_valid (m n nnz : Nat) (idx_base : rocsparse_index_base)
    (csr_row_ptr csr_col_ind buf : List Nat)
    (hv : valid_csr m n nnz idx_base csr_row_ptr csr_col_ind) :
    rocsparse_csr2coo_core csr_row_ptr (csr_row_ptr.drop 1) nnz m buf idx_base
      = copy_into buf
          ((List.range nnz).map (fun p => csr_row_of csr_row_ptr idx_base p + idx_base.val)) := by
  obtain ⟨hlen, h0, hm, hs, _, _⟩ := hv
  have h0' : csr_row_ptr.getD 0 0 = idx_base.val := by
    rw [List.getD_eq_getElem?_getD, h0]; rfl
  have hm' : csr_row_ptr.getD m 0 = idx_base.val + nnz := by
    rw [List.getD_eq_getElem?_getD, hm]; rfl
  obtain ⟨hl, hp⟩ := csr2coo_expand csr_row_ptr m idx_base hlen hs h0' m (Nat.le_refl m)
  unfold rocsparse_csr2coo_core
  congr 1
  rw [hm'] at hl hp
  rw [List.take_of_length_le (by omega)]
  apply List.ext_getElem?
  intro p
  rw [List.getElem?_map]
  by_cases hpn : p < nnz
  · rw [hp p (by omega), List.getElem?_range hpn]
    rfl
  · rw [List.getElem?_eq_none (by omega), List.getElem?_eq_none (by simpa using hpn)]
    rfl

/-! ## Buffers -/

theorem take_copy_into {β : Type} (dst src : List β) (k : Nat) (hk : src.length = k) :
    (copy_into dst src).take k = src := by
  unfold copy_into
  exact List.take_left' hk

theorem length_copy_into {β : Type} (dst src : List β) :
    (copy_into dst src).length = src.length + (dst.length - src.length) := by
  unfold copy_into
  simp

theorem le_length_copy_into {β : Type} (dst src : List β) (k : Nat) (h : k ≤ dst.length) :
    k ≤ (copy_into dst src).length := by
  rw [length_copy_into]
  omega

theorem take_hipMemcpyAsync {β : Type} (dst src : List β) (k : Nat) (hk : src.length = k) :
    (hipMemcpyAsync dst src k).take k = src := by
  unfold hipMemcpyAsync
  have h : src.take k = src := List.take_of_length_le (by omega)
  rw [h]
  exact take_copy_into dst src k hk

theorem getElem?_eq_some_getD {β : Type} (l : List β) (i : Nat) (d : β) (h : i < l.length) :
    l[i]? = some (l.getD i d) := by
  rw [List.getD_eq_getElem?_getD, List.getElem?_eq_getElem h]
  rfl

theorem take_hipMemcpyAsync_of_le {β : Type} (dst src : List β) (k : Nat)
    (hk : k ≤ src.length) : (hipMemcpyAsync dst src k).take k = src.take k := by
  unfold hipMemcpyAsync
  exact take_copy_into dst _ k (by rw [List.length_take]; omega)

theorem take_identity_permutation (nnz : Nat) (p : List Nat) :
    (rocsparse_create_identity_permutation_core nnz p).take nnz = List.range nnz := by
  unfold rocsparse_create_identity_permutation_core
  exact take_copy_into p _ nnz (List.length_range nnz)

/-! ## The permutation-apply pass -/

theorem permute_take {α : Type} (nnz : Nat) (in1 : List Nat) (in2 : List α) (map : List Nat)
    (out : List Nat × List α) (S : List (Nat × Nat)) (rowF : Nat → Nat)
    (hpos : 0 < nnz) (hS : S.length = nnz) (hS2 : ∀ p ∈ S, p.2 < nnz)
    (hmap : map.take nnz = S.map Prod.snd)
    (hin1 : in1.take nnz = (List.range nnz).map rowF) (hin2 : in2.length = nnz)
    (hout1 : nnz ≤ out.1.length) (hout2 : nnz ≤ out.2.length) :
    (hipLaunchKernelGGL ((nnz - 1) / 512 + 1) 512
        (csr2csc_permute_kernel 512 nnz in1 in2 map) out).1.take nnz
      = S.map (fun p => rowF p.2) ∧
    ((hipLaunchKernelGGL ((nnz - 1) / 512 + 1) 512
        (csr2csc_permute_kernel 512 nnz in1 in2 map) out).2.take nnz).map some
      = S.map (fun p => in2[p.2]?) := by
  have d : α := in2.get ⟨0, by omega⟩
  have hmapi : ∀ g, g < nnz → map[g]? = some (S.getD g (0, 0)).2 := by
    intro g hg
    have h1 : (map.take nnz)[g]? = map[g]? := by rw [List.getElem?_take, if_pos hg]
    rw [← h1, hmap, List.getElem?_map, getElem?_eq_some_getD S g (0, 0) (by omega)]
    rfl
  have hsrc : ∀ g, g < nnz → (S.getD g (0, 0)).2 < nnz := by
    intro g hg
    apply hS2
    have h2 := getElem?_eq_some_getD S g (0, 0) (by omega)
    exact List.getElem?_mem h2
  have hin1i : ∀ q, q < nnz → in1[q]? = some (rowF q) := by
    intro q hq
    have h1 : (in1.take nnz)[q]? = in1[q]? := by rw [List.getElem?_take, if_pos hq]
    rw [← h1, hin1, List.getElem?_map, List.getElem?_range hq]
    rfl
  obtain ⟨h1, h2⟩ := csr2csc_permute_kernel_launch nnz in1 in2 map
    (fun g => rowF (S.getD g (0, 0)).2) (fun g => in2.getD (S.getD g (0, 0)).2 d)
    (by
      intro g hg
      exact ⟨(S.getD g (0, 0)).2, hmapi g hg, hin1i _ (hsrc g hg),
        getElem?_eq_some_getD in2 _ d (by have := hsrc g hg; omega)⟩)
    out
  constructor
  · rw [take_eq_map_range_of_getElem? nnz _ _ out.1 hout1 h1]
    apply List.ext_getElem?
    intro i
    rw [List.getElem?_map, List.getElem?_map]
    by_cases hi : i < nnz
    · rw [List.getElem?_range hi, getElem?_eq_some_getD S i (0, 0) (by omega)]
      rfl
    · rw [List.getElem?_eq_none (by simpa using hi), List.getElem?_eq_none (by omega)]
      rfl
  · rw [take_eq_map_range_of_getElem? nnz _ _ out.2 hout2 h2]
    apply List.ext_getElem?
    intro i
    rw [List.getElem?_map, List.getElem?_map, List.getElem?_map]
    by_cases hi : i < nnz
    · rw [List.getElem?_range hi, getElem?_eq_some_getD S i (0, 0) (by omega)]
      simp only [Option.map_some']
      rw [getElem?_eq_some_getD in2 _ d (by have := hsrc i hi; omega)]
    · rw [List.getElem?_eq_none (by simpa using hi), List.getElem?_eq_none (l := S) (by omega)]
      rfl

/-! ## The two paths of the core -/

theorem length_sorted_pairs {β : Type} (e nnz : Nat) (cols : List Nat) (vs : List β)
    (hc : cols.length = nnz) (hv : vs.length = nnz) :
    (radix_sort 0 e (cols.zip vs)).length = nnz := by
  rw [(radix_sort_perm e _).length_eq, List.length_zip, hc, hv, Nat.min_self]

theorem snd_lt_of_mem_sorted_pairs (e nnz : Nat) (cols : List Nat) (p : Nat × Nat)
    (hp : p ∈ radix_sort 0 e (cols.zip (List.range nnz))) : p.2 < nnz := by
  have h1 := (radix_sort_perm e _).mem_iff.mp hp
  have h2 := (List.of_mem_zip h1).2
  exact List.mem_range.mp h2

theorem core_numeric_spec {α : Type} (clz : Nat → Nat) (o : SortOutcome) (m n nnz : Nat)
    (csr_val : List α) (ptr cols : List Nat) (idx_base : rocsparse_index_base) (mem : Mem α)
    (hpos : 0 < nnz)
    (hv : valid_csr m n nnz idx_base ptr cols) (hval : csr_val.length = nnz)
    (hrow : nnz ≤ mem.csc_row_ind.length) (hcv : nnz ≤ mem.csc_val.length) :
    (rocsparse_csr2csc_core clz o m n nnz csr_val ptr (ptr.drop 1) cols .numeric idx_base
      mem).1 = .success ∧
    (rocsparse_csr2csc_core clz o m n nnz csr_val ptr (ptr.drop 1) cols .numeric idx_base
      mem).2.csc_col_ptr
      = copy_into mem.csc_col_ptr ((List.range (n + 1)).map fun i =>
          lower_bound ((radix_sort 0 (clz n) (cols.zip (List.range nnz))).map Prod.fst)
            (i + idx_base.val) + idx_base.val) ∧
    (rocsparse_csr2csc_core clz o m n nnz csr_val ptr (ptr.drop 1) cols .numeric idx_base
      mem).2.csc_row_ind.take nnz
      = (radix_sort 0 (clz n) (cols.zip (List.range nnz))).map
          (fun p => csr_row_of ptr idx_base p.2 + idx_base.val) ∧
    ((rocsparse_csr2csc_core clz o m n nnz csr_val ptr (ptr.drop 1) cols .numeric idx_base
      mem).2.csc_val.take nnz).map some
      = (radix_sort 0 (clz n) (cols.zip (List.range nnz))).map (fun p => csr_val[p.2]?) := by
  have hcl : cols.length = nnz := hv.2.2.2.2.1
  have hS := length_sorted_pairs (clz n) nnz cols (List.range nnz) hcl (List.length_range nnz)
  have hS2 := snd_lt_of_mem_sorted_pairs (clz n) nnz cols
  have hSf : ((radix_sort 0 (clz n) (cols.zip (List.range nnz))).map Prod.fst).length = nnz := by
    rw [List.length_map, hS]
  have hSs : ((radix_sort 0 (clz n) (cols.zip (List.range nnz))).map Prod.snd).length = nnz := by
    rw [List.length_map, hS]
  obtain ⟨ks, vs, kr, vr⟩ := o
  cases ks <;> cases vs <;>
    simp only [rocsparse_csr2csc_core, radix_sort_pairs, Mem.read, Mem.write,
      Bool.false_eq_true, if_false, if_true, take_hipMemcpyAsync _ _ _ hcl,
      take_identity_permutation, csr2coo_core_valid m n nnz idx_base ptr cols _ hv,
      rocsparse_coo2csr_core, take_copy_into _ _ _ hSf, true_and]
  all_goals
    exact permute_take nnz _ csr_val _ _ _ (fun q => csr_row_of ptr idx_base q + idx_base.val)
      hpos hS hS2 (take_copy_into _ _ _ hSs)
      (take_copy_into _ _ _ (by rw [List.length_map, List.length_range])) hval
      (by first
        | exact hrow
        | exact le_length_copy_into _ _ _ hrow) hcv

theorem sorted_pairs_map_rows (e nnz : Nat) (cols : List Nat) (rowF : Nat → Nat) :
    radix_sort 0 e (cols.zip ((List.range nnz).map rowF))
      = (radix_sort 0 e (cols.zip (List.range nnz))).map (Prod.map id rowF) := by
  rw [List.zip_map_right, radix_sort_map]

theorem core_symbolic_spec {α : Type} (clz : Nat → Nat) (o : SortOutcome) (m n nnz : Nat)
    (csr_val : List α) (ptr cols : List Nat) (idx_base : rocsparse_index_base) (mem : Mem α)
    (hv : valid_csr m n nnz idx_base ptr cols) :
    (rocsparse_csr2csc_core clz o m n nnz csr_val ptr (ptr.drop 1) cols .symbolic idx_base
      mem).1 = .success ∧
    (rocsparse_csr2csc_core clz o m n nnz csr_val ptr (ptr.drop 1) cols .symbolic idx_base
      mem).2.csc_col_ptr
      = copy_into mem.csc_col_ptr ((List.range (n + 1)).map fun i =>
          lower_bound ((radix_sort 0 (clz n) (cols.zip (List.range nnz))).map Prod.fst)
            (i + idx_base.val) + idx_base.val) ∧
    (rocsparse_csr2csc_core clz o m n nnz csr_val ptr (ptr.drop 1) cols .symbolic idx_base
      mem).2.csc_row_ind.take nnz
      = (radix_sort 0 (clz n) (cols.zip (List.range nnz))).map
          (fun p => csr_row_of ptr idx_base p.2 + idx_base.val) ∧
    (rocsparse_csr2csc_core clz o m n nnz csr_val ptr (ptr.drop 1) cols .symbolic idx_base
      mem).2.csc_val = mem.csc_val := by
  have hcl : cols.length = nnz := hv.2.2.2.2.1
  have hS := length_sorted_pairs (clz n) nnz cols (List.range nnz) hcl (List.length_range nnz)
  have hrl : ((List.range nnz).map
      (fun p => csr_row_of ptr idx_base p + idx_base.val)).length = nnz := by
    rw [List.length_map, List.length_range]
  have hSf : ((radix_sort 0 (clz n) (cols.zip (List.range nnz))).map Prod.fst).length = nnz := by
    rw [List.length_map, hS]
  have hfst : ∀ (l : List (Nat × Nat)) (f : Nat → Nat),
      (l.map (Prod.map id f)).map Prod.fst = l.map Prod.fst := by
    intro l f; rw [List.map_map]; rfl
  have hsnd : ∀ (l : List (Nat × Nat)) (f : Nat → Nat),
      (l.map (Prod.map id f)).map Prod.snd = l.map (fun p => f p.2) := by
    intro l f; rw [List.map_map]; rfl
  have hSr : ((radix_sort 0 (clz n) (cols.zip (List.range nnz))).map
      (fun p => csr_row_of ptr idx_base p.2 + idx_base.val)).length = nnz := by
    rw [List.length_map, hS]
  obtain ⟨ks, vs, kr, vr⟩ := o
  cases ks <;> cases vs <;>
    simp only [rocsparse_csr2csc_core, radix_sort_pairs, Mem.read, Mem.write,
      Bool.false_eq_true, if_false, if_true, take_hipMemcpyAsync _ _ _ hcl,
      csr2coo_core_valid m n nnz idx_base ptr cols _ hv, take_copy_into _ _ _ hrl,
      sorted_pairs_map_rows, hfst, hsnd,
      rocsparse_coo2csr_core, take_copy_into _ _ _ hSf, take_copy_into _ _ _ hSr,
      true_and, ne_eq, not_true_eq_false, not_false_eq_true, reduceCtorEq, and_self]
  all_goals
    refine ⟨?_, trivial⟩
    rw [take_hipMemcpyAsync_of_le _ _ _ (by rw [length_copy_into, hSr]; omega),
      take_copy_into _ _ _ hSr]

/-! ## From the sorted pairs to the reference transpose -/

theorem by_column_map_eq_sorted {β ρ α : Type} (e n : Nat) (idx_base : rocsparse_index_base)
    (l : List (Nat × β)) (g : Nat × β → ρ × Nat × α) (hg : ∀ p ∈ l, (g p).2.1 = p.1)
    (hbits : ∀ p ∈ l, p.1 < 2 ^ e)
    (hrange : ∀ p ∈ l, idx_base.val ≤ p.1 ∧ p.1 < idx_base.val + n) :
    by_column n idx_base (l.map g) = (radix_sort 0 e l).map g := by
  unfold by_column
  rw [radix_sort_eq_flatMap e idx_base.val n l hbits hrange, List.map_flatMap]
  apply List.flatMap_congr
  intro j _
  rw [List.filter_map]
  congr 1
  apply List.filter_congr
  intro p hp
  simp only [Function.comp, hg p hp]

theorem csr_nonzeros_eq_map {α : Type} (ptr cols : List Nat) (vals : List α)
    (idx_base : rocsparse_index_base) (d : α) (hval : vals.length = cols.length) :
    csr_nonzeros ptr cols vals idx_base
      = (cols.zip (List.range cols.length)).map
          (fun p => (csr_row_of ptr idx_base p.2 + idx_base.val, p.1, vals.getD p.2 d)) := by
  unfold csr_nonzeros
  apply List.ext_getElem?
  intro i
  by_cases hi : i < cols.length
  · have h1 : (cols.zip (List.range cols.length))[i]? = some (cols.getD i 0, i) := by
      rw [List.getElem?_zip_eq_some]
      exact ⟨getElem?_eq_some_getD cols i 0 hi, List.getElem?_range hi⟩
    rw [List.getElem?_map, h1]
    simp only [Option.map_some']
    rw [List.getElem?_zip_eq_some]
    refine ⟨?_, ?_⟩
    · rw [List.getElem?_map, List.getElem?_range hi]
      rfl
    · rw [List.getElem?_zip_eq_some]
      exact ⟨getElem?_eq_some_getD cols i 0 hi, getElem?_eq_some_getD vals i d (by omega)⟩
  · rw [List.getElem?_eq_none, List.getElem?_eq_none]
    · simp only [List.length_map, List.length_zip, List.length_range]
      omega
    · simp only [List.length_map, List.length_zip, List.length_range]
      omega

theorem cols_mem_zip_range {β : Type} (cols : List Nat) (vs : List β) (P : Nat → Prop)
    (h : ∀ c ∈ cols, P c) : ∀ p ∈ cols.zip vs, P p.1 := by
  intro p hp
  exact h p.1 (List.of_mem_zip hp).1

theorem sorted_keys_perm (e nnz : Nat) (cols : List Nat) (hcl : cols.length = nnz) :
    ((radix_sort 0 e (cols.zip (List.range nnz))).map Prod.fst).Perm cols := by
  have h1 := (radix_sort_perm e (cols.zip (List.range nnz))).map Prod.fst
  rw [List.map_fst_zip cols (List.range nnz) (by rw [List.length_range]; omega)] at h1
  exact h1

theorem sorted_keys_sorted (e nnz : Nat) (cols : List Nat) (hbits : ∀ c ∈ cols, c < 2 ^ e) :
    ((radix_sort 0 e (cols.zip (List.range nnz))).map Prod.fst).Pairwise (fun a b => a ≤ b) := by
  rw [List.pairwise_map]
  exact radix_sort_sorted e _ (cols_mem_zip_range cols _ (fun c => c < 2 ^ e) hbits)

theorem lower_bound_sorted_keys (e nnz x : Nat) (cols : List Nat) (hcl : cols.length = nnz)
    (hbits : ∀ c ∈ cols, c < 2 ^ e) :
    lower_bound ((radix_sort 0 e (cols.zip (List.range nnz))).map Prod.fst) x
      = (cols.filter (fun c => decide (c < x))).length := by
  rw [lower_bound_sorted x _ (sorted_keys_sorted e nnz cols hbits)]
  exact ((sorted_keys_perm e nnz cols hcl).filter _).length_eq

theorem csr_nonzeros_cols {α : Type} (ptr cols : List Nat) (vals : List α)
    (idx_base : rocsparse_index_base) (hval : vals.length = cols.length) :
    (csr_nonzeros ptr cols vals idx_base).map (fun t => t.2.1) = cols := by
  unfold csr_nonzeros
  have h1 : (fun t : Nat × Nat × α => t.2.1) = Prod.fst ∘ Prod.snd := rfl
  rw [h1, ← List.map_map, List.map_snd_zip _ _ (by simp [hval]),
    List.map_fst_zip _ _ (by omega)]

theorem count_below_csr_nonzeros {α : Type} (ptr cols : List Nat) (vals : List α)
    (idx_base : rocsparse_index_base) (j : Nat) (hval : vals.length = cols.length) :
    count_below idx_base (csr_nonzeros ptr cols vals idx_base) j
      = (cols.filter (fun c => decide (c < idx_base.val + j))).length := by
  unfold count_below
  have h := csr_nonzeros_cols ptr cols vals idx_base hval
  have h2 : ((csr_nonzeros ptr cols vals idx_base).map (fun t => t.2.1)).filter
      (fun c => decide (c < idx_base.val + j))
      = (cols.filter (fun c => decide (c < idx_base.val + j))) := by rw [h]
  rw [← h2, List.filter_map, List.length_map]
  rfl

theorem getElem?_copy_into_map_range {β : Type} (dst : List β) (k j : Nat) (f : Nat → β)
    (hj : j < k) : (copy_into dst ((List.range k).map f))[j]? = some (f j) := by
  unfold copy_into
  rw [List.getElem?_append, if_pos (by simpa using hj), List.getElem?_map,
    List.getElem?_range hj]
  rfl

/-! ## The transform -/

theorem template_eq_core {α : Type} (sizeof_J : Nat) (clz : Nat → Nat) (o : SortOutcome) (m n nnz :
    Nat)
    (csr_val : List α) (ptr cols : List Nat) (act : rocsparse_action)
    (idx_base : rocsparse_index_base) (st : DeviceState α) (s : Scratch)
    (hm : 0 < m) (hn : 0 < n) (hnnz : 0 < nnz) (hbuf : st.temp_buffer = some s) :
    rocsparse_csr2csc_template sizeof_J clz o m n nnz csr_val ptr cols act idx_base st
      = ((rocsparse_csr2csc_core clz o m n nnz csr_val ptr (ptr.drop 1) cols act idx_base
            ⟨st.csc_val, st.csc_row_ind, st.csc_col_ptr, s.tmp_work1, s.tmp_work2,
              s.tmp_perm⟩).1,
          ⟨(rocsparse_csr2csc_core clz o m n nnz csr_val ptr (ptr.drop 1) cols act idx_base
            ⟨st.csc_val, st.csc_row_ind, st.csc_col_ptr, s.tmp_work1, s.tmp_work2,
              s.tmp_perm⟩).2.csc_val,
           (rocsparse_csr2csc_core clz o m n nnz csr_val ptr (ptr.drop 1) cols act idx_base
            ⟨st.csc_val, st.csc_row_ind, st.csc_col_ptr, s.tmp_work1, s.tmp_work2,
              s.tmp_perm⟩).2.csc_row_ind,
           (rocsparse_csr2csc_core clz o m n nnz csr_val ptr (ptr.drop 1) cols act idx_base
            ⟨st.csc_val, st.csc_row_ind, st.csc_col_ptr, s.tmp_work1, s.tmp_work2,
              s.tmp_perm⟩).2.csc_col_ptr,
           some ⟨(rocsparse_csr2csc_core clz o m n nnz csr_val ptr (ptr.drop 1) cols act
              idx_base ⟨st.csc_val, st.csc_row_ind, st.csc_col_ptr, s.tmp_work1, s.tmp_work2,
              s.tmp_perm⟩).2.tmp_work1,
            (rocsparse_csr2csc_core clz o m n nnz csr_val ptr (ptr.drop 1) cols act
              idx_base ⟨st.csc_val, st.csc_row_ind, st.csc_col_ptr, s.tmp_work1, s.tmp_work2,
              s.tmp_perm⟩).2.tmp_work2,
            (rocsparse_csr2csc_core clz o m n nnz csr_val ptr (ptr.drop 1) cols act
              idx_base ⟨st.csc_val, st.csc_row_ind, st.csc_col_ptr, s.tmp_work1, s.tmp_work2,
              s.tmp_perm⟩).2.tmp_perm⟩⟩) := by
  unfold rocsparse_csr2csc_template
  rw [if_neg (by omega), if_neg (by omega), hbuf]

/-- The sorted (column, source position) pairs are the reference order: mapping a source
position to its (row, column, value) gives the nonzeros by ascending column. -/
theorem by_column_csr_nonzeros {α : Type} (e n nnz : Nat) (ptr cols : List Nat)
    (vals : List α) (idx_base : rocsparse_index_base) (d : α)
    (hcl : cols.length = nnz) (hval : vals.length = nnz)
    (hrange : ∀ c ∈ cols, idx_base.val ≤ c ∧ c < idx_base.val + n)
    (hbits : idx_base.val + n ≤ 2 ^ e) :
    by_column n idx_base (csr_nonzeros ptr cols vals idx_base)
      = (radix_sort 0 e (cols.zip (List.range nnz))).map
          (fun p => (csr_row_of ptr idx_base p.2 + idx_base.val, p.1, vals.getD p.2 d)) := by
  rw [csr_nonzeros_eq_map ptr cols vals idx_base d (by omega), hcl]
  exact by_column_map_eq_sorted e n idx_base _ _ (fun _ _ => rfl)
    (cols_mem_zip_range cols _ (fun c => c < 2 ^ e)
      (fun c hc => by have := hrange c hc; omega))
    (cols_mem_zip_range cols _ (fun c => idx_base.val ≤ c ∧ c < idx_base.val + n) hrange)

/-- When the end bit covers the column keys: numeric `csr2csc` on a valid CSR matrix with `m, n,
nnz > 0` and a non-null scratch
returns success and writes the reference transpose: `csc_col_ptr[j]` is the index base plus
the number of nonzeros whose column is below `j`, for `0 ≤ j ≤ n`, and the first `nnz`
entries of `csc_row_ind` and `csc_val` are the rows and values of the nonzeros listed by
ascending column, ties in CSR order. The end bit `rocsparse_clz n` is assumed to cover the
admissible column indices. -/
theorem numeric_reference_transpose_of_cover {α : Type} (sizeof_J : Nat) (rocsparse_clz : Nat → Nat)
    (o : SortOutcome) (m n nnz : Nat) (csr_val : List α) (csr_row_ptr csr_col_ind : List Nat)
    (idx_base : rocsparse_index_base) (st : DeviceState α) (s : Scratch)
    (hm : 0 < m) (hn : 0 < n) (hnnz : 0 < nnz)
    (hv : valid_csr m n nnz idx_base csr_row_ptr csr_col_ind)
    (hval : csr_val.length = nnz) (hbuf : st.temp_buffer = some s)
    (hrow : nnz ≤ st.csc_row_ind.length) (hcv : nnz ≤ st.csc_val.length)
    (hclz : idx_base.val + n ≤ 2 ^ rocsparse_clz n) :
    (rocsparse_csr2csc_template sizeof_J rocsparse_clz o m n nnz csr_val csr_row_ptr csr_col_ind
      .numeric idx_base st).1 = .success ∧
    (∀ j, j ≤ n →
      (rocsparse_csr2csc_template sizeof_J rocsparse_clz o m n nnz csr_val csr_row_ptr csr_col_ind
        .numeric idx_base st).2.csc_col_ptr[j]?
        = some (idx_base.val
            + count_below idx_base (csr_nonzeros csr_row_ptr csr_col_ind csr_val idx_base) j)) ∧
    (rocsparse_csr2csc_template sizeof_J rocsparse_clz o m n nnz csr_val csr_row_ptr csr_col_ind
      .numeric idx_base st).2.csc_row_ind.take nnz
      = (by_column n idx_base (csr_nonzeros csr_row_ptr csr_col_ind csr_val idx_base)).map
          (fun t => t.1) ∧
    (rocsparse_csr2csc_template sizeof_J rocsparse_clz o m n nnz csr_val csr_row_ptr csr_col_ind
      .numeric idx_base st).2.csc_val.take nnz
      = (by_column n idx_base (csr_nonzeros csr_row_ptr csr_col_ind csr_val idx_base)).map
          (fun t => t.2.2) := by
  have hcl : csr_col_ind.length = nnz := hv.2.2.2.2.1
  have hrange := hv.2.2.2.2.2
  have hbits : ∀ c ∈ csr_col_ind, c < 2 ^ rocsparse_clz n := by
    intro c hc
    have := hrange c hc
    omega
  have d : α := csr_val.get ⟨0, by omega⟩
  obtain ⟨h1, h2, h3, h4⟩ := core_numeric_spec rocsparse_clz o m n nnz csr_val csr_row_ptr
    csr_col_ind idx_base
    ⟨st.csc_val, st.csc_row_ind, st.csc_col_ptr, s.tmp_work1, s.tmp_work2, s.tmp_perm⟩
    hnnz hv hval hrow hcv
  have hby := by_column_csr_nonzeros (rocsparse_clz n) n nnz csr_row_ptr csr_col_ind csr_val
    idx_base d hcl hval hrange hclz
  rw [template_eq_core sizeof_J rocsparse_clz o m n nnz csr_val csr_row_ptr csr_col_ind .numeric
    idx_base st s hm hn hnnz hbuf]
  refine ⟨h1, ?_, ?_, ?_⟩
  · intro j hj
    simp only
    rw [h2, getElem?_copy_into_map_range _ _ _ _ (by omega),
      lower_bound_sorted_keys _ _ _ _ hcl hbits,
      count_below_csr_nonzeros _ _ _ _ _ (by omega), Nat.add_comm j, Nat.add_comm]
  · simp only
    rw [h3, hby, List.map_map]
    rfl
  · simp only
    apply List.map_injective_iff.mpr (Option.some_injective α)
    rw [h4, hby, List.map_map, List.map_map]
    apply List.map_congr_left
    intro p hp
    have hp2 := snd_lt_of_mem_sorted_pairs _ _ _ p hp
    simp only [Function.comp]
    exact getElem?_eq_some_getD csr_val p.2 d (by omega)

/-- The end-to-end example of the specification: `m = 2`, `n = 3`, `nnz = 3`, row
offsets `[0,2,3]`, column indices `[2,0,1]`, values `[5,7,9]`, base 0. -/
theorem numeric_reference_transpose_of_cover_witness :
    (rocsparse_csr2csc_template 4 (fun _ => 2) ⟨false, false, [], []⟩ 2 3 3 [5, 7, 9]
      [0, 2, 3] [2, 0, 1] .numeric .zero
      ⟨[0, 0, 0], [0, 0, 0], [0, 0, 0, 0], some ⟨[], [], []⟩⟩).1 = .success ∧
    ((rocsparse_csr2csc_template 4 (fun _ => 2) ⟨false, false, [], []⟩ 2 3 3 [5, 7, 9]
      [0, 2, 3] [2, 0, 1] .numeric .zero
      ⟨[0, 0, 0], [0, 0, 0], [0, 0, 0, 0], some ⟨[], [], []⟩⟩).2.csc_col_ptr[0]? = some 0 ∧
     (rocsparse_csr2csc_template 4 (fun _ => 2) ⟨false, false, [], []⟩ 2 3 3 [5, 7, 9]
      [0, 2, 3] [2, 0, 1] .numeric .zero
      ⟨[0, 0, 0], [0, 0, 0], [0, 0, 0, 0], some ⟨[], [], []⟩⟩).2.csc_col_ptr[1]? = some 1 ∧
     (rocsparse_csr2csc_template 4 (fun _ => 2) ⟨false, false, [], []⟩ 2 3 3 [5, 7, 9]
      [0, 2, 3] [2, 0, 1] .numeric .zero
      ⟨[0, 0, 0], [0, 0, 0], [0, 0, 0, 0], some ⟨[], [], []⟩⟩).2.csc_col_ptr[2]? = some 2 ∧
     (rocsparse_csr2csc_template 4 (fun _ => 2) ⟨false, false, [], []⟩ 2 3 3 [5, 7, 9]
      [0, 2, 3] [2, 0, 1] .numeric .zero
      ⟨[0, 0, 0], [0, 0, 0], [0, 0, 0, 0], some ⟨[], [], []⟩⟩).2.csc_col_ptr[3]? = some 3) ∧
    (rocsparse_csr2csc_template 4 (fun _ => 2) ⟨false, false, [], []⟩ 2 3 3 [5, 7, 9]
      [0, 2, 3] [2, 0, 1] .numeric .zero
      ⟨[0, 0, 0], [0, 0, 0], [0, 0, 0, 0], some ⟨[], [], []⟩⟩).2.csc_row_ind.take 3
      = [0, 1, 0] ∧
    (rocsparse_csr2csc_template 4 (fun _ => 2) ⟨false, false, [], []⟩ 2 3 3 [5, 7, 9]
      [0, 2, 3] [2, 0, 1] .numeric .zero
      ⟨[0, 0, 0], [0, 0, 0], [0, 0, 0, 0], some ⟨[], [], []⟩⟩).2.csc_val.take 3
      = [7, 9, 5] := by
  obtain ⟨h1, h2, h3, h4⟩ := numeric_reference_transpose_of_cover 4 (fun _ => 2)
    ⟨false, false, [], []⟩ 2 3 3 [5, 7, 9] [0, 2, 3] [2, 0, 1] .zero
    ⟨[0, 0, 0], [0, 0, 0], [0, 0, 0, 0], some ⟨[], [], []⟩⟩ ⟨[], [], []⟩
    (by decide) (by decide) (by decide) (by decide) (by decide) rfl (by decide) (by decide)
    (by decide)
  exact ⟨h1, ⟨(h2 0 (by decide)).trans (by decide), (h2 1 (by decide)).trans (by decide),
    (h2 2 (by decide)).trans (by decide), (h2 3 (by decide)).trans (by decide)⟩,
    h3.trans (by decide), h4.trans (by decide)⟩

/-- Both paths write the same structure: offsets that count the nonzeros of smaller column
and the rows of the nonzeros by ascending column, ties in CSR order. -/
theorem template_structure {α : Type} (sizeof_J : Nat) (rocsparse_clz : Nat → Nat)
    (o : SortOutcome) (m n nnz : Nat) (csr_val : List α) (csr_row_ptr csr_col_ind : List Nat)
    (copy_values : rocsparse_action)
    (idx_base : rocsparse_index_base) (st : DeviceState α) (s : Scratch)
    (hm : 0 < m) (hn : 0 < n) (hnnz : 0 < nnz)
    (hv : valid_csr m n nnz idx_base csr_row_ptr csr_col_ind)
    (hbuf : st.temp_buffer = some s)
    (hrow : nnz ≤ st.csc_row_ind.length)
    (hnum : copy_values = .numeric → csr_val.length = nnz ∧ nnz ≤ st.csc_val.length)
    (hclz : idx_base.val + n ≤ 2 ^ rocsparse_clz n) :
    (rocsparse_csr2csc_template sizeof_J rocsparse_clz o m n nnz csr_val csr_row_ptr csr_col_ind
      copy_values idx_base st).1 = .success ∧
    (rocsparse_csr2csc_template sizeof_J rocsparse_clz o m n nnz csr_val csr_row_ptr csr_col_ind
        copy_values idx_base st).2.csc_col_ptr
      = copy_into st.csc_col_ptr ((List.range (n + 1)).map fun j =>
          idx_base.val + count_below idx_base (csr_pattern csr_row_ptr csr_col_ind idx_base) j) ∧
    (rocsparse_csr2csc_template sizeof_J rocsparse_clz o m n nnz csr_val csr_row_ptr csr_col_ind
      copy_values idx_base st).2.csc_row_ind.take nnz
      = (by_column n idx_base (csr_pattern csr_row_ptr csr_col_ind idx_base)).map
          (fun t => t.1) := by
  have hcl : csr_col_ind.length = nnz := hv.2.2.2.2.1
  have hrange := hv.2.2.2.2.2
  have hbits : ∀ c ∈ csr_col_ind, c < 2 ^ rocsparse_clz n := by
    intro c hc
    have := hrange c hc
    omega
  have hby := by_column_csr_nonzeros (rocsparse_clz n) n nnz csr_row_ptr csr_col_ind
    (List.replicate csr_col_ind.length ()) idx_base () hcl
    (by rw [List.length_replicate, hcl]) hrange hclz
  have hptr : (List.range (n + 1)).map (fun i =>
        lower_bound ((radix_sort 0 (rocsparse_clz n)
          (csr_col_ind.zip (List.range nnz))).map Prod.fst) (i + idx_base.val) + idx_base.val)
      = (List.range (n + 1)).map (fun j =>
          idx_base.val
            + count_below idx_base (csr_nonzeros csr_row_ptr csr_col_ind
                (List.replicate csr_col_ind.length ()) idx_base) j) := by
    apply List.map_congr_left
    intro j _
    rw [lower_bound_sorted_keys _ _ _ _ hcl hbits,
      count_below_csr_nonzeros _ _ _ _ _ (by rw [List.length_replicate]), Nat.add_comm j,
      Nat.add_comm]
  rw [template_eq_core sizeof_J rocsparse_clz o m n nnz csr_val csr_row_ptr csr_col_ind copy_values
    idx_base st s hm hn hnnz hbuf]
  simp only
  unfold csr_pattern
  rw [hby, List.map_map, ← hptr]
  cases copy_values with
  | symbolic =>
    obtain ⟨h1, h2, h3, _⟩ := core_symbolic_spec rocsparse_clz o m n nnz csr_val csr_row_ptr
      csr_col_ind idx_base
      ⟨st.csc_val, st.csc_row_ind, st.csc_col_ptr, s.tmp_work1, s.tmp_work2, s.tmp_perm⟩ hv
    exact ⟨h1, h2, h3⟩
  | numeric =>
    obtain ⟨h1, h2, h3, _⟩ := core_numeric_spec rocsparse_clz o m n nnz csr_val csr_row_ptr
      csr_col_ind idx_base
      ⟨st.csc_val, st.csc_row_ind, st.csc_col_ptr, s.tmp_work1, s.tmp_work2, s.tmp_perm⟩
      hnnz hv (hnum rfl).1 hrow (hnum rfl).2
    exact ⟨h1, h2, h3⟩

/-! ## Columns of the reference order -/

theorem by_column_succ {ρ α : Type} (j : Nat) (idx_base : rocsparse_index_base)
    (nz : List (ρ × Nat × α)) :
    by_column (j + 1) idx_base nz
      = by_column j idx_base nz ++ nz.filter (fun t => decide (t.2.1 = idx_base.val + j)) := by
  unfold by_column
  rw [List.range_succ, List.flatMap_append, List.flatMap_singleton]

theorem length_filter_lt_succ {τ : Type} (key : τ → Nat) (x : Nat) (l : List τ) :
    (l.filter (fun t => decide (key t < x + 1))).length
      = (l.filter (fun t => decide (key t < x))).length
        + (l.filter (fun t => decide (key t = x))).length := by
  induction l with
  | nil => rfl
  | cons a t ih =>
    simp only [List.filter_cons]
    split_ifs with h1 h2 h3 h4 h5 h6 <;>
      simp only [decide_eq_true_eq] at * <;>
      (try simp only [List.length_cons]) <;>
      omega

theorem count_below_succ {ρ α : Type} (idx_base : rocsparse_index_base)
    (nz : List (ρ × Nat × α)) (j : Nat) :
    count_below idx_base nz (j + 1)
      = count_below idx_base nz j
        + (nz.filter (fun t => decide (t.2.1 = idx_base.val + j))).length := by
  unfold count_below
  exact length_filter_lt_succ (fun t : ρ × Nat × α => t.2.1) (idx_base.val + j) nz

theorem length_by_column {ρ α : Type} (idx_base : rocsparse_index_base)
    (nz : List (ρ × Nat × α)) (hlo : ∀ t ∈ nz, idx_base.val ≤ t.2.1) (j : Nat) :
    (by_column j idx_base nz).length = count_below idx_base nz j := by
  induction j with
  | zero =>
    unfold by_column count_below
    have h : nz.filter (fun t => decide (t.2.1 < idx_base.val + 0)) = [] := by
      rw [List.filter_eq_nil_iff]
      intro t ht h2
      simp only [decide_eq_true_eq] at h2
      have := hlo t ht
      omega
    rw [h]
    rfl
  | succ j ih =>
    rw [by_column_succ, List.length_append, ih, count_below_succ]

theorem by_column_add {ρ α : Type} (idx_base : rocsparse_index_base)
    (nz : List (ρ × Nat × α)) (j k : Nat) :
    ∃ R, by_column (j + k) idx_base nz = by_column j idx_base nz ++ R := by
  induction k with
  | zero => exact ⟨[], by simp⟩
  | succ k ih =>
    obtain ⟨R, hR⟩ := ih
    refine ⟨R ++ nz.filter (fun t => decide (t.2.1 = idx_base.val + (j + k))), ?_⟩
    rw [← Nat.add_assoc, by_column_succ, hR, List.append_assoc]

/-- In the reference order the nonzeros of column `j` occupy the positions from the count
of nonzeros below `j` up to the count of nonzeros below `j + 1`. -/
theorem by_column_slice {ρ α : Type} (idx_base : rocsparse_index_base)
    (nz : List (ρ × Nat × α)) (hlo : ∀ t ∈ nz, idx_base.val ≤ t.2.1) (n j : Nat)
    (hj : j < n) :
    ((by_column n idx_base nz).drop (count_below idx_base nz j)).take
        (count_below idx_base nz (j + 1) - count_below idx_base nz j)
      = nz.filter (fun t => decide (t.2.1 = idx_base.val + j)) := by
  obtain ⟨R, hR⟩ := by_column_add idx_base nz (j + 1) (n - (j + 1))
  have hn : j + 1 + (n - (j + 1)) = n := by omega
  rw [hn] at hR
  rw [hR, by_column_succ, List.append_assoc, count_below_succ,
    List.drop_left' (length_by_column idx_base nz hlo j), Nat.add_sub_cancel_left,
    List.take_left]

theorem getElem?_filter_count {τ : Type} (P : τ → Bool) :
    ∀ (l : List τ) (p : Nat) (x : τ), l[p]? = some x → P x = true →
      (l.filter P)[((l.take p).filter P).length]? = some x
  | [], p, x, h, _ => by simp at h
  | a :: t, 0, x, h, hx => by
    simp only [List.getElem?_cons_zero, Option.some.injEq] at h
    subst h
    simp [List.filter_cons, hx]
  | a :: t, p + 1, x, h, hx => by
    simp only [List.getElem?_cons_succ] at h
    have ih := getElem?_filter_count P t p x h hx
    by_cases ha : P a = true
    · simp only [List.take_succ_cons, List.filter_cons, ha, if_true, List.length_cons,
        List.getElem?_cons_succ]
      exact ih
    · simp only [List.take_succ_cons, List.filter_cons, ha]
      simp only [Bool.false_eq_true, if_false]
      exact ih

/-! ## The sparsity pattern -/

theorem csr_pattern_cols (ptr cols : List Nat) (idx_base : rocsparse_index_base) :
    (csr_pattern ptr cols idx_base).map (fun t => t.2.1) = cols :=
  csr_nonzeros_cols ptr cols _ idx_base (List.length_replicate _ _)

theorem csr_pattern_length (ptr cols : List Nat) (idx_base : rocsparse_index_base) :
    (csr_pattern ptr cols idx_base).length = cols.length := by
  have h := congrArg List.length (csr_pattern_cols ptr cols idx_base)
  rwa [List.length_map] at h

theorem csr_pattern_getElem? (ptr cols : List Nat) (idx_base : rocsparse_index_base)
    (p : Nat) (hp : p < cols.length) :
    (csr_pattern ptr cols idx_base)[p]?
      = some (csr_row_of ptr idx_base p + idx_base.val, cols.getD p 0, ()) := by
  unfold csr_pattern
  rw [csr_nonzeros_eq_map ptr cols _ idx_base () (List.length_replicate _ _),
    List.getElem?_map]
  have h1 : (cols.zip (List.range cols.length))[p]? = some (cols.getD p 0, p) := by
    rw [List.getElem?_zip_eq_some]
    exact ⟨getElem?_eq_some_getD cols p 0 hp, List.getElem?_range hp⟩
  rw [h1]
  rfl

theorem csr_pattern_col_mem (ptr cols : List Nat) (idx_base : rocsparse_index_base)
    (t : Nat × Nat × Unit) (ht : t ∈ csr_pattern ptr cols idx_base) : t.2.1 ∈ cols := by
  have h : t.2.1 ∈ (csr_pattern ptr cols idx_base).map (fun t => t.2.1) :=
    List.mem_map_of_mem (fun t : Nat × Nat × Unit => t.2.1) ht
  rwa [csr_pattern_cols] at h

theorem count_below_csr_pattern (ptr cols : List Nat) (idx_base : rocsparse_index_base)
    (j : Nat) :
    count_below idx_base (csr_pattern ptr cols idx_base) j
      = (cols.filter (fun c => decide (c < idx_base.val + j))).length :=
  count_below_csr_nonzeros ptr cols _ idx_base j (List.length_replicate _ _)

theorem count_below_le (ptr cols : List Nat) (idx_base : rocsparse_index_base) (j : Nat) :
    count_below idx_base (csr_pattern ptr cols idx_base) j ≤ cols.length := by
  rw [count_below_csr_pattern]
  exact List.length_filter_le _ _

theorem count_below_mono {ρ α : Type} (idx_base : rocsparse_index_base)
    (nz : List (ρ × Nat × α)) (i j : Nat) (hij : i ≤ j) :
    count_below idx_base nz i ≤ count_below idx_base nz j := by
  unfold count_below
  apply List.Sublist.length_le
  apply List.monotone_filter_right
  intro t ht
  simp only [decide_eq_true_eq] at ht ⊢
  omega

/-- Slices of the written arrays: if the first `nnz` entries of `xs` are the image of the
reference order and the offsets are the counts, the slice of column `j` is the image of
the nonzeros of column `j` in CSR order. -/
theorem column_slice_eq {β : Type} (ptr cols : List Nat) (idx_base : rocsparse_index_base)
    (n nnz j : Nat) (hj : j < n) (hcl : cols.length = nnz)
    (hlo : ∀ c ∈ cols, idx_base.val ≤ c)
    (csc_col_ptr dst : List Nat) (xs : List β) (f : Nat × Nat × Unit → β)
    (hptr : csc_col_ptr = copy_into dst ((List.range (n + 1)).map fun j =>
      idx_base.val + count_below idx_base (csr_pattern ptr cols idx_base) j))
    (hxs : xs.take nnz = (by_column n idx_base (csr_pattern ptr cols idx_base)).map f) :
    column_slice idx_base csc_col_ptr xs j
      = ((csr_pattern ptr cols idx_base).filter
          (fun t => decide (t.2.1 = idx_base.val + j))).map f := by
  have hg : ∀ i, i ≤ n → csc_col_ptr.getD i 0
      = idx_base.val + count_below idx_base (csr_pattern ptr cols idx_base) i := by
    intro i hi
    rw [List.getD_eq_getElem?_getD, hptr, getElem?_copy_into_map_range _ _ _ _ (by omega)]
    rfl
  have hle := count_below_mono idx_base (csr_pattern ptr cols idx_base) j (j + 1) (by omega)
  have hle2 := count_below_le ptr cols idx_base (j + 1)
  unfold column_slice
  rw [hg j (by omega), hg (j + 1) (by omega), Nat.add_sub_cancel_left, Nat.add_sub_add_left,
    List.take_drop, Nat.add_sub_cancel' hle]
  have h1 : xs.take (count_below idx_base (csr_pattern ptr cols idx_base) (j + 1))
      = (xs.take nnz).take (count_below idx_base (csr_pattern ptr cols idx_base) (j + 1)) := by
    rw [List.take_take, Nat.min_eq_left (by omega)]
  rw [h1, hxs, ← List.map_take, ← List.map_drop, List.drop_take,
    by_column_slice idx_base _ (fun t ht => hlo _ (csr_pattern_col_mem ptr cols idx_base t ht))
      n j hj]

theorem getElem?_append_of_some {β : Type} (l r : List β) (k : Nat) (x : β)
    (h : l[k]? = some x) : (l ++ r)[k]? = some x := by
  rw [List.getElem?_append]
  by_cases hk : k < l.length
  · rw [if_pos hk]; exact h
  · rw [List.getElem?_eq_none (by omega)] at h
    exact Option.noConfusion h

theorem getElem?_of_take {β : Type} (l : List β) (n k : Nat) (x : β)
    (h : (l.take n)[k]? = some x) : l[k]? = some x := by
  rw [List.getElem?_take] at h
  by_cases hk : k < n
  · rwa [if_pos hk] at h
  · rw [if_neg hk] at h
    exact Option.noConfusion h

theorem length_filter_key_eq {τ : Type} (key : τ → Nat) (P : Nat → Bool) (l : List τ) :
    (l.filter (fun t => P (key t))).length = ((l.map key).filter P).length := by
  rw [List.filter_map, List.length_map]
  rfl

/-- The nonzero stored at CSR position `p` sits at `csc_position p` of the reference
order. -/
theorem by_column_getElem?_csc_position (ptr cols : List Nat)
    (idx_base : rocsparse_index_base) (n p : Nat) (hp : p < cols.length)
    (hrange : ∀ c ∈ cols, idx_base.val ≤ c ∧ c < idx_base.val + n) :
    (by_column n idx_base (csr_pattern ptr cols idx_base))[csc_position cols p]?
      = some (csr_row_of ptr idx_base p + idx_base.val, cols.getD p 0, ()) := by
  have hc := hrange (cols.getD p 0) (List.getElem?_mem (getElem?_eq_some_getD cols p 0 hp))
  have hlo : ∀ t ∈ csr_pattern ptr cols idx_base, idx_base.val ≤ t.2.1 :=
    fun t ht => (hrange _ (csr_pattern_col_mem ptr cols idx_base t ht)).1
  obtain ⟨R, hR⟩ := by_column_add idx_base (csr_pattern ptr cols idx_base)
    (cols.getD p 0 - idx_base.val + 1) (n - (cols.getD p 0 - idx_base.val + 1))
  have hn : cols.getD p 0 - idx_base.val + 1 + (n - (cols.getD p 0 - idx_base.val + 1)) = n := by
    omega
  have hbj : idx_base.val + (cols.getD p 0 - idx_base.val) = cols.getD p 0 := by omega
  rw [hn, by_column_succ, hbj] at hR
  have hA := length_by_column idx_base (csr_pattern ptr cols idx_base) hlo
    (cols.getD p 0 - idx_base.val)
  rw [count_below_csr_pattern, hbj] at hA
  have hk : (((csr_pattern ptr cols idx_base).take p).filter
      (fun t => decide (t.2.1 = cols.getD p 0))).length
      = ((cols.take p).filter (fun c => decide (c = cols.getD p 0))).length := by
    rw [length_filter_key_eq (fun t : Nat × Nat × Unit => t.2.1)
      (fun c => decide (c = cols.getD p 0)), List.map_take, csr_pattern_cols]
  have hF := getElem?_filter_count (fun t : Nat × Nat × Unit => decide (t.2.1 = cols.getD p 0))
    (csr_pattern ptr cols idx_base) p _ (csr_pattern_getElem? ptr cols idx_base p hp)
    (by simp)
  rw [hk] at hF
  unfold csc_position
  rw [hR, List.append_assoc, ← hA, List.getElem?_append_right (by omega),
    Nat.add_sub_cancel_left]
  exact getElem?_append_of_some _ _ _ _ hF

theorem csc_position_lt (cols : List Nat) (p q : Nat) (hpq : p < q) (hq : q < cols.length)
    (hc : cols.getD p 0 = cols.getD q 0) : csc_position cols p < csc_position cols q := by
  unfold csc_position
  rw [hc]
  have h1 : cols.take q = cols.take p ++ (cols.drop p).take (q - p) := by
    have h := List.take_add cols p (q - p)
    rwa [Nat.add_sub_cancel' (by omega)] at h
  have h2 : cols.drop p = cols.getD q 0 :: cols.drop (p + 1) := by
    rw [List.drop_eq_getElem_cons (by omega), ← hc]
    congr 1
    rw [List.getD_eq_getElem?_getD, List.getElem?_eq_getElem (by omega)]
    rfl
  have h3 : (cols.drop p).take (q - p)
      = cols.getD q 0 :: (cols.drop (p + 1)).take (q - p - 1) := by
    rw [h2]
    have : q - p = (q - p - 1) + 1 := by omega
    rw [this, List.take_succ_cons]
    simp
  rw [h1, h3, List.filter_append, List.filter_cons]
  simp only [decide_True, if_true, List.length_append, List.length_cons]
  omega

/-- When the end bit covers the column keys, in both modes, for a valid CSR matrix: (1) the part
of `csc_row_ind` that `csc_col_ptr` assigns to column `j` is the list of rows of the
nonzeros of column `j` in CSR order; (2) the row of the nonzero stored at CSR position `p`
is written at output position `csc_position p`; (3) for CSR positions `p < q` with the same
column, `csc_position p < csc_position q`: the row of `p` comes before the row of `q`.
The end bit `rocsparse_clz n` is assumed to cover the admissible column indices. -/
theorem stable_column_slices {α : Type} (sizeof_J : Nat) (rocsparse_clz : Nat → Nat)
    (o : SortOutcome) (m n nnz : Nat) (csr_val : List α) (csr_row_ptr csr_col_ind : List Nat)
    (copy_values : rocsparse_action)
    (idx_base : rocsparse_index_base) (st : DeviceState α) (s : Scratch)
    (hm : 0 < m) (hn : 0 < n) (hnnz : 0 < nnz)
    (hv : valid_csr m n nnz idx_base csr_row_ptr csr_col_ind)
    (hbuf : st.temp_buffer = some s)
    (hrow : nnz ≤ st.csc_row_ind.length)
    (hnum : copy_values = .numeric → csr_val.length = nnz ∧ nnz ≤ st.csc_val.length)
    (hclz : idx_base.val + n ≤ 2 ^ rocsparse_clz n) :
    (∀ j, j < n →
      column_slice idx_base
        (rocsparse_csr2csc_template sizeof_J rocsparse_clz o m n nnz csr_val csr_row_ptr csr_col_ind
          copy_values idx_base st).2.csc_col_ptr
        (rocsparse_csr2csc_template sizeof_J rocsparse_clz o m n nnz csr_val csr_row_ptr csr_col_ind
          copy_values idx_base st).2.csc_row_ind j
        = ((csr_pattern csr_row_ptr csr_col_ind idx_base).filter
            (fun t => decide (t.2.1 = idx_base.val + j))).map (fun t => t.1)) ∧
    (∀ p, p < nnz →
      (rocsparse_csr2csc_template sizeof_J rocsparse_clz o m n nnz csr_val csr_row_ptr csr_col_ind
          copy_values idx_base st).2.csc_row_ind[csc_position csr_col_ind p]?
        = some (csr_row_of csr_row_ptr idx_base p + idx_base.val)) ∧
    (∀ p q, p < q → q < nnz → csr_col_ind.getD p 0 = csr_col_ind.getD q 0 →
      csc_position csr_col_ind p < csc_position csr_col_ind q) := by
  have hcl : csr_col_ind.length = nnz := hv.2.2.2.2.1
  have hrange := hv.2.2.2.2.2
  obtain ⟨_, h2, h3⟩ := template_structure sizeof_J rocsparse_clz o m n nnz csr_val csr_row_ptr
    csr_col_ind copy_values idx_base st s hm hn hnnz hv hbuf hrow hnum hclz
  refine ⟨?_, ?_, ?_⟩
  · intro j hj
    exact column_slice_eq csr_row_ptr csr_col_ind idx_base n nnz j hj hcl
      (fun c hc => (hrange c hc).1) _ st.csc_col_ptr _ (fun t => t.1) h2 h3
  · intro p hp
    apply getElem?_of_take _ nnz
    rw [h3, List.getElem?_map,
      by_column_getElem?_csc_position csr_row_ptr csr_col_ind idx_base n p (by omega) hrange]
    rfl
  · intro p q hpq hq hc
    exact csc_position_lt csr_col_ind p q hpq (by omega) hc

/-- The column slices of a 3 x 2 matrix whose column 1 holds rows 0, 1, 2 (symbolic mode, both
ping-pong
buffers swapped). -/
theorem stable_column_slices_witness :
    column_slice .zero
        (rocsparse_csr2csc_template 4 (fun _ => 1) ⟨true, true, [7, 7, 7, 7], [8, 8, 8, 8]⟩
          3 2 4 ([] : List Nat) [0, 2, 3, 4] [1, 0, 1, 1] .symbolic .zero
          ⟨[], [0, 0, 0, 0], [0, 0, 0], some ⟨[], [], []⟩⟩).2.csc_col_ptr
        (rocsparse_csr2csc_template 4 (fun _ => 1) ⟨true, true, [7, 7, 7, 7], [8, 8, 8, 8]⟩
          3 2 4 ([] : List Nat) [0, 2, 3, 4] [1, 0, 1, 1] .symbolic .zero
          ⟨[], [0, 0, 0, 0], [0, 0, 0], some ⟨[], [], []⟩⟩).2.csc_row_ind 1
      = [0, 1, 2] ∧
    (rocsparse_csr2csc_template 4 (fun _ => 1) ⟨true, true, [7, 7, 7, 7], [8, 8, 8, 8]⟩
          3 2 4 ([] : List Nat) [0, 2, 3, 4] [1, 0, 1, 1] .symbolic .zero
          ⟨[], [0, 0, 0, 0], [0, 0, 0], some ⟨[], [], []⟩⟩).2.csc_row_ind[3]? = some 2 ∧
    csc_position [1, 0, 1, 1] 0 < csc_position [1, 0, 1, 1] 2 := by
  obtain ⟨h1, h2, h3⟩ := stable_column_slices 4 (fun _ => 1) ⟨true, true, [7, 7, 7, 7], [8, 8, 8,
      8]⟩
    3 2 4 ([] : List Nat) [0, 2, 3, 4] [1, 0, 1, 1] .symbolic .zero
    ⟨[], [0, 0, 0, 0], [0, 0, 0], some ⟨[], [], []⟩⟩ ⟨[], [], []⟩
    (by decide) (by decide) (by decide) (by decide) rfl (by decide)
    (fun h => rocsparse_action.noConfusion h) (by decide)
  exact ⟨(h1 1 (by decide)).trans (by decide), h2 3 (by decide),
    h3 0 2 (by decide) (by decide) (by decide)⟩

/-! ## The permutation computed by the sort -/

theorem lower_bound_le_of_getElem? (c : Nat) :
    ∀ (keys : List Nat) (k : Nat), keys[k]? = some c → lower_bound keys c ≤ k
  | [], k, h => by simp at h
  | a :: t, 0, h => by
    simp only [List.getElem?_cons_zero, Option.some.injEq] at h
    subst h
    simp [lower_bound, List.takeWhile_cons]
  | a :: t, k + 1, h => by
    simp only [List.getElem?_cons_succ] at h
    have ih := lower_bound_le_of_getElem? c t k h
    unfold lower_bound at ih ⊢
    rw [List.takeWhile_cons]
    split_ifs
    · simp only [List.length_cons]; omega
    · simp

theorem lt_lower_bound_succ_of_getElem? (c : Nat) :
    ∀ (keys : List Nat) (k : Nat), keys.Pairwise (fun a b => a ≤ b) → keys[k]? = some c →
      k < lower_bound keys (c + 1)
  | [], k, _, h => by simp at h
  | a :: t, 0, _, h => by
    simp only [List.getElem?_cons_zero, Option.some.injEq] at h
    subst h
    simp [lower_bound, List.takeWhile_cons]
  | a :: t, k + 1, hs, h => by
    simp only [List.getElem?_cons_succ] at h
    rw [List.pairwise_cons] at hs
    have ih := lt_lower_bound_succ_of_getElem? c t k hs.2 h
    have hac := hs.1 c (List.getElem?_mem h)
    unfold lower_bound at ih ⊢
    rw [List.takeWhile_cons, if_pos (by simp only [decide_eq_true_eq]; omega)]
    simp only [List.length_cons]
    omega

theorem getElem?_of_mem_zip_range (cols : List Nat) (nnz : Nat) (p : Nat × Nat)
    (hp : p ∈ cols.zip (List.range nnz)) : cols[p.2]? = some p.1 := by
  obtain ⟨k, hk⟩ := List.mem_iff_getElem?.mp hp
  rw [List.getElem?_zip_eq_some] at hk
  obtain ⟨h1, h2⟩ := hk
  have hk2 : k < nnz := by
    by_contra hcon
    rw [List.getElem?_eq_none (by simpa using hcon)] at h2
    exact Option.noConfusion h2
  rw [List.getElem?_range hk2] at h2
  simp only [Option.some.injEq] at h2
  rw [← h2]
  exact h1

/-- When the end bit covers the column keys, in numeric mode: there is a permutation `perm` of the
CSR
positions `0 .. nnz-1` such that at every output position `k`, with `src = perm[k]`,
`csc_val[k]` is `csr_val[src]`, `csc_row_ind[k]` is the row of CSR position `src`, and `k`
lies in the range that `csc_col_ptr` assigns to the column `csr_col_ind[src]`. The end bit
`rocsparse_clz n` is assumed to cover the admissible column indices. -/
theorem numeric_preserves_values_of_cover {α : Type} (sizeof_J : Nat) (rocsparse_clz : Nat → Nat)
    (o : SortOutcome) (m n nnz : Nat) (csr_val : List α) (csr_row_ptr csr_col_ind : List Nat)
    (idx_base : rocsparse_index_base) (st : DeviceState α) (s : Scratch)
    (hm : 0 < m) (hn : 0 < n) (hnnz : 0 < nnz)
    (hv : valid_csr m n nnz idx_base csr_row_ptr csr_col_ind)
    (hval : csr_val.length = nnz) (hbuf : st.temp_buffer = some s)
    (hrow : nnz ≤ st.csc_row_ind.length) (hcv : nnz ≤ st.csc_val.length)
    (hclz : idx_base.val + n ≤ 2 ^ rocsparse_clz n) :
    ∃ perm : List Nat, perm.Perm (List.range nnz) ∧
      ∀ k, k < nnz → ∃ src, perm[k]? = some src ∧ src < nnz ∧
        (rocsparse_csr2csc_template sizeof_J rocsparse_clz o m n nnz csr_val csr_row_ptr csr_col_ind
          .numeric idx_base st).2.csc_val[k]? = csr_val[src]? ∧
        (rocsparse_csr2csc_template sizeof_J rocsparse_clz o m n nnz csr_val csr_row_ptr csr_col_ind
          .numeric idx_base st).2.csc_row_ind[k]?
          = some (csr_row_of csr_row_ptr idx_base src + idx_base.val) ∧
        (rocsparse_csr2csc_template sizeof_J rocsparse_clz o m n nnz csr_val csr_row_ptr csr_col_ind
          .numeric idx_base st).2.csc_col_ptr.getD (csr_col_ind.getD src 0 - idx_base.val) 0
          ≤ k + idx_base.val ∧
        k + idx_base.val <
          (rocsparse_csr2csc_template sizeof_J rocsparse_clz o m n nnz csr_val csr_row_ptr
              csr_col_ind
            .numeric idx_base st).2.csc_col_ptr.getD
              (csr_col_ind.getD src 0 - idx_base.val + 1) 0 := by
  have hcl : csr_col_ind.length = nnz := hv.2.2.2.2.1
  have hrange := hv.2.2.2.2.2
  have hbits : ∀ c ∈ csr_col_ind, c < 2 ^ rocsparse_clz n := by
    intro c hc
    have := hrange c hc
    omega
  obtain ⟨_, h2, h3, h4⟩ := core_numeric_spec rocsparse_clz o m n nnz csr_val csr_row_ptr
    csr_col_ind idx_base
    ⟨st.csc_val, st.csc_row_ind, st.csc_col_ptr, s.tmp_work1, s.tmp_work2, s.tmp_perm⟩
    hnnz hv hval hrow hcv
  have hS := length_sorted_pairs (rocsparse_clz n) nnz csr_col_ind (List.range nnz) hcl
    (List.length_range nnz)
  have hsorted := sorted_keys_sorted (rocsparse_clz n) nnz csr_col_ind hbits
  rw [template_eq_core sizeof_J rocsparse_clz o m n nnz csr_val csr_row_ptr csr_col_ind .numeric
    idx_base st s hm hn hnnz hbuf]
  simp only
  refine ⟨(radix_sort 0 (rocsparse_clz n) (csr_col_ind.zip (List.range nnz))).map Prod.snd,
    ?_, ?_⟩
  · have hp := (radix_sort_perm (rocsparse_clz n)
      (csr_col_ind.zip (List.range nnz))).map Prod.snd
    rwa [List.map_snd_zip _ _ (by rw [List.length_range]; omega)] at hp
  · intro k hk
    have hSk := getElem?_eq_some_getD
      (radix_sort 0 (rocsparse_clz n) (csr_col_ind.zip (List.range nnz))) k (0, 0) (by omega)
    generalize (radix_sort 0 (rocsparse_clz n)
      (csr_col_ind.zip (List.range nnz))).getD k (0, 0) = x at hSk
    have hxmem := List.getElem?_mem hSk
    have hx2 := snd_lt_of_mem_sorted_pairs _ _ _ x hxmem
    have hxc := getElem?_of_mem_zip_range csr_col_ind nnz x
      ((radix_sort_perm _ _).mem_iff.mp hxmem)
    have hcx : csr_col_ind.getD x.2 0 = x.1 := by
      rw [List.getD_eq_getElem?_getD, hxc]; rfl
    have hxr := hrange x.1 (List.getElem?_mem hxc)
    have hkey : ((radix_sort 0 (rocsparse_clz n)
        (csr_col_ind.zip (List.range nnz))).map Prod.fst)[k]? = some x.1 := by
      rw [List.getElem?_map, hSk]; rfl
    refine ⟨x.2, ?_, hx2, ?_, ?_, ?_, ?_⟩
    · rw [List.getElem?_map, hSk]; rfl
    · have h5 := congrArg (fun l => l[k]?) h4
      simp only [List.getElem?_map, List.getElem?_take, if_pos hk, hSk, Option.map_some'] at h5
      cases hcv2 : (rocsparse_csr2csc_core rocsparse_clz o m n nnz csr_val csr_row_ptr
        (List.drop 1 csr_row_ptr) csr_col_ind rocsparse_action.numeric idx_base
        ⟨st.csc_val, st.csc_row_ind, st.csc_col_ptr, s.tmp_work1, s.tmp_work2,
          s.tmp_perm⟩).2.csc_val[k]? with
      | none => rw [hcv2] at h5; exact Option.noConfusion h5
      | some v =>
        rw [hcv2] at h5
        simp only [Option.map_some', Option.some.injEq] at h5
        exact h5
    · apply getElem?_of_take _ nnz
      rw [h3, List.getElem?_map, hSk]
      rfl
    · rw [hcx, h2, List.getD_eq_getElem?_getD,
        getElem?_copy_into_map_range _ _ _ _ (by omega)]
      simp only [Option.getD_some]
      rw [Nat.sub_add_cancel hxr.1]
      have := lower_bound_le_of_getElem? x.1 _ k hkey
      omega
    · rw [hcx, h2, List.getD_eq_getElem?_getD,
        getElem?_copy_into_map_range _ _ _ _ (by omega)]
      simp only [Option.getD_some]
      have e : x.1 - idx_base.val + 1 + idx_base.val = x.1 + 1 := by omega
      rw [e]
      have := lt_lower_bound_succ_of_getElem? x.1 _ k hsorted hkey
      omega

/-- The permutation at the end-to-end example of the specification. -/
theorem numeric_preserves_values_of_cover_witness :
    ∃ perm : List Nat, perm.Perm (List.range 3) ∧
      ∀ k, k < 3 → ∃ src, perm[k]? = some src ∧ src < 3 ∧
        (rocsparse_csr2csc_template 4 (fun _ => 2) ⟨false, true, [], []⟩ 2 3 3 [5, 7, 9]
          [0, 2, 3] [2, 0, 1] .numeric .zero
          ⟨[0, 0, 0], [0, 0, 0], [0, 0, 0, 0], some ⟨[], [], []⟩⟩).2.csc_val[k]?
          = [5, 7, 9][src]? ∧
        (rocsparse_csr2csc_template 4 (fun _ => 2) ⟨false, true, [], []⟩ 2 3 3 [5, 7, 9]
          [0, 2, 3] [2, 0, 1] .numeric .zero
          ⟨[0, 0, 0], [0, 0, 0], [0, 0, 0, 0], some ⟨[], [], []⟩⟩).2.csc_row_ind[k]?
          = some (csr_row_of [0, 2, 3] .zero src + rocsparse_index_base.zero.val) ∧
        (rocsparse_csr2csc_template 4 (fun _ => 2) ⟨false, true, [], []⟩ 2 3 3 [5, 7, 9]
          [0, 2, 3] [2, 0, 1] .numeric .zero
          ⟨[0, 0, 0], [0, 0, 0], [0, 0, 0, 0], some ⟨[], [], []⟩⟩).2.csc_col_ptr.getD
            ([2, 0, 1].getD src 0 - rocsparse_index_base.zero.val) 0
          ≤ k + rocsparse_index_base.zero.val ∧
        k + rocsparse_index_base.zero.val <
          (rocsparse_csr2csc_template 4 (fun _ => 2) ⟨false, true, [], []⟩ 2 3 3 [5, 7, 9]
            [0, 2, 3] [2, 0, 1] .numeric .zero
            ⟨[0, 0, 0], [0, 0, 0], [0, 0, 0, 0], some ⟨[], [], []⟩⟩).2.csc_col_ptr.getD
              ([2, 0, 1].getD src 0 - rocsparse_index_base.zero.val + 1) 0 :=
  numeric_preserves_values_of_cover 4 (fun _ => 2) ⟨false, true, [], []⟩ 2 3 3 [5, 7, 9]
    [0, 2, 3] [2, 0, 1] .zero
    ⟨[0, 0, 0], [0, 0, 0], [0, 0, 0, 0], some ⟨[], [], []⟩⟩ ⟨[], [], []⟩
    (by decide) (by decide) (by decide) (by decide) (by decide) rfl (by decide) (by decide)
    (by decide)

/-- C4. Symbolic and numeric mode agree on structure: for a valid CSR structure of any
size the two paths return the same status and write the same `csc_col_ptr` and the same
`nnz` entries of `csc_row_ind`, whatever the values and whichever buffers the two sorts
leave current. -/
theorem csr2csc_symbolic_numeric_same_structure {α : Type} (sizeof_J : Nat) (rocsparse_clz : Nat →
    Nat)
    (o1 o2 : SortOutcome) (m n nnz : Nat) (csr_val1 csr_val2 : List α)
    (csr_row_ptr csr_col_ind : List Nat)
    (idx_base : rocsparse_index_base) (st : DeviceState α)
    (hv : valid_csr m n nnz idx_base csr_row_ptr csr_col_ind)
    (hval : csr_val2.length = nnz)
    (hrow : nnz ≤ st.csc_row_ind.length) (hcv : nnz ≤ st.csc_val.length) :
    (rocsparse_csr2csc_template sizeof_J rocsparse_clz o1 m n nnz csr_val1 csr_row_ptr csr_col_ind
      .symbolic idx_base st).1
      = (rocsparse_csr2csc_template sizeof_J rocsparse_clz o2 m n nnz csr_val2 csr_row_ptr
          csr_col_ind
      .numeric idx_base st).1 ∧
    (rocsparse_csr2csc_template sizeof_J rocsparse_clz o1 m n nnz csr_val1 csr_row_ptr csr_col_ind
      .symbolic idx_base st).2.csc_col_ptr
      = (rocsparse_csr2csc_template sizeof_J rocsparse_clz o2 m n nnz csr_val2 csr_row_ptr
          csr_col_ind
      .numeric idx_base st).2.csc_col_ptr ∧
    (rocsparse_csr2csc_template sizeof_J rocsparse_clz o1 m n nnz csr_val1 csr_row_ptr csr_col_ind
      .symbolic idx_base st).2.csc_row_ind.take nnz
      = (rocsparse_csr2csc_template sizeof_J rocsparse_clz o2 m n nnz csr_val2 csr_row_ptr
          csr_col_ind
      .numeric idx_base st).2.csc_row_ind.take nnz := by
  by_cases hmn : m = 0 ∨ n = 0
  · simp only [rocsparse_csr2csc_template, if_pos hmn, and_self]
  · by_cases hz : nnz = 0
    · simp only [rocsparse_csr2csc_template, if_neg hmn, if_pos hz, and_self]
    · cases hb : st.temp_buffer with
      | none => simp only [rocsparse_csr2csc_template, if_neg hmn, if_neg hz, hb, and_self]
      | some s =>
        have hm : 0 < m := by omega
        have hn : 0 < n := by omega
        have hnnz : 0 < nnz := by omega
        obtain ⟨a1, a2, a3, _⟩ := core_symbolic_spec rocsparse_clz o1 m n nnz csr_val1
          csr_row_ptr csr_col_ind idx_base
          ⟨st.csc_val, st.csc_row_ind, st.csc_col_ptr, s.tmp_work1, s.tmp_work2, s.tmp_perm⟩ hv
        obtain ⟨b1, b2, b3, _⟩ := core_numeric_spec rocsparse_clz o2 m n nnz csr_val2
          csr_row_ptr csr_col_ind idx_base
          ⟨st.csc_val, st.csc_row_ind, st.csc_col_ptr, s.tmp_work1, s.tmp_work2, s.tmp_perm⟩
          hnnz hv hval hrow hcv
        rw [template_eq_core sizeof_J rocsparse_clz o1 m n nnz csr_val1 csr_row_ptr csr_col_ind
            .symbolic idx_base st s hm hn hnnz hb,
          template_eq_core sizeof_J rocsparse_clz o2 m n nnz csr_val2 csr_row_ptr csr_col_ind
            .numeric idx_base st s hm hn hnnz hb]
        simp only
        rw [a1, a2, a3, b1, b2, b3]
        exact ⟨rfl, rfl, rfl⟩

/-- C4 on a 3 x 2 matrix, the two sorts leaving different buffers current. -/
theorem csr2csc_symbolic_numeric_same_structure_witness :
    (rocsparse_csr2csc_template 4 (fun _ => 1) ⟨true, false, [7], [8]⟩ 3 2 4 [] [0, 2, 3, 4]
      [1, 0, 1, 1] .symbolic .zero ⟨[0, 0, 0, 0], [0, 0, 0, 0], [0, 0, 0], some ⟨[], [], []⟩⟩).1
      = (rocsparse_csr2csc_template 4 (fun _ => 1) ⟨false, true, [], []⟩ 3 2 4 [10, 20, 30, 40]
      [0, 2, 3, 4] [1, 0, 1, 1] .numeric .zero
      ⟨[0, 0, 0, 0], [0, 0, 0, 0], [0, 0, 0], some ⟨[], [], []⟩⟩).1 ∧
    (rocsparse_csr2csc_template 4 (fun _ => 1) ⟨true, false, [7], [8]⟩ 3 2 4 [] [0, 2, 3, 4]
      [1, 0, 1, 1] .symbolic .zero
      ⟨[0, 0, 0, 0], [0, 0, 0, 0], [0, 0, 0], some ⟨[], [], []⟩⟩).2.csc_col_ptr
      = (rocsparse_csr2csc_template 4 (fun _ => 1) ⟨false, true, [], []⟩ 3 2 4 [10, 20, 30, 40]
      [0, 2, 3, 4] [1, 0, 1, 1] .numeric .zero
      ⟨[0, 0, 0, 0], [0, 0, 0, 0], [0, 0, 0], some ⟨[], [], []⟩⟩).2.csc_col_ptr ∧
    (rocsparse_csr2csc_template 4 (fun _ => 1) ⟨true, false, [7], [8]⟩ 3 2 4 [] [0, 2, 3, 4]
      [1, 0, 1, 1] .symbolic .zero
      ⟨[0, 0, 0, 0], [0, 0, 0, 0], [0, 0, 0], some ⟨[], [], []⟩⟩).2.csc_row_ind.take 4
      = (rocsparse_csr2csc_template 4 (fun _ => 1) ⟨false, true, [], []⟩ 3 2 4 [10, 20, 30, 40]
      [0, 2, 3, 4] [1, 0, 1, 1] .numeric .zero
      ⟨[0, 0, 0, 0], [0, 0, 0, 0], [0, 0, 0], some ⟨[], [], []⟩⟩).2.csc_row_ind.take 4 :=
  csr2csc_symbolic_numeric_same_structure 4 (fun _ => 1) ⟨true, false, [7], [8]⟩
    ⟨false, true, [], []⟩ 3 2 4 [] [10, 20, 30, 40] [0, 2, 3, 4] [1, 0, 1, 1] .zero
    ⟨[0, 0, 0, 0], [0, 0, 0, 0], [0, 0, 0], some ⟨[], [], []⟩⟩
    (by decide) (by decide) (by decide) (by decide)

/-! ## Degenerate inputs -/

/-- C6, as the code has it. Empty-matrix fast path: for `m, n > 0`, `nnz = 0` and
`n + 1` representable in the dimension type `J` (`n + 1 < 2^(8 * sizeof(J) - 1)`), either
action, either index base and any scratch pointer (null included), the transform returns
success, sets every one of the `n + 1` entries `csc_col_ptr[0 .. n]` to the index base
and leaves the rest of `csc_col_ptr`, all of `csc_row_ind`, all of `csc_val` and the
scratch as they were. -/
theorem csr2csc_empty_matrix_fills_offsets {α : Type} (sizeof_J : Nat)
    (rocsparse_clz : Nat → Nat)
    (o : SortOutcome) (m n : Nat) (csr_val : List α) (csr_row_ptr csr_col_ind : List Nat)
    (copy_values : rocsparse_action) (idx_base : rocsparse_index_base) (st : DeviceState α)
    (hm : 0 < m) (hn : 0 < n) (hJ : n + 1 < 2 ^ (8 * sizeof_J - 1))
    (hlen : n + 1 ≤ st.csc_col_ptr.length) :
    (rocsparse_csr2csc_template sizeof_J rocsparse_clz o m n 0 csr_val csr_row_ptr csr_col_ind
      copy_values idx_base st).1 = .success ∧
    (∀ i, i ≤ n →
      (rocsparse_csr2csc_template sizeof_J rocsparse_clz o m n 0 csr_val csr_row_ptr csr_col_ind
        copy_values idx_base st).2.csc_col_ptr[i]? = some idx_base.val) ∧
    (rocsparse_csr2csc_template sizeof_J rocsparse_clz o m n 0 csr_val csr_row_ptr csr_col_ind
        copy_values idx_base st).2.csc_col_ptr
      = List.replicate (n + 1) idx_base.val ++ st.csc_col_ptr.drop (n + 1) ∧
    (rocsparse_csr2csc_template sizeof_J rocsparse_clz o m n 0 csr_val csr_row_ptr csr_col_ind
        copy_values idx_base st).2.csc_row_ind = st.csc_row_ind ∧
    (rocsparse_csr2csc_template sizeof_J rocsparse_clz o m n 0 csr_val csr_row_ptr csr_col_ind
        copy_values idx_base st).2.csc_val = st.csc_val ∧
    (rocsparse_csr2csc_template sizeof_J rocsparse_clz o m n 0 csr_val csr_row_ptr csr_col_ind
        copy_values idx_base st).2.temp_buffer = st.temp_buffer := by
  rw [template_nnz_zero sizeof_J rocsparse_clz o m n csr_val csr_row_ptr csr_col_ind
    copy_values idx_base st hm hn, template_fill_size sizeof_J n hJ,
    set_array_to_value_launch_eq n idx_base.val st.csc_col_ptr hlen]
  refine ⟨rfl, ?_, rfl, rfl, rfl, rfl⟩
  intro i hi
  show (List.replicate (n + 1) idx_base.val ++ st.csc_col_ptr.drop (n + 1))[i]?
    = some idx_base.val
  rw [List.getElem?_append, List.length_replicate, if_pos (by omega),
    List.getElem?_replicate, if_pos (by omega)]

/-- C6 as amended, at `m = 3`, `n = 4`, `nnz = 0`, base 1, null scratch and 32-bit
dimensions: the offsets become `[1, 1, 1, 1, 1]`. -/
theorem csr2csc_empty_matrix_fills_offsets_witness :
    (rocsparse_csr2csc_template 4 (fun _ => 3) ⟨false, false, [], []⟩ 3 4 0 ([] : List Nat)
      [1, 1, 1, 1] [] .numeric .one ⟨[], [], [9, 9, 9, 9, 9], none⟩).1 = .success ∧
    (rocsparse_csr2csc_template 4 (fun _ => 3) ⟨false, false, [], []⟩ 3 4 0 ([] : List Nat)
      [1, 1, 1, 1] [] .numeric .one ⟨[], [], [9, 9, 9, 9, 9], none⟩).2.csc_col_ptr
      = [1, 1, 1, 1, 1] :=
  ⟨(csr2csc_empty_matrix_fills_offsets 4 (fun _ => 3) ⟨false, false, [], []⟩ 3 4
      ([] : List Nat) [1, 1, 1, 1] [] .numeric .one ⟨[], [], [9, 9, 9, 9, 9], none⟩
      (by decide) (by decide) (by decide) (by decide)).1,
   (csr2csc_empty_matrix_fills_offsets 4 (fun _ => 3) ⟨false, false, [], []⟩ 3 4
      ([] : List Nat) [1, 1, 1, 1] [] .numeric .one ⟨[], [], [9, 9, 9, 9, 9], none⟩
      (by decide) (by decide) (by decide) (by decide)).2.2.1.trans (by decide)⟩

/-- C6 as stated fails at `n = INT32_MAX` with 32-bit dimensions (`m = 1`, `nnz = 0`,
base 0, a `csc_col_ptr` of `2^31` entries holding 7): the kernel argument `(n + 1)` is
computed in `J` and wraps around to `-2^31`, no thread index is below it, and the call
returns success with `csc_col_ptr` as it was, so `csc_col_ptr[0]` is 7 and not the
base. -/
theorem csr2csc_empty_matrix_fills_offsets_counterexample :
    0 < 1 ∧ 0 < 2 ^ 31 - 1 ∧
    wrap_signed (8 * 4) (((2 ^ 31 - 1 : Nat) : Int) + 1) = -2 ^ 31 ∧
    rocsparse_csr2csc_template 4 (fun _ => 0) ⟨false, false, [], []⟩ 1 (2 ^ 31 - 1) 0
        ([] : List Nat) [0, 0] [] .symbolic .zero ⟨[], [], List.replicate (2 ^ 31) 7, none⟩
      = (.success, ⟨[], [], List.replicate (2 ^ 31) 7, none⟩) ∧
    (List.replicate (2 ^ 31) 7)[0]? = some 7 ∧
    (some 7 : Option Nat) ≠ some rocsparse_index_base.zero.val := by
  refine ⟨by decide, by decide, template_fill_size_overflow.1, ?_, ?_, by decide⟩
  · rw [template_nnz_zero 4 (fun _ => 0) ⟨false, false, [], []⟩ 1 (2 ^ 31 - 1) ([] : List Nat)
      [0, 0] [] .symbolic .zero ⟨[], [], List.replicate (2 ^ 31) 7, none⟩ (by decide)
      (by decide), template_fill_size_overflow.2, set_array_to_value_launch_zero]
  · rw [List.getElem?_replicate, if_pos (by decide)]

/-- C7. Zero-dimension fast path: when `m = 0` or `n = 0` the transform returns success
and leaves `csc_col_ptr`, `csc_row_ind`, `csc_val` and the scratch buffer exactly as they
were, whatever `nnz`, the action, the index base and the scratch pointer are. -/
theorem csr2csc_zero_dimension_writes_nothing {α : Type} (sizeof_J : Nat) (rocsparse_clz : Nat →
    Nat)
    (o : SortOutcome) (m n nnz : Nat) (csr_val : List α) (csr_row_ptr csr_col_ind : List Nat)
    (copy_values : rocsparse_action) (idx_base : rocsparse_index_base) (st : DeviceState α)
    (hmn : m = 0 ∨ n = 0) :
    rocsparse_csr2csc_template sizeof_J rocsparse_clz o m n nnz csr_val csr_row_ptr csr_col_ind
      copy_values idx_base st = (.success, st) := by
  unfold rocsparse_csr2csc_template
  rw [if_pos hmn]

/-- C7 at `m = 0`, `n = 5`, `nnz = 7` with a null scratch pointer. -/
theorem csr2csc_zero_dimension_writes_nothing_witness :
    rocsparse_csr2csc_template 4 (fun _ => 3) ⟨true, true, [1], [2]⟩ 0 5 7 [1, 2]
      [0] [3, 4] .numeric .zero ⟨[5], [6], [7, 8], none⟩
      = (.success, ⟨[5], [6], [7, 8], none⟩) :=
  csr2csc_zero_dimension_writes_nothing 4 (fun _ => 3) ⟨true, true, [1], [2]⟩ 0 5 7 [1, 2]
    [0] [3, 4] .numeric .zero ⟨[5], [6], [7, 8], none⟩ (Or.inl rfl)

/-! ## The scratch-size query -/

/-- C8. When `m = 0` or `n = 0` or `nnz = 0` the size query returns success with
`*buffer_size = 0`, whatever the sort primitive's size query would answer, even a failure:
the primitive is not consulted. -/
theorem csr2csc_buffer_size_zero (query : SortStorageQuery) (sizeof_I sizeof_J m n nnz : Nat)
    (copy_values : rocsparse_action) (buffer_size : Nat)
    (h : m = 0 ∨ n = 0 ∨ nnz = 0) :
    rocsparse_csr2csc_buffer_size_template query sizeof_I sizeof_J m n nnz copy_values
      buffer_size = (.success, 0) := by
  unfold rocsparse_csr2csc_buffer_size_template
  rw [if_pos h]

/-- C8 at `nnz = 0` with a sort primitive whose size query always fails. -/
theorem csr2csc_buffer_size_zero_witness :
    rocsparse_csr2csc_buffer_size_template (fun _ _ _ _ _ => .error .internal_error) 8 4 3 4 0
      .numeric 12345 = (.success, 0) :=
  csr2csc_buffer_size_zero (fun _ _ _ _ _ => .error .internal_error) 8 4 3 4 0 .numeric 12345
    (Or.inr (Or.inr rfl))

theorem buffer_size_template_eq (query : SortStorageQuery) (sizeof_I sizeof_J m n nnz : Nat)
    (copy_values : rocsparse_action) (buffer_size S : Nat)
    (hm : 0 < m) (hn : 0 < n) (hnnz : 0 < nnz) (hq : query sizeof_J sizeof_J nnz 0 32 = .ok S) :
    rocsparse_csr2csc_buffer_size_template query sizeof_I sizeof_J m n nnz copy_values
      buffer_size
      = (.success,
          (((align256 (S % 2 ^ SIZE_BITS) + align256 (bytes_of sizeof_J nnz)) % 2 ^ SIZE_BITS
            + align256 (bytes_of (max sizeof_I sizeof_J) nnz)) % 2 ^ SIZE_BITS
            + align256 (bytes_of (max sizeof_I sizeof_J) nnz)) % 2 ^ SIZE_BITS) := by
  unfold rocsparse_csr2csc_buffer_size_template rocsparse_csr2csc_buffer_size_core
  rw [if_neg (by omega), hq]

/-- C9, as the code has it. For `m, n, nnz > 0` and a sort primitive reporting `S` scratch
bytes, the size query returns, in `size_t` arithmetic,
`align256(S) + align256(nnz * wJ) + 2 * align256(nnz * max(wI, wJ))`: the first auxiliary
region is sized by the column-index width alone. When `wI ≤ wJ` (of the instantiated pairs:
equal widths) this is `align256(S) + 3 * align256(nnz * max(wI, wJ))`. -/
theorem csr2csc_buffer_size_formula (query : SortStorageQuery)
    (sizeof_I sizeof_J m n nnz : Nat) (copy_values : rocsparse_action) (buffer_size S : Nat)
    (hm : 0 < m) (hn : 0 < n) (hnnz : 0 < nnz) (hS : S < 2 ^ SIZE_BITS)
    (hq : query sizeof_J sizeof_J nnz 0 32 = .ok S) :
    rocsparse_csr2csc_buffer_size_template query sizeof_I sizeof_J m n nnz copy_values
        buffer_size
      = (.success,
          (align256 S + align256 (bytes_of sizeof_J nnz)
            + 2 * align256 (bytes_of (max sizeof_I sizeof_J) nnz)) % 2 ^ SIZE_BITS) ∧
    (sizeof_I ≤ sizeof_J →
      rocsparse_csr2csc_buffer_size_template query sizeof_I sizeof_J m n nnz copy_values
          buffer_size
        = (.success,
            (align256 S + 3 * align256 (bytes_of (max sizeof_I sizeof_J) nnz))
              % 2 ^ SIZE_BITS)) := by
  rw [buffer_size_template_eq query sizeof_I sizeof_J m n nnz copy_values buffer_size S
    hm hn hnnz hq, Nat.mod_eq_of_lt hS]
  constructor
  · congr 1
    simp only [SIZE_BITS]
    omega
  · intro hle
    rw [Nat.max_eq_right hle]
    congr 1
    simp only [SIZE_BITS]
    omega

/-- C9 as amended, at `(wI, wJ) = (8, 4)`, `nnz = 64`, `S = 1000`: the query returns
`1024 + 256 + 2 * 512 = 2304`. -/
theorem csr2csc_buffer_size_formula_witness :
    rocsparse_csr2csc_buffer_size_template (fun _ _ _ _ _ => .ok 1000) 8 4 1 1 64 .numeric 0
      = (.success, 2304) :=
  (csr2csc_buffer_size_formula (fun _ _ _ _ _ => .ok 1000) 8 4 1 1 64 .numeric 0 1000
    (by decide) (by decide) (by decide) (by decide) rfl).1.trans (by decide)

/-- C9 as stated fails for the instantiated pair `(wI, wJ) = (8, 4)`: with `nnz = 64` and
`S = 1000` the query returns 2304, not
`align256(S) + 3 * align256(nnz * max(wI, wJ)) = 2560`. -/
theorem csr2csc_buffer_size_formula_counterexample :
    instantiated_widths 8 4 ∧
    rocsparse_csr2csc_buffer_size_template (fun _ _ _ _ _ => .ok 1000) 8 4 1 1 64 .numeric 0
      = (.success, 2304) ∧
    align256 1000 + 3 * align256 (64 * max 8 4) = 2560 ∧
    (rocsparse_csr2csc_buffer_size_template (fun _ _ _ _ _ => .ok 1000) 8 4 1 1 64 .numeric
      0).2 ≠ align256 1000 + 3 * align256 (64 * max 8 4) := by
  decide

theorem align256_eq_of_pos (x : Nat) (h0 : 0 < x) (hx : x ≤ 2 ^ 63) :
    align256 x = ((x - 1) / 256 + 1) * 256 := by
  unfold align256
  simp only [SIZE_BITS]
  have h1 : (x + 2 ^ 64 - 1) % 2 ^ 64 = x - 1 := by
    have : x + 2 ^ 64 - 1 = (x - 1) + 2 ^ 64 := by omega
    rw [this, Nat.add_mod_right, Nat.mod_eq_of_lt (by omega)]
  rw [h1, Nat.mod_eq_of_lt]
  have h2 : (x - 1) / 256 ≤ 2 ^ 63 / 256 := Nat.div_le_div_right (by omega)
  norm_num at h2 ⊢
  omega

theorem align256_zero : align256 0 = 0 := by decide

theorem align256_bounds (x : Nat) (hx : x ≤ 2 ^ 63) :
    x ≤ align256 x ∧ align256 x ≤ x + 255 := by
  rcases Nat.eq_zero_or_pos x with h | h
  · subst h; rw [align256_zero]; omega
  · rw [align256_eq_of_pos x h hx]
    omega

theorem align256_mono (x y : Nat) (hxy : x ≤ y) (hy : y ≤ 2 ^ 63) :
    align256 x ≤ align256 y := by
  rcases Nat.eq_zero_or_pos x with h | h
  · subst h; rw [align256_zero]; omega
  · rw [align256_eq_of_pos x h (by omega), align256_eq_of_pos y (by omega) hy]
    have h2 : (x - 1) / 256 ≤ (y - 1) / 256 := Nat.div_le_div_right (by omega)
    omega

/-- C10, as the code has it. For `m, n, nnz > 0`, an instantiated width pair and a sort
primitive reporting `S` bytes: in numeric mode, and in symbolic mode when the two widths
are equal, the offset at which `rocsparse_csr2csc_core` places the sort scratch plus the
aligned sort scratch is the size the query returns. In symbolic mode with `(wI, wJ) = (8, 4)`
the core carves three regions of `align256(4 * nnz)` bytes, so the offset plus the aligned
sort scratch does not exceed the returned size (for sizes that do not wrap around). -/
theorem csr2csc_scratch_offset_matches (query : SortStorageQuery)
    (sizeof_I sizeof_J m n nnz : Nat) (copy_values : rocsparse_action) (buffer_size S : Nat)
    (hw : instantiated_widths sizeof_I sizeof_J)
    (hm : 0 < m) (hn : 0 < n) (hnnz : 0 < nnz)
    (hq : query sizeof_J sizeof_J nnz 0 32 = .ok S) :
    (copy_values = .numeric ∨ sizeof_I = sizeof_J →
      ((rocsparse_csr2csc_core_layout sizeof_I sizeof_J nnz copy_values).rocprim
          + align256 (S % 2 ^ SIZE_BITS)) % 2 ^ SIZE_BITS
        = (rocsparse_csr2csc_buffer_size_template query sizeof_I sizeof_J m n nnz copy_values
            buffer_size).2) ∧
    (copy_values = .symbolic → sizeof_I = 8 → sizeof_J = 4 → nnz < 2 ^ 59 → S < 2 ^ 62 →
      (rocsparse_csr2csc_core_layout sizeof_I sizeof_J nnz copy_values).rocprim
        = 3 * align256 (4 * nnz) ∧
      (rocsparse_csr2csc_core_layout sizeof_I sizeof_J nnz copy_values).rocprim + align256 S
        ≤ (rocsparse_csr2csc_buffer_size_template query sizeof_I sizeof_J m n nnz copy_values
            buffer_size).2) := by
  rw [buffer_size_template_eq query sizeof_I sizeof_J m n nnz copy_values buffer_size S
    hm hn hnnz hq]
  constructor
  · intro h
    have hmax : max sizeof_I sizeof_J = sizeof_I := by
      rcases hw with ⟨h1, h2⟩ | ⟨h1, h2⟩ | ⟨h1, h2⟩ <;> subst h1 <;> subst h2 <;> rfl
    rw [hmax]
    cases copy_values with
    | numeric =>
      simp only [rocsparse_csr2csc_core_layout, SIZE_BITS]
      omega
    | symbolic =>
      have he : sizeof_I = sizeof_J := by
        rcases h with h | h
        · exact rocsparse_action.noConfusion h
        · exact h
      rw [he]
      simp only [rocsparse_csr2csc_core_layout, SIZE_BITS]
      omega
  · intro ha hI hJ hnz hS
    subst ha hI hJ
    have hb4 : bytes_of 4 nnz = 4 * nnz := by
      unfold bytes_of
      simp only [SIZE_BITS]
      omega
    have hb8 : bytes_of (max 8 4) nnz = 8 * nnz := by
      unfold bytes_of
      simp only [SIZE_BITS]
      norm_num
      omega
    have hSm : S % 2 ^ SIZE_BITS = S := by
      simp only [SIZE_BITS]
      omega
    rw [hb4, hb8, hSm]
    have ha := align256_bounds (4 * nnz) (by omega)
    have hb := align256_bounds (8 * nnz) (by omega)
    have hs := align256_bounds S (by omega)
    have hab := align256_mono (4 * nnz) (8 * nnz) (by omega) (by omega)
    simp only [rocsparse_csr2csc_core_layout, hb4, SIZE_BITS, Nat.zero_add]
    generalize align256 (4 * nnz) = a at ha hab ⊢
    generalize align256 (8 * nnz) = b at hb hab ⊢
    generalize align256 S = s at hs ⊢
    clear hSm hb4 hb8 hq
    have e1 : a % 2 ^ 64 = a := Nat.mod_eq_of_lt (by omega)
    have e2 : (a + a) % 2 ^ 64 = a + a := Nat.mod_eq_of_lt (by omega)
    have e3 : (a + a + a) % 2 ^ 64 = a + a + a := Nat.mod_eq_of_lt (by omega)
    have e4 : (s + a) % 2 ^ 64 = s + a := Nat.mod_eq_of_lt (by omega)
    have e5 : (s + a + b) % 2 ^ 64 = s + a + b := Nat.mod_eq_of_lt (by omega)
    have e6 : (s + a + b + b) % 2 ^ 64 = s + a + b + b := Nat.mod_eq_of_lt (by omega)
    rw [e1, e2, e3, e4, e5, e6]
    constructor <;> omega

/-- C10 as amended, at numeric mode, `(wI, wJ) = (8, 4)`, `nnz = 64`, `S = 1000`: the core
places the sort scratch at offset `256 + 2 * 512 = 1280`, and `1280 + 1024 = 2304` is the
returned size. -/
theorem csr2csc_scratch_offset_matches_witness :
    ((rocsparse_csr2csc_core_layout 8 4 64 .numeric).rocprim
        + align256 (1000 % 2 ^ SIZE_BITS)) % 2 ^ SIZE_BITS
      = (rocsparse_csr2csc_buffer_size_template (fun _ _ _ _ _ => .ok 1000) 8 4 1 1 64
          .numeric 0).2 :=
  (csr2csc_scratch_offset_matches (fun _ _ _ _ _ => .ok 1000) 8 4 1 1 64 .numeric 0 1000
    (by decide) (by decide) (by decide) (by decide) rfl).1 (Or.inl rfl)

/-- C10 as stated fails in symbolic mode for the instantiated pair `(wI, wJ) = (8, 4)`:
with `nnz = 64` and `S = 1000` the core places the sort scratch at offset `3 * 256 = 768`,
the estimator's three auxiliary terms sum to `256 + 512 + 512 = 1280`, and
`768 + 1024 = 1792` is not the returned size 2304. -/
theorem csr2csc_scratch_offset_counterexample :
    instantiated_widths 8 4 ∧
    (rocsparse_csr2csc_core_layout 8 4 64 .symbolic).rocprim = 768 ∧
    align256 (bytes_of 4 64) + align256 (bytes_of (max 8 4) 64)
      + align256 (bytes_of (max 8 4) 64) = 1280 ∧
    rocsparse_csr2csc_buffer_size_template (fun _ _ _ _ _ => .ok 1000) 8 4 1 1 64 .symbolic 0
      = (.success, 2304) ∧
    ((rocsparse_csr2csc_core_layout 8 4 64 .symbolic).rocprim + align256 1000) % 2 ^ SIZE_BITS
      ≠ (rocsparse_csr2csc_buffer_size_template (fun _ _ _ _ _ => .ok 1000) 8 4 1 1 64
          .symbolic 0).2 := by
  decide

/-! ## Reading the result back as a CSR matrix -/

theorem by_column_eq_radix_sort {ρ α : Type} (n : Nat) (idx_base : rocsparse_index_base)
    (Y : List (ρ × Nat × α))
    (hrange : ∀ t ∈ Y, idx_base.val ≤ t.2.1 ∧ t.2.1 < idx_base.val + n) :
    by_column n idx_base Y
      = (radix_sort 0 (idx_base.val + n) (Y.map (fun t => (t.2.1, t)))).map Prod.snd := by
  have hmem : ∀ p ∈ Y.map (fun t => (t.2.1, t)), p.2 ∈ Y ∧ p.1 = p.2.2.1 := by
    intro p hp
    obtain ⟨t, ht, rfl⟩ := List.mem_map.mp hp
    exact ⟨ht, rfl⟩
  have h := by_column_map_eq_sorted (idx_base.val + n) n idx_base
    (Y.map (fun t => (t.2.1, t))) Prod.snd
    (fun p hp => (hmem p hp).2.symm)
    (fun p hp => by
      have h1 := hrange p.2 (hmem p hp).1
      have h2 := Nat.lt_two_pow (idx_base.val + n)
      rw [(hmem p hp).2]
      omega)
    (fun p hp => by
      rw [(hmem p hp).2]
      exact hrange p.2 (hmem p hp).1)
  rw [List.map_map] at h
  have hid : (Prod.snd ∘ fun t : ρ × Nat × α => (t.2.1, t)) = id := rfl
  rw [hid, List.map_id] at h
  exact h

theorem by_column_perm {ρ α : Type} (n : Nat) (idx_base : rocsparse_index_base)
    (Y : List (ρ × Nat × α))
    (hrange : ∀ t ∈ Y, idx_base.val ≤ t.2.1 ∧ t.2.1 < idx_base.val + n) :
    (by_column n idx_base Y).Perm Y := by
  rw [by_column_eq_radix_sort n idx_base Y hrange]
  have h := (radix_sort_perm (idx_base.val + n) (Y.map (fun t => (t.2.1, t)))).map Prod.snd
  rw [List.map_map] at h
  have hid : (Prod.snd ∘ fun t : ρ × Nat × α => (t.2.1, t)) = id := rfl
  rw [hid, List.map_id] at h
  exact h

theorem by_column_sorted {ρ α : Type} (n : Nat) (idx_base : rocsparse_index_base)
    (Y : List (ρ × Nat × α))
    (hrange : ∀ t ∈ Y, idx_base.val ≤ t.2.1 ∧ t.2.1 < idx_base.val + n) :
    ((by_column n idx_base Y).map (fun t => t.2.1)).Pairwise (fun a b => a ≤ b) := by
  rw [by_column_eq_radix_sort n idx_base Y hrange, List.map_map, List.pairwise_map]
  have hmem : ∀ p ∈ Y.map (fun t => (t.2.1, t)), p.2 ∈ Y ∧ p.1 = p.2.2.1 := by
    intro p hp
    obtain ⟨t, ht, rfl⟩ := List.mem_map.mp hp
    exact ⟨ht, rfl⟩
  have hs := radix_sort_sorted (idx_base.val + n) (Y.map (fun t => (t.2.1, t)))
    (fun p hp => by
      have h1 := hrange p.2 (hmem p hp).1
      have h2 := Nat.lt_two_pow (idx_base.val + n)
      rw [(hmem p hp).2]
      omega)
  refine List.Pairwise.imp_of_mem ?_ hs
  intro p q hp hq hpq
  have hp2 := (hmem p ((radix_sort_perm _ _).mem_iff.mp hp)).2
  have hq2 := (hmem q ((radix_sort_perm _ _).mem_iff.mp hq)).2
  simp only [Function.comp]
  omega

theorem count_below_eq_lower_bound {ρ α : Type} (n j : Nat) (idx_base : rocsparse_index_base)
    (Y : List (ρ × Nat × α))
    (hrange : ∀ t ∈ Y, idx_base.val ≤ t.2.1 ∧ t.2.1 < idx_base.val + n) :
    count_below idx_base Y j
      = lower_bound ((by_column n idx_base Y).map (fun t => t.2.1)) (idx_base.val + j) := by
  rw [lower_bound_sorted _ _ (by_column_sorted n idx_base Y hrange)]
  unfold count_below
  rw [length_filter_key_eq (fun t : ρ × Nat × α => t.2.1)
    (fun c => decide (c < idx_base.val + j))]
  exact (((by_column_perm n idx_base Y hrange).map (fun t => t.2.1)).filter _).length_eq.symm

theorem zip_map_map_map {τ β γ δ : Type} (f1 : τ → β) (f2 : τ → γ) (f3 : τ → δ) :
    ∀ (X : List τ),
      (X.map f1).zip ((X.map f2).zip (X.map f3)) = X.map (fun t => (f1 t, f2 t, f3 t))
  | [] => rfl
  | a :: X => by
    simp only [List.map_cons, List.zip_cons_cons]
    rw [zip_map_map_map f1 f2 f3 X]

theorem offsets_getD {ρ α : Type} (n i : Nat) (idx_base : rocsparse_index_base)
    (Y : List (ρ × Nat × α)) (hi : i ≤ n) :
    ((List.range (n + 1)).map fun j => idx_base.val + count_below idx_base Y j).getD i 0
      = idx_base.val + count_below idx_base Y i := by
  rw [List.getD_eq_getElem?_getD, List.getElem?_map, List.getElem?_range (by omega)]
  rfl

theorem offsets_sorted {ρ α : Type} (n : Nat) (idx_base : rocsparse_index_base)
    (Y : List (ρ × Nat × α)) :
    ((List.range (n + 1)).map fun j => idx_base.val + count_below idx_base Y j).Pairwise
      (fun a b => a ≤ b) := by
  rw [List.pairwise_map]
  refine List.Pairwise.imp ?_ (List.pairwise_lt_range (n + 1))
  intro i j hij
  have := count_below_mono idx_base Y i j (by omega)
  omega

/-- Reading the reference transpose back as a CSR matrix of the transposed shape gives the
nonzeros by ascending column, with row and column exchanged. -/
theorem csr_nonzeros_read_back {α : Type} (n : Nat) (idx_base : rocsparse_index_base)
    (Y : List (Nat × Nat × α))
    (hrange : ∀ t ∈ Y, idx_base.val ≤ t.2.1 ∧ t.2.1 < idx_base.val + n) :
    csr_nonzeros ((List.range (n + 1)).map fun j => idx_base.val + count_below idx_base Y j)
        ((by_column n idx_base Y).map (fun t => t.1))
        ((by_column n idx_base Y).map (fun t => t.2.2)) idx_base
      = (by_column n idx_base Y).map (fun t => (t.2.1, t.1, t.2.2)) := by
  have hrows : (List.range (by_column n idx_base Y).length).map
      (fun k => csr_row_of ((List.range (n + 1)).map fun j =>
        idx_base.val + count_below idx_base Y j) idx_base k + idx_base.val)
      = (by_column n idx_base Y).map (fun t => t.2.1) := by
    apply List.ext_getElem?
    intro k
    rw [List.getElem?_map, List.getElem?_map]
    by_cases hk : k < (by_column n idx_base Y).length
    · have hXk := getElem?_eq_some_getD (by_column n idx_base Y) k
        ((by_column n idx_base Y).get ⟨k, hk⟩) hk
      generalize (by_column n idx_base Y).getD k ((by_column n idx_base Y).get ⟨k, hk⟩) = x
        at hXk
      have hx := hrange x ((by_column_perm n idx_base Y hrange).mem_iff.mp
        (List.getElem?_mem hXk))
      have hkey : ((by_column n idx_base Y).map (fun t => t.2.1))[k]? = some x.2.1 := by
        rw [List.getElem?_map, hXk]; rfl
      have h1 := lower_bound_le_of_getElem? x.2.1 _ k hkey
      have h2 := lt_lower_bound_succ_of_getElem? x.2.1 _ k
        (by_column_sorted n idx_base Y hrange) hkey
      have e1 : idx_base.val + (x.2.1 - idx_base.val) = x.2.1 := by omega
      have e2 : idx_base.val + (x.2.1 - idx_base.val + 1) = x.2.1 + 1 := by omega
      have hrow := csr_row_of_eq
        ((List.range (n + 1)).map fun j => idx_base.val + count_below idx_base Y j) n idx_base
        (by rw [List.length_map, List.length_range]) (offsets_sorted n idx_base Y)
        (x.2.1 - idx_base.val) k (by omega)
        (by
          rw [offsets_getD n _ idx_base Y (by omega),
            count_below_eq_lower_bound n _ idx_base Y hrange, e1]
          omega)
        (by
          rw [offsets_getD n _ idx_base Y (by omega),
            count_below_eq_lower_bound n _ idx_base Y hrange, e2]
          omega)
      rw [List.getElem?_range hk, hXk]
      simp only [Option.map_some', Option.some.injEq]
      rw [hrow]
      omega
    · rw [List.getElem?_eq_none (by simpa using hk), List.getElem?_eq_none (by omega)]
      rfl
  unfold csr_nonzeros
  rw [List.length_map, hrows]
  exact zip_map_map_map _ _ _ _

theorem csr_row_of_lt (m n nnz p : Nat) (idx_base : rocsparse_index_base)
    (ptr cols : List Nat) (hv : valid_csr m n nnz idx_base ptr cols) (hp : p < nnz) :
    csr_row_of ptr idx_base p < m := by
  obtain ⟨hlen, h0, hm, hs, _, _⟩ := hv
  have h0' : ptr.getD 0 0 = idx_base.val := by
    rw [List.getD_eq_getElem?_getD, h0]; rfl
  have hm' : ptr.getD m 0 = idx_base.val + nnz := by
    rw [List.getD_eq_getElem?_getD, hm]; rfl
  obtain ⟨_, hE⟩ := csr2coo_expand ptr m idx_base hlen hs h0' m (Nat.le_refl m)
  have h1 := List.getElem?_mem (hE p (by omega))
  obtain ⟨r, hr, hx⟩ := List.mem_flatMap.mp h1
  have hr2 := List.mem_range.mp hr
  have hx2 := (List.mem_replicate.mp hx).2
  omega

theorem csr_nonzeros_length {α : Type} (ptr cols : List Nat) (vals : List α)
    (idx_base : rocsparse_index_base) (hval : vals.length = cols.length) :
    (csr_nonzeros ptr cols vals idx_base).length = cols.length := by
  have h := congrArg List.length (csr_nonzeros_cols ptr cols vals idx_base hval)
  rwa [List.length_map] at h

theorem csr_nonzeros_col_range {α : Type} (n : Nat) (ptr cols : List Nat) (vals : List α)
    (idx_base : rocsparse_index_base) (hval : vals.length = cols.length)
    (hrange : ∀ c ∈ cols, idx_base.val ≤ c ∧ c < idx_base.val + n) :
    ∀ t ∈ csr_nonzeros ptr cols vals idx_base,
      idx_base.val ≤ t.2.1 ∧ t.2.1 < idx_base.val + n := by
  intro t ht
  apply hrange
  have h : t.2.1 ∈ (csr_nonzeros ptr cols vals idx_base).map (fun t => t.2.1) :=
    List.mem_map_of_mem (fun t : Nat × Nat × α => t.2.1) ht
  rwa [csr_nonzeros_cols ptr cols vals idx_base hval] at h

theorem csr_nonzeros_row_range {α : Type} (m n nnz : Nat) (ptr cols : List Nat)
    (vals : List α) (idx_base : rocsparse_index_base)
    (hv : valid_csr m n nnz idx_base ptr cols) :
    ∀ t ∈ csr_nonzeros ptr cols vals idx_base,
      idx_base.val ≤ t.1 ∧ t.1 < idx_base.val + m := by
  intro t ht
  unfold csr_nonzeros at ht
  have h1 := (List.of_mem_zip ht).1
  obtain ⟨p, hp, hpt⟩ := List.mem_map.mp h1
  have hp2 := List.mem_range.mp hp
  rw [hv.2.2.2.2.1] at hp2
  have := csr_row_of_lt m n nnz p idx_base ptr cols hv hp2
  omega

theorem count_below_zero {ρ α : Type} (idx_base : rocsparse_index_base)
    (Y : List (ρ × Nat × α)) (hlo : ∀ t ∈ Y, idx_base.val ≤ t.2.1) :
    count_below idx_base Y 0 = 0 := by
  rw [← length_by_column idx_base Y hlo 0]
  rfl

theorem count_below_all {ρ α : Type} (n : Nat) (idx_base : rocsparse_index_base)
    (Y : List (ρ × Nat × α))
    (hrange : ∀ t ∈ Y, idx_base.val ≤ t.2.1 ∧ t.2.1 < idx_base.val + n) :
    count_below idx_base Y n = Y.length := by
  unfold count_below
  rw [List.filter_eq_self.mpr]
  intro t ht
  simp only [decide_eq_true_eq]
  exact (hrange t ht).2

/-- The reference transpose of a valid `m x n` CSR matrix is a valid CSR structure for the
`n x m` transpose. -/
theorem valid_csr_transposed {α : Type} (m n nnz : Nat) (idx_base : rocsparse_index_base)
    (ptr cols : List Nat) (vals : List α)
    (hv : valid_csr m n nnz idx_base ptr cols) (hval : vals.length = nnz) :
    valid_csr n m nnz idx_base
      ((List.range (n + 1)).map fun j =>
        idx_base.val + count_below idx_base (csr_nonzeros ptr cols vals idx_base) j)
      ((by_column n idx_base (csr_nonzeros ptr cols vals idx_base)).map (fun t => t.1)) := by
  have hcl : cols.length = nnz := hv.2.2.2.2.1
  have hcr := csr_nonzeros_col_range n ptr cols vals idx_base (by omega) hv.2.2.2.2.2
  have hrr := csr_nonzeros_row_range m n nnz ptr cols vals idx_base hv
  have hlen := csr_nonzeros_length ptr cols vals idx_base (by omega)
  have hperm := by_column_perm n idx_base _ hcr
  refine ⟨?_, ?_, ?_, offsets_sorted n idx_base _, ?_, ?_⟩
  · rw [List.length_map, List.length_range]
  · rw [List.getElem?_map, List.getElem?_range (by omega)]
    simp only [Option.map_some']
    rw [count_below_zero idx_base _ (fun t ht => (hcr t ht).1)]
    rfl
  · rw [List.getElem?_map, List.getElem?_range (by omega)]
    simp only [Option.map_some']
    rw [count_below_all n idx_base _ hcr, hlen, hcl]
  · rw [List.length_map, hperm.length_eq, hlen, hcl]
  · intro r hr
    obtain ⟨t, ht, rfl⟩ := List.mem_map.mp hr
    exact hrr t (hperm.mem_iff.mp ht)

/-- Numeric mode, in full: status, the `n + 1` offsets, the `nnz` rows and the `nnz`
values written by the transform are those of the reference transpose. -/
theorem template_numeric_spec {α : Type} (sizeof_J : Nat) (rocsparse_clz : Nat → Nat)
    (o : SortOutcome) (m n nnz : Nat) (csr_val : List α) (csr_row_ptr csr_col_ind : List Nat)
    (idx_base : rocsparse_index_base) (st : DeviceState α) (s : Scratch)
    (hm : 0 < m) (hn : 0 < n) (hnnz : 0 < nnz)
    (hv : valid_csr m n nnz idx_base csr_row_ptr csr_col_ind)
    (hval : csr_val.length = nnz) (hbuf : st.temp_buffer = some s)
    (hrow : nnz ≤ st.csc_row_ind.length) (hcv : nnz ≤ st.csc_val.length)
    (hclz : idx_base.val + n ≤ 2 ^ rocsparse_clz n) :
    (rocsparse_csr2csc_template sizeof_J rocsparse_clz o m n nnz csr_val csr_row_ptr csr_col_ind
      .numeric idx_base st).1 = .success ∧
    (rocsparse_csr2csc_template sizeof_J rocsparse_clz o m n nnz csr_val csr_row_ptr csr_col_ind
        .numeric idx_base st).2.csc_col_ptr.take (n + 1)
      = ((List.range (n + 1)).map fun j => idx_base.val
          + count_below idx_base (csr_nonzeros csr_row_ptr csr_col_ind csr_val idx_base) j) ∧
    (rocsparse_csr2csc_template sizeof_J rocsparse_clz o m n nnz csr_val csr_row_ptr csr_col_ind
      .numeric idx_base st).2.csc_row_ind.take nnz
      = (by_column n idx_base (csr_nonzeros csr_row_ptr csr_col_ind csr_val idx_base)).map
          (fun t => t.1) ∧
    (rocsparse_csr2csc_template sizeof_J rocsparse_clz o m n nnz csr_val csr_row_ptr csr_col_ind
      .numeric idx_base st).2.csc_val.take nnz
      = (by_column n idx_base (csr_nonzeros csr_row_ptr csr_col_ind csr_val idx_base)).map
          (fun t => t.2.2) := by
  have hcl : csr_col_ind.length = nnz := hv.2.2.2.2.1
  have hrange := hv.2.2.2.2.2
  have hbits : ∀ c ∈ csr_col_ind, c < 2 ^ rocsparse_clz n := by
    intro c hc
    have := hrange c hc
    omega
  have d : α := csr_val.get ⟨0, by omega⟩
  obtain ⟨h1, h2, h3, h4⟩ := core_numeric_spec rocsparse_clz o m n nnz csr_val csr_row_ptr
    csr_col_ind idx_base
    ⟨st.csc_val, st.csc_row_ind, st.csc_col_ptr, s.tmp_work1, s.tmp_work2, s.tmp_perm⟩
    hnnz hv hval hrow hcv
  have hby := by_column_csr_nonzeros (rocsparse_clz n) n nnz csr_row_ptr csr_col_ind csr_val
    idx_base d hcl hval hrange hclz
  rw [template_eq_core sizeof_J rocsparse_clz o m n nnz csr_val csr_row_ptr csr_col_ind .numeric
    idx_base st s hm hn hnnz hbuf]
  refine ⟨h1, ?_, ?_, ?_⟩
  · simp only
    rw [h2, take_copy_into _ _ _ (by rw [List.length_map, List.length_range])]
    apply List.map_congr_left
    intro j _
    rw [lower_bound_sorted_keys _ _ _ _ hcl hbits,
      count_below_csr_nonzeros _ _ _ _ _ (by omega), Nat.add_comm j, Nat.add_comm]
  · simp only
    rw [h3, hby, List.map_map]
    rfl
  · simp only
    apply List.map_injective_iff.mpr (Option.some_injective α)
    rw [h4, hby, List.map_map, List.map_map]
    apply List.map_congr_left
    intro p hp
    have hp2 := snd_lt_of_mem_sorted_pairs _ _ _ p hp
    simp only [Function.comp]
    exact getElem?_eq_some_getD csr_val p.2 d (by omega)

/-! ## Round trip -/

theorem csr_nonzeros_take_zero {α : Type} (ptr cols : List Nat) (vals : List α)
    (idx_base : rocsparse_index_base) :
    csr_nonzeros ptr (cols.take 0) vals idx_base = [] := by
  unfold csr_nonzeros
  rfl

theorem template_success_of_nnz_zero {α : Type} (sizeof_J : Nat) (clz : Nat → Nat) (o : SortOutcome)
    (m n : Nat) (csr_val : List α) (ptr cols : List Nat) (act : rocsparse_action)
    (idx_base : rocsparse_index_base) (st : DeviceState α) :
    (rocsparse_csr2csc_template sizeof_J clz o m n 0 csr_val ptr cols act idx_base st).1 = .success
        := by
  unfold rocsparse_csr2csc_template
  by_cases hmn : m = 0 ∨ n = 0
  · rw [if_pos hmn]
  · rw [if_neg hmn, if_pos rfl]

/-- When the end bits cover the keys of both calls: for a valid `m x n` CSR matrix, numeric
`csr2csc` followed by numeric
`csr2csc` on the result read as the CSR form of the `n x m` transpose succeeds twice and
yields a matrix whose (row, column, value) triples are a permutation of those of the
original matrix. The end bits `rocsparse_clz n` and `rocsparse_clz m` are assumed to cover
the admissible column indices of the two calls. -/
theorem round_trip_of_cover {α : Type} (sizeof_J : Nat) (rocsparse_clz : Nat → Nat)
    (o1 o2 : SortOutcome) (m n nnz : Nat) (csr_val : List α)
    (csr_row_ptr csr_col_ind : List Nat)
    (idx_base : rocsparse_index_base) (st1 st2 : DeviceState α)
    (hv : valid_csr m n nnz idx_base csr_row_ptr csr_col_ind)
    (hval : csr_val.length = nnz)
    (hbuf1 : 0 < nnz → (∃ s, st1.temp_buffer = some s) ∧ nnz ≤ st1.csc_row_ind.length ∧
      nnz ≤ st1.csc_val.length)
    (hbuf2 : 0 < nnz → (∃ s, st2.temp_buffer = some s) ∧ nnz ≤ st2.csc_row_ind.length ∧
      nnz ≤ st2.csc_val.length)
    (hclz_n : idx_base.val + n ≤ 2 ^ rocsparse_clz n)
    (hclz_m : idx_base.val + m ≤ 2 ^ rocsparse_clz m) :
    (rocsparse_csr2csc_template sizeof_J rocsparse_clz o1 m n nnz csr_val csr_row_ptr csr_col_ind
      .numeric idx_base st1).1 = .success ∧
    (rocsparse_csr2csc_template sizeof_J rocsparse_clz o2 n m nnz
      ((rocsparse_csr2csc_template sizeof_J rocsparse_clz o1 m n nnz csr_val csr_row_ptr csr_col_ind
        .numeric idx_base st1).2.csc_val.take nnz)
      ((rocsparse_csr2csc_template sizeof_J rocsparse_clz o1 m n nnz csr_val csr_row_ptr csr_col_ind
        .numeric idx_base st1).2.csc_col_ptr.take (n + 1))
      ((rocsparse_csr2csc_template sizeof_J rocsparse_clz o1 m n nnz csr_val csr_row_ptr csr_col_ind
        .numeric idx_base st1).2.csc_row_ind.take nnz)
      .numeric idx_base st2).1 = .success ∧
    (csr_nonzeros
      ((rocsparse_csr2csc_template sizeof_J rocsparse_clz o2 n m nnz
        ((rocsparse_csr2csc_template sizeof_J rocsparse_clz o1 m n nnz csr_val csr_row_ptr
            csr_col_ind
          .numeric idx_base st1).2.csc_val.take nnz)
        ((rocsparse_csr2csc_template sizeof_J rocsparse_clz o1 m n nnz csr_val csr_row_ptr
            csr_col_ind
          .numeric idx_base st1).2.csc_col_ptr.take (n + 1))
        ((rocsparse_csr2csc_template sizeof_J rocsparse_clz o1 m n nnz csr_val csr_row_ptr
            csr_col_ind
          .numeric idx_base st1).2.csc_row_ind.take nnz)
        .numeric idx_base st2).2.csc_col_ptr.take (m + 1))
      ((rocsparse_csr2csc_template sizeof_J rocsparse_clz o2 n m nnz
        ((rocsparse_csr2csc_template sizeof_J rocsparse_clz o1 m n nnz csr_val csr_row_ptr
            csr_col_ind
          .numeric idx_base st1).2.csc_val.take nnz)
        ((rocsparse_csr2csc_template sizeof_J rocsparse_clz o1 m n nnz csr_val csr_row_ptr
            csr_col_ind
          .numeric idx_base st1).2.csc_col_ptr.take (n + 1))
        ((rocsparse_csr2csc_template sizeof_J rocsparse_clz o1 m n nnz csr_val csr_row_ptr
            csr_col_ind
          .numeric idx_base st1).2.csc_row_ind.take nnz)
        .numeric idx_base st2).2.csc_row_ind.take nnz)
      ((rocsparse_csr2csc_template sizeof_J rocsparse_clz o2 n m nnz
        ((rocsparse_csr2csc_template sizeof_J rocsparse_clz o1 m n nnz csr_val csr_row_ptr
            csr_col_ind
          .numeric idx_base st1).2.csc_val.take nnz)
        ((rocsparse_csr2csc_template sizeof_J rocsparse_clz o1 m n nnz csr_val csr_row_ptr
            csr_col_ind
          .numeric idx_base st1).2.csc_col_ptr.take (n + 1))
        ((rocsparse_csr2csc_template sizeof_J rocsparse_clz o1 m n nnz csr_val csr_row_ptr
            csr_col_ind
          .numeric idx_base st1).2.csc_row_ind.take nnz)
        .numeric idx_base st2).2.csc_val.take nnz)
      idx_base).Perm (csr_nonzeros csr_row_ptr csr_col_ind csr_val idx_base) := by
  have hcl : csr_col_ind.length = nnz := hv.2.2.2.2.1
  rcases Nat.eq_zero_or_pos nnz with hz | hnnz
  · subst hz
    refine ⟨template_success_of_nnz_zero sizeof_J _ _ _ _ _ _ _ _ _ _,
      template_success_of_nnz_zero sizeof_J _ _ _ _ _ _ _ _ _ _, ?_⟩
    rw [csr_nonzeros_take_zero]
    have hc : csr_col_ind = [] := List.length_eq_zero.mp hcl
    rw [hc]
    exact List.Perm.refl _
  · obtain ⟨⟨s1, hs1⟩, hrow1, hcv1⟩ := hbuf1 hnnz
    obtain ⟨⟨s2, hs2⟩, hrow2, hcv2⟩ := hbuf2 hnnz
    have hm : 0 < m := by
      rcases Nat.eq_zero_or_pos m with h | h
      · subst h
        have h0 := hv.2.1
        have h1 := hv.2.2.1
        rw [h0] at h1
        simp only [Option.some.injEq] at h1
        omega
      · exact h
    have hn : 0 < n := by
      have hc0 := getElem?_eq_some_getD csr_col_ind 0 0 (by omega)
      have := hv.2.2.2.2.2 _ (List.getElem?_mem hc0)
      omega
    obtain ⟨a1, a2, a3, a4⟩ := template_numeric_spec sizeof_J rocsparse_clz o1 m n nnz csr_val
      csr_row_ptr csr_col_ind idx_base st1 s1 hm hn hnnz hv hval hs1 hrow1 hcv1 hclz_n
    rw [a2, a3, a4]
    have hcr := csr_nonzeros_col_range n csr_row_ptr csr_col_ind csr_val idx_base (by omega)
      hv.2.2.2.2.2
    have hrr := csr_nonzeros_row_range m n nnz csr_row_ptr csr_col_ind csr_val idx_base hv
    have hlen := csr_nonzeros_length csr_row_ptr csr_col_ind csr_val idx_base (by omega)
    have hperm := by_column_perm n idx_base _ hcr
    have hv2 := valid_csr_transposed m n nnz idx_base csr_row_ptr csr_col_ind csr_val hv hval
    have hval2 : ((by_column n idx_base
        (csr_nonzeros csr_row_ptr csr_col_ind csr_val idx_base)).map (fun t => t.2.2)).length
        = nnz := by
      rw [List.length_map, hperm.length_eq, hlen, hcl]
    obtain ⟨b1, b2, b3, b4⟩ := template_numeric_spec sizeof_J rocsparse_clz o2 n m nnz _ _ _
        idx_base
      st2 s2 hn hm hnnz hv2 hval2 hs2 hrow2 hcv2 hclz_m
    rw [b2, b3, b4, csr_nonzeros_read_back n idx_base _ hcr]
    have hrange1 : ∀ t ∈ (by_column n idx_base
        (csr_nonzeros csr_row_ptr csr_col_ind csr_val idx_base)).map
          (fun t => (t.2.1, t.1, t.2.2)),
        idx_base.val ≤ t.2.1 ∧ t.2.1 < idx_base.val + m := by
      intro t ht
      obtain ⟨x, hx, rfl⟩ := List.mem_map.mp ht
      exact hrr x (hperm.mem_iff.mp hx)
    rw [csr_nonzeros_read_back m idx_base _ hrange1]
    refine ⟨a1, b1, ?_⟩
    have p1 := (by_column_perm m idx_base _ hrange1).map
      (fun t : Nat × Nat × α => (t.2.1, t.1, t.2.2))
    rw [List.map_map] at p1
    have hid : ((fun t : Nat × Nat × α => (t.2.1, t.1, t.2.2)) ∘
        fun t : Nat × Nat × α => (t.2.1, t.1, t.2.2)) = id := rfl
    rw [hid, List.map_id] at p1
    exact p1.trans hperm

/-- The round trip at the end-to-end example of the specification: transposing the 2 x 3 matrix and
transposing the result back gives a permutation of its three nonzeros. -/
theorem round_trip_of_cover_witness :
    (csr_nonzeros
      ((rocsparse_csr2csc_template 4 (fun _ => 2) ⟨true, true, [], []⟩ 3 2 3
      ((rocsparse_csr2csc_template 4 (fun _ => 2) ⟨false, false, [], []⟩ 2 3 3 [5, 7, 9]
        [0, 2, 3] [2, 0, 1] .numeric .zero
        ⟨[0, 0, 0], [0, 0, 0], [0, 0, 0, 0], some ⟨[], [], []⟩⟩).2.csc_val.take 3)
      ((rocsparse_csr2csc_template 4 (fun _ => 2) ⟨false, false, [], []⟩ 2 3 3 [5, 7, 9]
        [0, 2, 3] [2, 0, 1] .numeric .zero
        ⟨[0, 0, 0], [0, 0, 0], [0, 0, 0, 0], some ⟨[], [], []⟩⟩).2.csc_col_ptr.take (3 + 1))
      ((rocsparse_csr2csc_template 4 (fun _ => 2) ⟨false, false, [], []⟩ 2 3 3 [5, 7, 9]
        [0, 2, 3] [2, 0, 1] .numeric .zero
        ⟨[0, 0, 0], [0, 0, 0], [0, 0, 0, 0], some ⟨[], [], []⟩⟩).2.csc_row_ind.take 3)
      .numeric .zero ⟨[0, 0, 0], [0, 0, 0], [0, 0, 0, 0], some ⟨[], [], []⟩⟩).2.csc_col_ptr.take (2
          + 1))
      ((rocsparse_csr2csc_template 4 (fun _ => 2) ⟨true, true, [], []⟩ 3 2 3
      ((rocsparse_csr2csc_template 4 (fun _ => 2) ⟨false, false, [], []⟩ 2 3 3 [5, 7, 9]
        [0, 2, 3] [2, 0, 1] .numeric .zero
        ⟨[0, 0, 0], [0, 0, 0], [0, 0, 0, 0], some ⟨[], [], []⟩⟩).2.csc_val.take 3)
      ((rocsparse_csr2csc_template 4 (fun _ => 2) ⟨false, false, [], []⟩ 2 3 3 [5, 7, 9]
        [0, 2, 3] [2, 0, 1] .numeric .zero
        ⟨[0, 0, 0], [0, 0, 0], [0, 0, 0, 0], some ⟨[], [], []⟩⟩).2.csc_col_ptr.take (3 + 1))
      ((rocsparse_csr2csc_template 4 (fun _ => 2) ⟨false, false, [], []⟩ 2 3 3 [5, 7, 9]
        [0, 2, 3] [2, 0, 1] .numeric .zero
        ⟨[0, 0, 0], [0, 0, 0], [0, 0, 0, 0], some ⟨[], [], []⟩⟩).2.csc_row_ind.take 3)
      .numeric .zero ⟨[0, 0, 0], [0, 0, 0], [0, 0, 0, 0], some ⟨[], [], []⟩⟩).2.csc_row_ind.take 3)
      ((rocsparse_csr2csc_template 4 (fun _ => 2) ⟨true, true, [], []⟩ 3 2 3
      ((rocsparse_csr2csc_template 4 (fun _ => 2) ⟨false, false, [], []⟩ 2 3 3 [5, 7, 9]
        [0, 2, 3] [2, 0, 1] .numeric .zero
        ⟨[0, 0, 0], [0, 0, 0], [0, 0, 0, 0], some ⟨[], [], []⟩⟩).2.csc_val.take 3)
      ((rocsparse_csr2csc_template 4 (fun _ => 2) ⟨false, false, [], []⟩ 2 3 3 [5, 7, 9]
        [0, 2, 3] [2, 0, 1] .numeric .zero
        ⟨[0, 0, 0], [0, 0, 0], [0, 0, 0, 0], some ⟨[], [], []⟩⟩).2.csc_col_ptr.take (3 + 1))
      ((rocsparse_csr2csc_template 4 (fun _ => 2) ⟨false, false, [], []⟩ 2 3 3 [5, 7, 9]
        [0, 2, 3] [2, 0, 1] .numeric .zero
        ⟨[0, 0, 0], [0, 0, 0], [0, 0, 0, 0], some ⟨[], [], []⟩⟩).2.csc_row_ind.take 3)
      .numeric .zero ⟨[0, 0, 0], [0, 0, 0], [0, 0, 0, 0], some ⟨[], [], []⟩⟩).2.csc_val.take 3)
      .zero).Perm (csr_nonzeros [0, 2, 3] [2, 0, 1] [5, 7, 9] .zero) :=
  (round_trip_of_cover 4 (fun _ => 2) ⟨false, false, [], []⟩ ⟨true, true, [], []⟩ 2 3 3
    [5, 7, 9] [0, 2, 3] [2, 0, 1] .zero
    ⟨[0, 0, 0], [0, 0, 0], [0, 0, 0, 0], some ⟨[], [], []⟩⟩
    ⟨[0, 0, 0], [0, 0, 0], [0, 0, 0, 0], some ⟨[], [], []⟩⟩
    (by decide) (by decide)
    (fun _ => ⟨⟨_, rfl⟩, by decide, by decide⟩)
    (fun _ => ⟨⟨_, rfl⟩, by decide, by decide⟩)
    (by decide) (by decide)).2.2

/-! ## Argument validation -/

theorem core_status {α : Type} (clz : Nat → Nat) (o : SortOutcome) (m n nnz : Nat)
    (csr_val : List α) (b e cols : List Nat) (act : rocsparse_action)
    (idx_base : rocsparse_index_base) (mem : Mem α) :
    (rocsparse_csr2csc_core clz o m n nnz csr_val b e cols act idx_base mem).1 = .success := by
  cases act <;> rfl

/-- The status of `rocsparse_csr2csc_template` depends on the sizes and on the scratch
pointer only. -/
theorem template_status {α : Type} (sizeof_J : Nat) (clz : Nat → Nat) (o : SortOutcome) (m n nnz :
    Nat)
    (csr_val : List α) (ptr cols : List Nat) (act : rocsparse_action)
    (idx_base : rocsparse_index_base) (st : DeviceState α) :
    (rocsparse_csr2csc_template sizeof_J clz o m n nnz csr_val ptr cols act idx_base st).1
      = if m = 0 ∨ n = 0 ∨ nnz = 0 then rocsparse_status.success
        else if st.temp_buffer.isNone then rocsparse_status.invalid_pointer
        else rocsparse_status.success := by
  unfold rocsparse_csr2csc_template
  by_cases hmn : m = 0 ∨ n = 0
  · rw [if_pos hmn, if_pos (by omega)]
  · by_cases hz : nnz = 0
    · rw [if_neg hmn, if_pos hz, if_pos (by omega)]
    · rw [if_neg hmn, if_neg hz, if_neg (by omega)]
      cases hb : st.temp_buffer with
      | none => rfl
      | some s =>
        simp only [Option.isNone_some, Bool.false_eq_true, if_false]
        exact core_status _ _ _ _ _ _ _ _ _ _ _ _

/-- A rejected call of `rocsparse_csr2csc_template` leaves every array as it was. -/
theorem template_unchanged_of_not_success {α : Type} (sizeof_J : Nat) (clz : Nat → Nat) (o :
    SortOutcome)
    (m n nnz : Nat) (csr_val : List α) (ptr cols : List Nat) (act : rocsparse_action)
    (idx_base : rocsparse_index_base) (st : DeviceState α)
    (h : (rocsparse_csr2csc_template sizeof_J clz o m n nnz csr_val ptr cols act idx_base st).1
      ≠ .success) :
    (rocsparse_csr2csc_template sizeof_J clz o m n nnz csr_val ptr cols act idx_base st).2 = st :=
        by
  unfold rocsparse_csr2csc_template at h ⊢
  by_cases hmn : m = 0 ∨ n = 0
  · rw [if_pos hmn]
  · by_cases hz : nnz = 0
    · rw [if_neg hmn, if_pos hz] at h
      exact absurd rfl h
    · rw [if_neg hmn, if_neg hz] at h ⊢
      cases hb : st.temp_buffer with
      | none => rfl
      | some s =>
        rw [hb] at h
        exact absurd (core_status _ _ _ _ _ _ _ _ _ _ _ _) h

theorem store_deref {α : Type} (p : DevicePointers α) : p.store p.deref = p := by
  obtain ⟨a, b, c, d⟩ := p
  cases a <;> cases b <;> cases c <;> rfl

theorem impl_of_checks_none {α : Type} (sizeof_J : Nat) (clz : Nat → Nat) (o : SortOutcome)
    (handle : rocsparse_handle) (m n nnz : Int)
    (csr_val : Option (List α)) (csr_row_ptr csr_col_ind : Option (List Nat))
    (act : rocsparse_action) (base : rocsparse_index_base) (p : DevicePointers α)
    (h : rocsparse_csr2csc_impl_checks handle m n nnz csr_val csr_row_ptr csr_col_ind
      p.csc_val p.csc_row_ind p.csc_col_ptr (some act) (some base) = none) :
    rocsparse_csr2csc_impl sizeof_J clz o handle m n nnz csr_val csr_row_ptr csr_col_ind (some act)
        (some base) p
      = ((rocsparse_csr2csc_template sizeof_J clz o m.toNat n.toNat nnz.toNat (csr_val.getD [])
            (csr_row_ptr.getD []) (csr_col_ind.getD []) act base p.deref).1,
         p.store (rocsparse_csr2csc_template sizeof_J clz o m.toNat n.toNat nnz.toNat (csr_val.getD
             [])
            (csr_row_ptr.getD []) (csr_col_ind.getD []) act base p.deref).2) := by
  unfold rocsparse_csr2csc_impl
  rw [h]

theorem impl_of_checks_some {α : Type} (sizeof_J : Nat) (clz : Nat → Nat) (o : SortOutcome)
    (handle : rocsparse_handle) (m n nnz : Int)
    (csr_val : Option (List α)) (csr_row_ptr csr_col_ind : Option (List Nat))
    (copy_values : Option rocsparse_action) (idx_base : Option rocsparse_index_base)
    (p : DevicePointers α) (e : rocsparse_status)
    (h : rocsparse_csr2csc_impl_checks handle m n nnz csr_val csr_row_ptr csr_col_ind
      p.csc_val p.csc_row_ind p.csc_col_ptr copy_values idx_base = some e) :
    rocsparse_csr2csc_impl sizeof_J clz o handle m n nnz csr_val csr_row_ptr csr_col_ind copy_values
        idx_base p = (e, p) := by
  unfold rocsparse_csr2csc_impl
  rw [h]

theorem checks_handle_null {α : Type} (m n nnz : Int)
    (csr_val : Option (List α)) (csr_row_ptr csr_col_ind : Option (List Nat))
    (csc_val : Option (List α)) (csc_row_ind csc_col_ptr : Option (List Nat))
    (copy_values : Option rocsparse_action) (idx_base : Option rocsparse_index_base) :
    rocsparse_csr2csc_impl_checks none m n nnz csr_val csr_row_ptr csr_col_ind
      csc_val csc_row_ind csc_col_ptr copy_values idx_base = some .invalid_handle := by
  unfold rocsparse_csr2csc_impl_checks
  simp only [rocsparse_enum_utils.is_invalid, Option.isNone_none, Option.isNone_some,
    Bool.false_eq_true, if_true, if_false]

theorem checks_action_invalid {α : Type} (u : Unit) (m n nnz : Int)
    (csr_val : Option (List α)) (csr_row_ptr csr_col_ind : Option (List Nat))
    (csc_val : Option (List α)) (csc_row_ind csc_col_ptr : Option (List Nat))
    (idx_base : Option rocsparse_index_base) :
    rocsparse_csr2csc_impl_checks (some u) m n nnz csr_val csr_row_ptr csr_col_ind
      csc_val csc_row_ind csc_col_ptr none idx_base = some .invalid_value := by
  unfold rocsparse_csr2csc_impl_checks
  simp only [rocsparse_enum_utils.is_invalid, Option.isNone_none, Option.isNone_some,
    Bool.false_eq_true, if_true, if_false]

theorem checks_base_invalid {α : Type} (u : Unit) (m n nnz : Int)
    (csr_val : Option (List α)) (csr_row_ptr csr_col_ind : Option (List Nat))
    (csc_val : Option (List α)) (csc_row_ind csc_col_ptr : Option (List Nat))
    (act : rocsparse_action) :
    rocsparse_csr2csc_impl_checks (some u) m n nnz csr_val csr_row_ptr csr_col_ind
      csc_val csc_row_ind csc_col_ptr (some act) none = some .invalid_value := by
  unfold rocsparse_csr2csc_impl_checks
  simp only [rocsparse_enum_utils.is_invalid, Option.isNone_none, Option.isNone_some,
    Bool.false_eq_true, if_true, if_false]

theorem checks_size_negative {α : Type} (u : Unit) (m n nnz : Int)
    (csr_val : Option (List α)) (csr_row_ptr csr_col_ind : Option (List Nat))
    (csc_val : Option (List α)) (csc_row_ind csc_col_ptr : Option (List Nat))
    (act : rocsparse_action) (base : rocsparse_index_base)
    (h : m < 0 ∨ n < 0 ∨ nnz < 0) :
    rocsparse_csr2csc_impl_checks (some u) m n nnz csr_val csr_row_ptr csr_col_ind
      csc_val csc_row_ind csc_col_ptr (some act) (some base) = some .invalid_size := by
  unfold rocsparse_csr2csc_impl_checks
  simp only [rocsparse_enum_utils.is_invalid, Option.isNone_none, Option.isNone_some,
    Bool.false_eq_true, if_true, if_false]
  rw [if_pos h]

/-- With a valid handle, valid enumerations and non-negative sizes, the checks of
`rocsparse_csr2csc_impl` reduce to the pointer checks. -/
theorem checks_pointer_stage {α : Type} (u : Unit) (m n nnz : Int)
    (csr_val : Option (List α)) (csr_row_ptr csr_col_ind : Option (List Nat))
    (csc_val : Option (List α)) (csc_row_ind csc_col_ptr : Option (List Nat))
    (act : rocsparse_action) (base : rocsparse_index_base)
    (hm : 0 ≤ m) (hn : 0 ≤ n) (hnnz : 0 ≤ nnz) :
    rocsparse_csr2csc_impl_checks (some u) m n nnz csr_val csr_row_ptr csr_col_ind
      csc_val csc_row_ind csc_col_ptr (some act) (some base)
      = if (m > 0 ∧ csr_row_ptr.isNone) ∨ (n > 0 ∧ csc_col_ptr.isNone) then
          some rocsparse_status.invalid_pointer
        else if some act = some rocsparse_action.numeric then
          if (csr_val.isNone ∧ ¬ csr_col_ind.isNone) ∨ (¬ csr_val.isNone ∧ csr_col_ind.isNone)
          then some rocsparse_status.invalid_pointer
          else if (csc_val.isNone ∧ ¬ csc_row_ind.isNone)
              ∨ (¬ csc_val.isNone ∧ csc_row_ind.isNone) then
            some rocsparse_status.invalid_pointer
          else if nnz ≠ 0 ∧ (csr_val.isNone ∧ csr_col_ind.isNone) then
            some rocsparse_status.invalid_pointer
          else if nnz ≠ 0 ∧ (csc_val.isNone ∧ csc_row_ind.isNone) then
            some rocsparse_status.invalid_pointer
          else none
        else
          if nnz ≠ 0 ∧ (csr_col_ind.isNone ∨ csc_row_ind.isNone) then
            some rocsparse_status.invalid_pointer
          else none := by
  unfold rocsparse_csr2csc_impl_checks
  simp only [rocsparse_enum_utils.is_invalid, Option.isNone_none, Option.isNone_some,
    Bool.false_eq_true, if_true, if_false]
  rw [if_neg (by omega)]

/-- The pointer checks return nothing but invalid-pointer. -/
theorem checks_pointer_stage_cases {α : Type} (u : Unit) (m n nnz : Int)
    (csr_val : Option (List α)) (csr_row_ptr csr_col_ind : Option (List Nat))
    (csc_val : Option (List α)) (csc_row_ind csc_col_ptr : Option (List Nat))
    (act : rocsparse_action) (base : rocsparse_index_base)
    (hm : 0 ≤ m) (hn : 0 ≤ n) (hnnz : 0 ≤ nnz) :
    rocsparse_csr2csc_impl_checks (some u) m n nnz csr_val csr_row_ptr csr_col_ind
        csc_val csc_row_ind csc_col_ptr (some act) (some base) = none ∨
    rocsparse_csr2csc_impl_checks (some u) m n nnz csr_val csr_row_ptr csr_col_ind
        csc_val csc_row_ind csc_col_ptr (some act) (some base) = some .invalid_pointer := by
  rw [checks_pointer_stage u m n nnz csr_val csr_row_ptr csr_col_ind csc_val csc_row_ind
    csc_col_ptr act base hm hn hnnz]
  split_ifs <;> simp

/-- Passing the checks of `rocsparse_csr2csc_impl` means: the handle is not null, the
enumerations are valid and the sizes are non-negative. -/
theorem checks_none_valid {α : Type} (handle : rocsparse_handle) (m n nnz : Int)
    (csr_val : Option (List α)) (csr_row_ptr csr_col_ind : Option (List Nat))
    (csc_val : Option (List α)) (csc_row_ind csc_col_ptr : Option (List Nat))
    (copy_values : Option rocsparse_action) (idx_base : Option rocsparse_index_base)
    (h : rocsparse_csr2csc_impl_checks handle m n nnz csr_val csr_row_ptr csr_col_ind
      csc_val csc_row_ind csc_col_ptr copy_values idx_base = none) :
    (∃ u, handle = some u) ∧ (∃ act, copy_values = some act) ∧
      (∃ base, idx_base = some base) ∧ 0 ≤ m ∧ 0 ≤ n ∧ 0 ≤ nnz := by
  cases handle with
  | none => rw [checks_handle_null] at h; exact Option.noConfusion h
  | some u =>
    cases copy_values with
    | none => rw [checks_action_invalid] at h; exact Option.noConfusion h
    | some act =>
      cases idx_base with
      | none => rw [checks_base_invalid] at h; exact Option.noConfusion h
      | some base =>
        by_cases hs : m < 0 ∨ n < 0 ∨ nnz < 0
        · rw [checks_size_negative u m n nnz _ _ _ _ _ _ act base hs] at h
          exact Option.noConfusion h
        · exact ⟨⟨u, rfl⟩, ⟨act, rfl⟩, ⟨base, rfl⟩, by omega, by omega, by omega⟩

theorem impl_status_of_checks_none {α : Type} (sizeof_J : Nat) (clz : Nat → Nat) (o : SortOutcome)
    (handle : rocsparse_handle) (m n nnz : Int)
    (csr_val : Option (List α)) (csr_row_ptr csr_col_ind : Option (List Nat))
    (copy_values : Option rocsparse_action) (idx_base : Option rocsparse_index_base)
    (p : DevicePointers α)
    (h : rocsparse_csr2csc_impl_checks handle m n nnz csr_val csr_row_ptr csr_col_ind
      p.csc_val p.csc_row_ind p.csc_col_ptr copy_values idx_base = none) :
    (rocsparse_csr2csc_impl sizeof_J clz o handle m n nnz csr_val csr_row_ptr csr_col_ind
        copy_values
        idx_base p).1
      = if m = 0 ∨ n = 0 ∨ nnz = 0 then rocsparse_status.success
        else if p.temp_buffer.isNone then rocsparse_status.invalid_pointer
        else rocsparse_status.success := by
  obtain ⟨_, ⟨act, rfl⟩, ⟨base, rfl⟩, hm, hn, hnnz⟩ := checks_none_valid _ _ _ _ _ _ _ _ _ _ _ _ h
  rw [impl_of_checks_none sizeof_J clz o handle m n nnz csr_val csr_row_ptr csr_col_ind act base p
      h]
  simp only
  rw [template_status]
  have e : (m.toNat = 0 ∨ n.toNat = 0 ∨ nnz.toNat = 0) ↔ (m = 0 ∨ n = 0 ∨ nnz = 0) := by
    omega
  simp only [e]
  rfl

/-- C12, as the code has it. For a call that passes the argument checks (handle,
enumerations, sizes and array pointers valid) with a null scratch pointer:
`rocsparse_csr2csc_impl` returns invalid-pointer when `m`, `n` and `nnz` are all positive,
and returns success when `nnz = 0` or `m = 0` or `n = 0`. -/
theorem csr2csc_impl_null_scratch {α : Type} (sizeof_J : Nat) (rocsparse_clz : Nat → Nat) (o :
    SortOutcome)
    (handle : rocsparse_handle) (m n nnz : Int)
    (csr_val : Option (List α)) (csr_row_ptr csr_col_ind : Option (List Nat))
    (copy_values : Option rocsparse_action) (idx_base : Option rocsparse_index_base)
    (p : DevicePointers α)
    (hchecks : rocsparse_csr2csc_impl_checks handle m n nnz csr_val csr_row_ptr csr_col_ind
      p.csc_val p.csc_row_ind p.csc_col_ptr copy_values idx_base = none)
    (hnull : p.temp_buffer = none) :
    (0 < m ∧ 0 < n ∧ 0 < nnz →
      (rocsparse_csr2csc_impl sizeof_J rocsparse_clz o handle m n nnz csr_val csr_row_ptr
          csr_col_ind
        copy_values idx_base p).1 = .invalid_pointer) ∧
    (m = 0 ∨ n = 0 ∨ nnz = 0 →
      (rocsparse_csr2csc_impl sizeof_J rocsparse_clz o handle m n nnz csr_val csr_row_ptr
          csr_col_ind
        copy_values idx_base p).1 = .success) := by
  rw [impl_status_of_checks_none sizeof_J rocsparse_clz o handle m n nnz csr_val csr_row_ptr
    csr_col_ind copy_values idx_base p hchecks, hnull]
  constructor
  · intro h
    rw [if_neg (by omega)]
    rfl
  · intro h
    rw [if_pos h]

/-- C12 as amended, at the 2 x 3 example with a null scratch pointer: invalid-pointer. -/
theorem csr2csc_impl_null_scratch_witness :
    (rocsparse_csr2csc_impl 4 (fun _ => 2) ⟨false, false, [], []⟩ (some ()) 2 3 3
      (some [5, 7, 9]) (some [0, 2, 3]) (some [2, 0, 1]) (some .numeric) (some .zero)
      ⟨some [0, 0, 0], some [0, 0, 0], some [0, 0, 0, 0], none⟩).1 = .invalid_pointer :=
  (csr2csc_impl_null_scratch 4 (fun _ => 2) ⟨false, false, [], []⟩ (some ()) 2 3 3
    (some [5, 7, 9]) (some [0, 2, 3]) (some [2, 0, 1]) (some .numeric) (some .zero)
    ⟨some [0, 0, 0], some [0, 0, 0], some [0, 0, 0, 0], none⟩ (by decide) rfl).1
    (by decide)

/-- C12 as stated fails when a dimension is zero: with `m = 0`, `n = 3`, `nnz = 5`, every
array pointer non-null and a null scratch pointer, the call passes the argument checks and
returns success, although `nnz > 0`. -/
theorem csr2csc_impl_null_scratch_counterexample :
    rocsparse_csr2csc_impl_checks (some ()) 0 3 5 (some [1, 2, 3, 4, 5]) (some [0])
      (some [0, 1, 2, 0, 1]) (some [0, 0, 0, 0, 0]) (some [0, 0, 0, 0, 0])
      (some [0, 0, 0, 0]) (some rocsparse_action.numeric) (some rocsparse_index_base.zero)
      = none ∧
    (rocsparse_csr2csc_impl 4 (fun _ => 2) ⟨false, false, [], []⟩ (some ()) 0 3 5
      (some [1, 2, 3, 4, 5]) (some [0]) (some [0, 1, 2, 0, 1]) (some .numeric) (some .zero)
      ⟨some [0, 0, 0, 0, 0], some [0, 0, 0, 0, 0], some [0, 0, 0, 0], none⟩).1
      = .success ∧
    (rocsparse_csr2csc_impl 4 (fun _ => 2) ⟨false, false, [], []⟩ (some ()) 0 3 5
      (some [1, 2, 3, 4, 5]) (some [0]) (some [0, 1, 2, 0, 1]) (some .numeric) (some .zero)
      ⟨some [0, 0, 0, 0, 0], some [0, 0, 0, 0, 0], some [0, 0, 0, 0], none⟩).1
      ≠ .invalid_pointer := by
  decide

theorem buffer_size_template_status_ne_invalid_size (query : SortStorageQuery)
    (sizeof_I sizeof_J m n nnz : Nat) (act : rocsparse_action) (b : Nat)
    (hq : ∀ kw vw cnt sb eb, query kw vw cnt sb eb ≠ .error .invalid_size) :
    (rocsparse_csr2csc_buffer_size_template query sizeof_I sizeof_J m n nnz act b).1
      ≠ .invalid_size := by
  unfold rocsparse_csr2csc_buffer_size_template rocsparse_csr2csc_buffer_size_core
  split_ifs with h
  · exact fun h2 => rocsparse_status.noConfusion h2
  · cases hqq : query sizeof_J sizeof_J nnz 0 32 with
    | error e =>
      intro h2
      simp only at h2
      rw [h2] at hqq
      exact hq _ _ _ _ _ hqq
    | ok s => exact fun h2 => rocsparse_status.noConfusion h2

/-- C13. Size errors: given a non-null handle and valid enumeration arguments,
`rocsparse_csr2csc_impl` and `rocsparse_csr2csc_buffer_size_impl` return invalid-size if
and only if one of `m`, `n`, `nnz` is negative, whatever the pointers are. For the size
query the sort primitive is assumed not to fail with a status that maps to invalid-size. -/
theorem csr2csc_invalid_size_iff {α : Type} (rocsparse_clz : Nat → Nat) (o : SortOutcome)
    (query : SortStorageQuery) (sizeof_I sizeof_J : Nat)
    (u : Unit) (m n nnz : Int)
    (csr_val : Option (List α)) (csr_row_ptr csr_col_ind : Option (List Nat))
    (act : rocsparse_action) (base : rocsparse_index_base)
    (p : DevicePointers α) (buffer_size : Option Nat)
    (hq : ∀ kw vw cnt sb eb, query kw vw cnt sb eb ≠ .error .invalid_size) :
    ((rocsparse_csr2csc_impl sizeof_J rocsparse_clz o (some u) m n nnz csr_val csr_row_ptr
        csr_col_ind
        (some act) (some base) p).1 = .invalid_size ↔ (m < 0 ∨ n < 0 ∨ nnz < 0)) ∧
    ((rocsparse_csr2csc_buffer_size_impl query sizeof_I sizeof_J (some u) m n nnz csr_row_ptr
        csr_col_ind (some act) buffer_size).1 = .invalid_size ↔ (m < 0 ∨ n < 0 ∨ nnz < 0)) := by
  constructor
  · by_cases hs : m < 0 ∨ n < 0 ∨ nnz < 0
    · rw [impl_of_checks_some sizeof_J rocsparse_clz o (some u) m n nnz csr_val csr_row_ptr
          csr_col_ind
        (some act) (some base) p _ (checks_size_negative u m n nnz _ _ _ _ _ _ act base hs)]
      exact ⟨fun _ => hs, fun _ => rfl⟩
    · refine ⟨fun h => ?_, fun h => absurd h hs⟩
      exfalso
      rcases checks_pointer_stage_cases u m n nnz csr_val csr_row_ptr csr_col_ind p.csc_val
        p.csc_row_ind p.csc_col_ptr act base (by omega) (by omega) (by omega) with hc | hc
      · rw [impl_status_of_checks_none sizeof_J rocsparse_clz o (some u) m n nnz csr_val csr_row_ptr
          csr_col_ind (some act) (some base) p hc] at h
        split_ifs at h
      · rw [impl_of_checks_some sizeof_J rocsparse_clz o (some u) m n nnz csr_val csr_row_ptr
          csr_col_ind (some act) (some base) p _ hc] at h
        exact rocsparse_status.noConfusion h
  · unfold rocsparse_csr2csc_buffer_size_impl
    simp only [rocsparse_enum_utils.is_invalid, Option.isNone_some, Bool.false_eq_true,
      if_false]
    by_cases hs : m < 0 ∨ n < 0 ∨ nnz < 0
    · rw [if_pos hs]
      exact ⟨fun _ => hs, fun _ => rfl⟩
    · rw [if_neg hs]
      refine ⟨fun h => ?_, fun h => absurd h hs⟩
      exfalso
      cases buffer_size with
      | none =>
        simp only [Option.isNone_none, if_true] at h
        exact rocsparse_status.noConfusion h
      | some b =>
        simp only [Option.isNone_some, Bool.false_eq_true, if_false] at h
        split_ifs at h
        exact buffer_size_template_status_ne_invalid_size query sizeof_I sizeof_J _ _ _ act b
          hq h

/-- C13 at `m = -1` with every pointer null. -/
theorem csr2csc_invalid_size_iff_witness :
    (rocsparse_csr2csc_impl 4 (fun _ => 2) ⟨false, false, [], []⟩ (some ()) (-1) 3 3
        (none : Option (List Nat)) none none (some .numeric) (some .zero)
        ⟨none, none, none, none⟩).1 = .invalid_size ∧
    (rocsparse_csr2csc_buffer_size_impl (fun _ _ _ _ _ => .ok 1000) 4 4 (some ()) (-1) 3 3
        none none (some .numeric) none).1 = .invalid_size :=
  ⟨(csr2csc_invalid_size_iff (fun _ => 2) ⟨false, false, [], []⟩ (fun _ _ _ _ _ => .ok 1000)
      4 4 () (-1) 3 3 (none : Option (List Nat)) none none .numeric .zero
      ⟨none, none, none, none⟩ none
      (fun _ _ _ _ _ h => Except.noConfusion h)).1.mpr (by decide),
   (csr2csc_invalid_size_iff (fun _ => 2) ⟨false, false, [], []⟩ (fun _ _ _ _ _ => .ok 1000)
      4 4 () (-1) 3 3 (none : Option (List Nat)) none none .numeric .zero
      ⟨none, none, none, none⟩ none
      (fun _ _ _ _ _ h => Except.noConfusion h)).2.mpr (by decide)⟩

/-- C14. Numeric-mode pointer validation. Given a valid handle, valid enumerations,
non-negative sizes and `csr_row_ptr` / `csc_col_ptr` present where required, the argument
checks of `rocsparse_csr2csc_impl` in numeric mode either pass or return invalid-pointer,
and they return invalid-pointer exactly when `csr_val` and `csr_col_ind` are not jointly
null or jointly non-null, or `csc_val` and `csc_row_ind` are not, or `nnz != 0` and the
pair of one side is null. With `nnz != 0` the checks pass exactly when all four pointers
are non-null. With a non-null scratch pointer the same condition decides whether the whole
call returns invalid-pointer. -/
theorem csr2csc_numeric_pointer_validation {α : Type} (sizeof_J : Nat) (rocsparse_clz : Nat → Nat)
    (o : SortOutcome) (u : Unit) (m n nnz : Int)
    (csr_val : Option (List α)) (csr_row_ptr csr_col_ind : Option (List Nat))
    (base : rocsparse_index_base) (p : DevicePointers α)
    (hm : 0 ≤ m) (hn : 0 ≤ n) (hnnz : 0 ≤ nnz)
    (hreq : ¬ ((m > 0 ∧ csr_row_ptr.isNone) ∨ (n > 0 ∧ p.csc_col_ptr.isNone))) :
    (rocsparse_csr2csc_impl_checks (some u) m n nnz csr_val csr_row_ptr csr_col_ind
        p.csc_val p.csc_row_ind p.csc_col_ptr (some .numeric) (some base)
        = some .invalid_pointer ↔
      (csr_val.isNone ≠ csr_col_ind.isNone ∨ p.csc_val.isNone ≠ p.csc_row_ind.isNone ∨
        (nnz ≠ 0 ∧ ((csr_val.isNone ∧ csr_col_ind.isNone) ∨
          (p.csc_val.isNone ∧ p.csc_row_ind.isNone))))) ∧
    (rocsparse_csr2csc_impl_checks (some u) m n nnz csr_val csr_row_ptr csr_col_ind
        p.csc_val p.csc_row_ind p.csc_col_ptr (some .numeric) (some base) = none ∨
      rocsparse_csr2csc_impl_checks (some u) m n nnz csr_val csr_row_ptr csr_col_ind
        p.csc_val p.csc_row_ind p.csc_col_ptr (some .numeric) (some base)
        = some .invalid_pointer) ∧
    (nnz ≠ 0 →
      (rocsparse_csr2csc_impl_checks (some u) m n nnz csr_val csr_row_ptr csr_col_ind
          p.csc_val p.csc_row_ind p.csc_col_ptr (some .numeric) (some base) = none ↔
        (csr_val.isSome ∧ csr_col_ind.isSome ∧ p.csc_val.isSome ∧ p.csc_row_ind.isSome))) ∧
    (p.temp_buffer.isSome →
      ((rocsparse_csr2csc_impl sizeof_J rocsparse_clz o (some u) m n nnz csr_val csr_row_ptr
          csr_col_ind (some .numeric) (some base) p).1 = .invalid_pointer ↔
        (csr_val.isNone ≠ csr_col_ind.isNone ∨ p.csc_val.isNone ≠ p.csc_row_ind.isNone ∨
          (nnz ≠ 0 ∧ ((csr_val.isNone ∧ csr_col_ind.isNone) ∨
            (p.csc_val.isNone ∧ p.csc_row_ind.isNone)))))) := by
  have hstage := checks_pointer_stage u m n nnz csr_val csr_row_ptr csr_col_ind p.csc_val
    p.csc_row_ind p.csc_col_ptr .numeric base hm hn hnnz
  rw [if_neg hreq, if_pos rfl] at hstage
  have hA : (rocsparse_csr2csc_impl_checks (some u) m n nnz csr_val csr_row_ptr csr_col_ind
        p.csc_val p.csc_row_ind p.csc_col_ptr (some .numeric) (some base)
        = some .invalid_pointer ↔
      (csr_val.isNone ≠ csr_col_ind.isNone ∨ p.csc_val.isNone ≠ p.csc_row_ind.isNone ∨
        (nnz ≠ 0 ∧ ((csr_val.isNone ∧ csr_col_ind.isNone) ∨
          (p.csc_val.isNone ∧ p.csc_row_ind.isNone))))) := by
    rw [hstage]
    cases csr_val.isNone <;> cases csr_col_ind.isNone <;> cases p.csc_val.isNone <;>
      cases p.csc_row_ind.isNone <;> by_cases hz : nnz = 0 <;> simp [hz]
  have hB := checks_pointer_stage_cases u m n nnz csr_val csr_row_ptr csr_col_ind p.csc_val
    p.csc_row_ind p.csc_col_ptr .numeric base hm hn hnnz
  refine ⟨hA, hB, ?_, ?_⟩
  · intro hz
    rw [hstage]
    cases hcv : csr_val <;> cases hci : csr_col_ind <;> cases hov : p.csc_val <;>
      cases hoi : p.csc_row_ind <;> simp [hz]
  · intro hs
    rw [← hA]
    rcases hB with hc | hc
    · rw [impl_status_of_checks_none sizeof_J rocsparse_clz o (some u) m n nnz csr_val csr_row_ptr
        csr_col_ind (some .numeric) (some base) p hc, hc]
      cases htb : p.temp_buffer with
      | none => rw [htb] at hs; exact Bool.noConfusion hs
      | some s =>
        simp only [Option.isNone_some, Bool.false_eq_true, if_false, ite_self, reduceCtorEq]
    · rw [impl_of_checks_some sizeof_J rocsparse_clz o (some u) m n nnz csr_val csr_row_ptr
        csr_col_ind (some .numeric) (some base) p _ hc, hc]
      exact ⟨fun _ => rfl, fun _ => rfl⟩

/-- C14 at `nnz = 3` with `csr_val` null and `csr_col_ind` present: invalid-pointer. -/
theorem csr2csc_numeric_pointer_validation_witness :
    rocsparse_csr2csc_impl_checks (some ()) 2 3 3 (none : Option (List Nat)) (some [0, 2, 3])
      (some [2, 0, 1]) (some [0, 0, 0]) (some [0, 0, 0]) (some [0, 0, 0, 0])
      (some .numeric) (some .zero) = some .invalid_pointer :=
  (csr2csc_numeric_pointer_validation 4 (fun _ => 2) ⟨false, false, [], []⟩ () 2 3 3
    (none : Option (List Nat)) (some [0, 2, 3]) (some [2, 0, 1]) .zero
    ⟨some [0, 0, 0], some [0, 0, 0], some [0, 0, 0, 0], some ⟨[], [], []⟩⟩
    (by decide) (by decide) (by decide) (by decide)).1.mpr (Or.inl (by decide))

/-- C15. Symbolic-mode pointer validation. Given a valid handle, valid enumerations and
non-negative sizes, the argument checks of `rocsparse_csr2csc_impl` in symbolic mode
return invalid-pointer if and only if (`m > 0` and `csr_row_ptr` is null) or (`n > 0` and
`csc_col_ptr` is null) or (`nnz != 0` and (`csr_col_ind` is null or `csc_row_ind` is
null)). Replacing the value pointers `csr_val` and `csc_val` by any others changes neither
the result of the checks nor the status of the call. -/
theorem csr2csc_symbolic_pointer_validation {α : Type} (sizeof_J : Nat) (rocsparse_clz : Nat → Nat)
    (o : SortOutcome) (u : Unit) (m n nnz : Int)
    (csr_val : Option (List α)) (csr_row_ptr csr_col_ind : Option (List Nat))
    (base : rocsparse_index_base) (p : DevicePointers α)
    (hm : 0 ≤ m) (hn : 0 ≤ n) (hnnz : 0 ≤ nnz) :
    (rocsparse_csr2csc_impl_checks (some u) m n nnz csr_val csr_row_ptr csr_col_ind
        p.csc_val p.csc_row_ind p.csc_col_ptr (some .symbolic) (some base)
        = some .invalid_pointer ↔
      ((m > 0 ∧ csr_row_ptr.isNone) ∨ (n > 0 ∧ p.csc_col_ptr.isNone) ∨
        (nnz ≠ 0 ∧ (csr_col_ind.isNone ∨ p.csc_row_ind.isNone)))) ∧
    (∀ (csr_val2 csc_val2 : Option (List α)),
      rocsparse_csr2csc_impl_checks (some u) m n nnz csr_val2 csr_row_ptr csr_col_ind
        csc_val2 p.csc_row_ind p.csc_col_ptr (some .symbolic) (some base)
      = rocsparse_csr2csc_impl_checks (some u) m n nnz csr_val csr_row_ptr csr_col_ind
        p.csc_val p.csc_row_ind p.csc_col_ptr (some .symbolic) (some base)) ∧
    (∀ (csr_val2 csc_val2 : Option (List α)),
      (rocsparse_csr2csc_impl sizeof_J rocsparse_clz o (some u) m n nnz csr_val2 csr_row_ptr
        csr_col_ind (some .symbolic) (some base)
        ⟨csc_val2, p.csc_row_ind, p.csc_col_ptr, p.temp_buffer⟩).1
      = (rocsparse_csr2csc_impl sizeof_J rocsparse_clz o (some u) m n nnz csr_val csr_row_ptr
        csr_col_ind (some .symbolic) (some base) p).1) := by
  have hstage : ∀ (cv ov : Option (List α)),
      rocsparse_csr2csc_impl_checks (some u) m n nnz cv csr_row_ptr csr_col_ind
        ov p.csc_row_ind p.csc_col_ptr (some .symbolic) (some base)
      = if (m > 0 ∧ csr_row_ptr.isNone) ∨ (n > 0 ∧ p.csc_col_ptr.isNone) then
          some rocsparse_status.invalid_pointer
        else if nnz ≠ 0 ∧ (csr_col_ind.isNone ∨ p.csc_row_ind.isNone) then
          some rocsparse_status.invalid_pointer
        else none := by
    intro cv ov
    rw [checks_pointer_stage u m n nnz cv csr_row_ptr csr_col_ind ov p.csc_row_ind
      p.csc_col_ptr .symbolic base hm hn hnnz]
    simp only [Option.some.injEq, reduceCtorEq, if_false]
  have hB : ∀ (csr_val2 csc_val2 : Option (List α)),
      rocsparse_csr2csc_impl_checks (some u) m n nnz csr_val2 csr_row_ptr csr_col_ind
        csc_val2 p.csc_row_ind p.csc_col_ptr (some .symbolic) (some base)
      = rocsparse_csr2csc_impl_checks (some u) m n nnz csr_val csr_row_ptr csr_col_ind
        p.csc_val p.csc_row_ind p.csc_col_ptr (some .symbolic) (some base) := by
    intro cv ov
    rw [hstage cv ov, hstage csr_val p.csc_val]
  refine ⟨?_, hB, ?_⟩
  · rw [hstage]
    split_ifs with h1 h2
    · exact ⟨fun _ => by tauto, fun _ => rfl⟩
    · exact ⟨fun _ => by tauto, fun _ => rfl⟩
    · constructor <;> intro h <;> tauto
  · intro cv ov
    have hb := hB cv ov
    cases hc : rocsparse_csr2csc_impl_checks (some u) m n nnz csr_val csr_row_ptr csr_col_ind
        p.csc_val p.csc_row_ind p.csc_col_ptr (some .symbolic) (some base) with
    | none =>
      rw [hc] at hb
      rw [impl_status_of_checks_none sizeof_J rocsparse_clz o (some u) m n nnz csr_val csr_row_ptr
          csr_col_ind (some .symbolic) (some base) p hc,
        impl_status_of_checks_none sizeof_J rocsparse_clz o (some u) m n nnz cv csr_row_ptr
          csr_col_ind (some .symbolic) (some base)
          ⟨ov, p.csc_row_ind, p.csc_col_ptr, p.temp_buffer⟩ hb]
    | some e =>
      rw [hc] at hb
      rw [impl_of_checks_some sizeof_J rocsparse_clz o (some u) m n nnz csr_val csr_row_ptr
          csr_col_ind (some .symbolic) (some base) p e hc,
        impl_of_checks_some sizeof_J rocsparse_clz o (some u) m n nnz cv csr_row_ptr
          csr_col_ind (some .symbolic) (some base)
          ⟨ov, p.csc_row_ind, p.csc_col_ptr, p.temp_buffer⟩ e hb]

/-- C15 at `nnz = 3` with `csc_row_ind` null (and both value pointers null). -/
theorem csr2csc_symbolic_pointer_validation_witness :
    rocsparse_csr2csc_impl_checks (some ()) 2 3 3 (none : Option (List Nat)) (some [0, 2, 3])
      (some [2, 0, 1]) none none (some [0, 0, 0, 0])
      (some .symbolic) (some .zero) = some .invalid_pointer :=
  (csr2csc_symbolic_pointer_validation 4 (fun _ => 2) ⟨false, false, [], []⟩ () 2 3 3
    (none : Option (List Nat)) (some [0, 2, 3]) (some [2, 0, 1]) .zero
    ⟨none, none, some [0, 0, 0, 0], some ⟨[], [], []⟩⟩
    (by decide) (by decide) (by decide)).1.mpr (Or.inr (Or.inr (by decide)))

/-- C18. Validation is atomic: when `rocsparse_csr2csc_impl` returns invalid-handle,
invalid-value, invalid-size or invalid-pointer (the rejection of a null scratch pointer
included), `csc_col_ptr`, `csc_row_ind`, `csc_val` and the scratch buffer are exactly as
they were before the call. -/
theorem csr2csc_impl_error_writes_nothing {α : Type} (sizeof_J : Nat) (rocsparse_clz : Nat → Nat)
    (o : SortOutcome) (handle : rocsparse_handle) (m n nnz : Int)
    (csr_val : Option (List α)) (csr_row_ptr csr_col_ind : Option (List Nat))
    (copy_values : Option rocsparse_action) (idx_base : Option rocsparse_index_base)
    (p : DevicePointers α)
    (herr :
      (rocsparse_csr2csc_impl sizeof_J rocsparse_clz o handle m n nnz csr_val csr_row_ptr
          csr_col_ind
        copy_values idx_base p).1 = .invalid_handle ∨
      (rocsparse_csr2csc_impl sizeof_J rocsparse_clz o handle m n nnz csr_val csr_row_ptr
          csr_col_ind
        copy_values idx_base p).1 = .invalid_value ∨
      (rocsparse_csr2csc_impl sizeof_J rocsparse_clz o handle m n nnz csr_val csr_row_ptr
          csr_col_ind
        copy_values idx_base p).1 = .invalid_size ∨
      (rocsparse_csr2csc_impl sizeof_J rocsparse_clz o handle m n nnz csr_val csr_row_ptr
          csr_col_ind
        copy_values idx_base p).1 = .invalid_pointer) :
    (rocsparse_csr2csc_impl sizeof_J rocsparse_clz o handle m n nnz csr_val csr_row_ptr csr_col_ind
      copy_values idx_base p).2 = p := by
  cases hc : rocsparse_csr2csc_impl_checks handle m n nnz csr_val csr_row_ptr csr_col_ind
      p.csc_val p.csc_row_ind p.csc_col_ptr copy_values idx_base with
  | some e =>
    rw [impl_of_checks_some sizeof_J rocsparse_clz o handle m n nnz csr_val csr_row_ptr csr_col_ind
      copy_values idx_base p e hc]
  | none =>
    obtain ⟨_, ⟨act, rfl⟩, ⟨base, rfl⟩, _, _, _⟩ :=
      checks_none_valid _ _ _ _ _ _ _ _ _ _ _ _ hc
    rw [impl_of_checks_none sizeof_J rocsparse_clz o handle m n nnz csr_val csr_row_ptr csr_col_ind
      act base p hc] at herr ⊢
    simp only at herr ⊢
    have hne : (rocsparse_csr2csc_template sizeof_J rocsparse_clz o m.toNat n.toNat nnz.toNat
        (csr_val.getD []) (csr_row_ptr.getD []) (csr_col_ind.getD []) act base p.deref).1
        ≠ .success := by
      intro hs
      rw [hs] at herr
      rcases herr with h | h | h | h <;> exact rocsparse_status.noConfusion h
    rw [template_unchanged_of_not_success sizeof_J _ _ _ _ _ _ _ _ _ _ _ hne]
    exact store_deref p

/-- C18 at the 2 x 3 example with a null scratch pointer: the call is rejected and the
output arrays keep their contents. -/
theorem csr2csc_impl_error_writes_nothing_witness :
    (rocsparse_csr2csc_impl 4 (fun _ => 2) ⟨false, false, [], []⟩ (some ()) 2 3 3
      (some [5, 7, 9]) (some [0, 2, 3]) (some [2, 0, 1]) (some .numeric) (some .zero)
      ⟨some [4, 4, 4], some [6, 6, 6], some [8, 8, 8, 8], none⟩).2
      = ⟨some [4, 4, 4], some [6, 6, 6], some [8, 8, 8, 8], none⟩ :=
  csr2csc_impl_error_writes_nothing 4 (fun _ => 2) ⟨false, false, [], []⟩ (some ()) 2 3 3
    (some [5, 7, 9]) (some [0, 2, 3]) (some [2, 0, 1]) (some .numeric) (some .zero)
    ⟨some [4, 4, 4], some [6, 6, 6], some [8, 8, 8, 8], none⟩
    (Or.inr (Or.inr (Or.inr (by decide))))

/-! ## The rounding expression -/

theorem align256_eq_of_pos_le (x : Nat) (h0 : 0 < x) (hx : x ≤ 2 ^ 64 - 256) :
    align256 x = ((x - 1) / 256 + 1) * 256 := by
  unfold align256
  simp only [SIZE_BITS]
  have h1 : (x + 2 ^ 64 - 1) % 2 ^ 64 = x - 1 := by
    have : x + 2 ^ 64 - 1 = (x - 1) + 2 ^ 64 := by omega
    rw [this, Nat.add_mod_right, Nat.mod_eq_of_lt (by omega)]
  rw [h1, Nat.mod_eq_of_lt]
  have h2 : (x - 1) / 256 ≤ (2 ^ 64 - 257) / 256 := Nat.div_le_div_right (by omega)
  norm_num at h2 ⊢
  omega

theorem align256_le_bounds (x : Nat) (hx : x ≤ 2 ^ 64 - 256) :
    x ≤ align256 x ∧ align256 x ≤ x + 255 := by
  rcases Nat.eq_zero_or_pos x with h | h
  · subst h
    exact ⟨Nat.zero_le _, by decide⟩
  · rw [align256_eq_of_pos_le x h hx]
    omega

theorem align256_mono_le (x y : Nat) (hxy : x ≤ y) (hy : y ≤ 2 ^ 64 - 256) :
    align256 x ≤ align256 y := by
  rcases Nat.eq_zero_or_pos x with h | h
  · subst h
    have h0 : align256 0 = 0 := by decide
    rw [h0]
    exact Nat.zero_le _
  · rw [align256_eq_of_pos_le x h (by omega), align256_eq_of_pos_le y (by omega) hy]
    have h2 : (x - 1) / 256 ≤ (y - 1) / 256 := Nat.div_le_div_right (by omega)
    omega

/-- C19. The rounding expression `((x - 1) / 256 + 1) * 256` in unsigned 64-bit
arithmetic: for every `x ≤ 2^64 - 256` the result is a multiple of 256, is not less than
`x`, and is the least such multiple; at `x = 0`, where `x - 1` wraps around to `2^64 - 1`,
the result is 0. -/
theorem align256_least_multiple (x : Nat) (hx : x ≤ 2 ^ 64 - 256) :
    256 ∣ align256 x ∧ x ≤ align256 x ∧ (∀ y, 256 ∣ y → x ≤ y → align256 x ≤ y) ∧
    (x = 0 → (x + 2 ^ SIZE_BITS - 1) % 2 ^ SIZE_BITS = 2 ^ 64 - 1 ∧ align256 x = 0) := by
  rcases Nat.eq_zero_or_pos x with h | h
  · subst h
    have h0 : align256 0 = 0 := by decide
    rw [h0]
    exact ⟨Nat.dvd_zero _, Nat.le_refl _, fun y _ _ => Nat.zero_le y,
      fun _ => ⟨by decide, rfl⟩⟩
  · rw [align256_eq_of_pos_le x h hx]
    refine ⟨Nat.dvd_mul_left _ _, by omega, ?_, fun h0 => by omega⟩
    intro y hy hxy
    obtain ⟨k, rfl⟩ := hy
    omega

/-- C19 at `x = 1000`: the result is 1024, the least multiple of 256 from 1000 on. -/
theorem align256_least_multiple_witness :
    align256 1000 = 1024 ∧ 256 ∣ align256 1000 ∧ 1000 ≤ align256 1000 ∧
      (∀ y, 256 ∣ y → 1000 ≤ y → align256 1000 ≤ y) :=
  ⟨by decide, (align256_least_multiple 1000 (by decide)).1,
    (align256_least_multiple 1000 (by decide)).2.1,
    (align256_least_multiple 1000 (by decide)).2.2.1⟩

/-! ## Monotonicity of the scratch size -/

theorem add3_mod (a b c : Nat) (h : a + b + c + c < 2 ^ 64) :
    (((a + b) % 2 ^ 64 + c) % 2 ^ 64 + c) % 2 ^ 64 = a + b + c + c := by
  rw [Nat.mod_eq_of_lt (show a + b < 2 ^ 64 by omega),
    Nat.mod_eq_of_lt (show a + b + c < 2 ^ 64 by omega), Nat.mod_eq_of_lt h]

/-- The size returned for `nnz > 0` when nothing wraps around. -/
theorem buffer_size_template_no_wrap (query : SortStorageQuery)
    (sizeof_I sizeof_J m n nnz : Nat) (copy_values : rocsparse_action) (buffer_size S : Nat)
    (hm : 0 < m) (hn : 0 < n) (hnnz : 0 < nnz) (hq : query sizeof_J sizeof_J nnz 0 32 = .ok S)
    (hfit : S + (sizeof_J + 2 * max sizeof_I sizeof_J) * nnz + 1020 < 2 ^ 64) :
    (rocsparse_csr2csc_buffer_size_template query sizeof_I sizeof_J m n nnz copy_values
        buffer_size).2
      = align256 S + align256 (sizeof_J * nnz)
        + align256 (max sizeof_I sizeof_J * nnz) + align256 (max sizeof_I sizeof_J * nnz) := by
  have hexp : (sizeof_J + 2 * max sizeof_I sizeof_J) * nnz
      = sizeof_J * nnz + 2 * (max sizeof_I sizeof_J * nnz) := by ring
  rw [hexp] at hfit
  rw [buffer_size_template_eq query sizeof_I sizeof_J m n nnz copy_values buffer_size S
    hm hn hnnz hq]
  simp only [bytes_of, SIZE_BITS]
  generalize sizeof_J * nnz = x at hfit ⊢
  generalize max sizeof_I sizeof_J * nnz = y at hfit ⊢
  rw [Nat.mod_eq_of_lt (show S < 2 ^ 64 by omega), Nat.mod_eq_of_lt (show x < 2 ^ 64 by omega),
    Nat.mod_eq_of_lt (show y < 2 ^ 64 by omega)]
  have hs := align256_le_bounds S (by omega)
  have hx := align256_le_bounds x (by omega)
  have hy := align256_le_bounds y (by omega)
  exact add3_mod _ _ _ (by omega)

/-- C11, as the code has it. For fixed `m`, `n` and widths, and a sort primitive whose
reported scratch size `S` is non-decreasing in the element count: if `nnz1 ≤ nnz2` and
the sizes for `nnz2` do not wrap around in `size_t`
(`S(nnz2) + (wJ + 2 * max(wI, wJ)) * nnz2 + 1020 < 2^64`), the size returned for `nnz1`
is at most the size returned for `nnz2`; this includes `nnz1 = 0`, where the result
is 0. -/
theorem csr2csc_buffer_size_monotone (query : SortStorageQuery)
    (sizeof_I sizeof_J m n nnz1 nnz2 : Nat) (copy_values : rocsparse_action)
    (buffer_size1 buffer_size2 : Nat) (S : Nat → Nat)
    (hq : ∀ k, 0 < k → query sizeof_J sizeof_J k 0 32 = .ok (S k))
    (hS : ∀ a b, a ≤ b → S a ≤ S b)
    (h12 : nnz1 ≤ nnz2)
    (hfit : S nnz2 + (sizeof_J + 2 * max sizeof_I sizeof_J) * nnz2 + 1020 < 2 ^ 64) :
    (rocsparse_csr2csc_buffer_size_template query sizeof_I sizeof_J m n nnz1 copy_values
        buffer_size1).2
      ≤ (rocsparse_csr2csc_buffer_size_template query sizeof_I sizeof_J m n nnz2 copy_values
        buffer_size2).2 := by
  by_cases h0 : m = 0 ∨ n = 0 ∨ nnz1 = 0
  · have e : rocsparse_csr2csc_buffer_size_template query sizeof_I sizeof_J m n nnz1
        copy_values buffer_size1 = (.success, 0) := by
      unfold rocsparse_csr2csc_buffer_size_template
      rw [if_pos h0]
    rw [e]
    exact Nat.zero_le _
  · have hm : 0 < m := by omega
    have hn : 0 < n := by omega
    have h1 : 0 < nnz1 := by omega
    have h2 : 0 < nnz2 := by omega
    have hSle := hS nnz1 nnz2 h12
    have hx : sizeof_J * nnz1 ≤ sizeof_J * nnz2 := Nat.mul_le_mul_left _ h12
    have hy : max sizeof_I sizeof_J * nnz1 ≤ max sizeof_I sizeof_J * nnz2 :=
      Nat.mul_le_mul_left _ h12
    have hexp : ∀ k, (sizeof_J + 2 * max sizeof_I sizeof_J) * k
        = sizeof_J * k + 2 * (max sizeof_I sizeof_J * k) := by intro k; ring
    have hfit1 : S nnz1 + (sizeof_J + 2 * max sizeof_I sizeof_J) * nnz1 + 1020 < 2 ^ 64 := by
      rw [hexp] at hfit ⊢
      omega
    rw [buffer_size_template_no_wrap query sizeof_I sizeof_J m n nnz1 copy_values buffer_size1
        (S nnz1) hm hn h1 (hq nnz1 h1) hfit1,
      buffer_size_template_no_wrap query sizeof_I sizeof_J m n nnz2 copy_values buffer_size2
        (S nnz2) hm hn h2 (hq nnz2 h2) hfit]
    rw [hexp] at hfit
    have a1 := align256_mono_le (S nnz1) (S nnz2) hSle (by omega)
    have a2 := align256_mono_le _ _ hx (by omega)
    have a3 := align256_mono_le _ _ hy (by omega)
    omega

/-- C11 as amended, from `nnz = 3` to `nnz = 64` with `(wI, wJ) = (8, 4)` and a sort
primitive that needs as many bytes as there are elements. -/
theorem csr2csc_buffer_size_monotone_witness :
    (rocsparse_csr2csc_buffer_size_template (fun _ _ cnt _ _ => .ok cnt) 8 4 1 1 3 .numeric
        0).2
      ≤ (rocsparse_csr2csc_buffer_size_template (fun _ _ cnt _ _ => .ok cnt) 8 4 1 1 64
        .numeric 0).2 :=
  csr2csc_buffer_size_monotone (fun _ _ cnt _ _ => .ok cnt) 8 4 1 1 3 64 .numeric 0 0
    (fun k => k) (fun _ _ => rfl) (fun _ _ h => h) (by decide) (by decide)

/-- C11 as stated fails where `size_t` wraps around: with `(wI, wJ) = (8, 8)` and a sort
primitive that always reports 1000 bytes (non-decreasing), `nnz = 1` gives
`1024 + 3 * 256 = 1792` while `nnz = 2^61` gives `1024`, because `8 * 2^61` is `0` in
`size_t`. -/
theorem csr2csc_buffer_size_monotone_counterexample :
    instantiated_widths 8 8 ∧ 1 ≤ 2 ^ 61 ∧
    rocsparse_csr2csc_buffer_size_template (fun _ _ _ _ _ => .ok 1000) 8 8 1 1 1 .numeric 0
      = (.success, 1792) ∧
    rocsparse_csr2csc_buffer_size_template (fun _ _ _ _ _ => .ok 1000) 8 8 1 1 (2 ^ 61)
      .numeric 0 = (.success, 1024) ∧
    ¬ ((rocsparse_csr2csc_buffer_size_template (fun _ _ _ _ _ => .ok 1000) 8 8 1 1 1 .numeric
          0).2
        ≤ (rocsparse_csr2csc_buffer_size_template (fun _ _ _ _ _ => .ok 1000) 8 8 1 1 (2 ^ 61)
          .numeric 0).2) := by
  decide

/-! ## The bit range of the size query -/

/-- C20, as the code has it. The scratch-size estimator consults the sort primitive's
size query at the fixed bit range `[0, 32)` and nowhere else: two primitives that agree
on that bit range give the same result, the result does not depend on `n > 0`, and for
`m, n, nnz > 0` the call succeeds exactly when the query for `nnz` keys and values of the
column-index width on `[0, 32)` succeeds. -/
theorem csr2csc_buffer_size_query_bit_range (query1 query2 : SortStorageQuery)
    (sizeof_I sizeof_J m n n2 nnz : Nat) (copy_values : rocsparse_action) (buffer_size : Nat)
    (hm : 0 < m) (hn : 0 < n) (hn2 : 0 < n2) (hnnz : 0 < nnz)
    (hagree : ∀ kw vw cnt, query1 kw vw cnt 0 32 = query2 kw vw cnt 0 32) :
    rocsparse_csr2csc_buffer_size_template query1 sizeof_I sizeof_J m n nnz copy_values
        buffer_size
      = rocsparse_csr2csc_buffer_size_template query2 sizeof_I sizeof_J m n nnz copy_values
        buffer_size ∧
    rocsparse_csr2csc_buffer_size_template query1 sizeof_I sizeof_J m n nnz copy_values
        buffer_size
      = rocsparse_csr2csc_buffer_size_template query1 sizeof_I sizeof_J m n2 nnz copy_values
        buffer_size ∧
    (∀ S, query1 sizeof_J sizeof_J nnz 0 32 = .ok S →
      (rocsparse_csr2csc_buffer_size_template query1 sizeof_I sizeof_J m n nnz copy_values
        buffer_size).1 = .success) ∧
    (∀ e, query1 sizeof_J sizeof_J nnz 0 32 = .error e →
      rocsparse_csr2csc_buffer_size_template query1 sizeof_I sizeof_J m n nnz copy_values
        buffer_size = (e, buffer_size)) := by
  unfold rocsparse_csr2csc_buffer_size_template rocsparse_csr2csc_buffer_size_core
  rw [if_neg (by omega), if_neg (by omega), if_neg (by omega), ← hagree]
  refine ⟨rfl, rfl, ?_, ?_⟩
  · intro S hS
    rw [hS]
  · intro e he
    rw [he]

/-- C20 as amended, at a 4 x 4 matrix with 5 non-zeros: a primitive that answers only on
the bit range `[0, 32)` and one that answers on every bit range give the same size. -/
theorem csr2csc_buffer_size_query_bit_range_witness :
    rocsparse_csr2csc_buffer_size_template
        (fun _ _ cnt sb eb => if sb = 0 ∧ eb = 32 then .ok cnt else .error .internal_error)
        4 4 4 4 5 .numeric 0
      = rocsparse_csr2csc_buffer_size_template (fun _ _ cnt _ _ => .ok cnt) 4 4 4 4 5
        .numeric 0 :=
  (csr2csc_buffer_size_query_bit_range
    (fun _ _ cnt sb eb => if sb = 0 ∧ eb = 32 then .ok cnt else .error .internal_error)
    (fun _ _ cnt _ _ => .ok cnt) 4 4 4 4 4 5 .numeric 0 (by decide) (by decide) (by decide)
    (by decide) (fun _ _ _ => rfl)).1

/-- C20 as stated fails at `n = 4`, where `ceil(log2 n) = 2`: against a sort primitive
whose size query answers only on the bit range `[0, 32)` and fails on every other one (in
particular on `[0, 2)`), the estimator succeeds, so the range it passed is `[0, 32)` and
not `[0, ceil(log2 n))`. -/
theorem csr2csc_buffer_size_query_bit_range_counterexample :
    Nat.clog 2 4 = 2 ∧
    (fun (_ _ _ sb eb : Nat) =>
        if sb = 0 ∧ eb = 32 then (Except.ok 0 : Except rocsparse_status Nat)
        else .error .internal_error) 4 4 5 0 (Nat.clog 2 4) = .error .internal_error ∧
    rocsparse_csr2csc_buffer_size_template
        (fun _ _ _ sb eb => if sb = 0 ∧ eb = 32 then .ok 0 else .error .internal_error)
        4 4 4 4 5 .numeric 0 = (.success, 768) := by
  have h : Nat.clog 2 4 = 2 := Nat.clog_pow 2 2 (by norm_num)
  refine ⟨h, ?_, by decide⟩
  rw [h]
  rfl

/-! ## Well-formed output offsets -/

theorem lower_bound_eq_zero (l : List Nat) (x : Nat) (h : ∀ k ∈ l, x ≤ k) :
    lower_bound l x = 0 := by
  unfold lower_bound
  cases l with
  | nil => rfl
  | cons a t =>
    have ha := h a (List.mem_cons_self a t)
    rw [List.takeWhile_cons, if_neg (by simpa using ha)]
    rfl

theorem lower_bound_eq_length (l : List Nat) (x : Nat) (h : ∀ k ∈ l, k < x) :
    lower_bound l x = l.length := by
  unfold lower_bound
  rw [List.takeWhile_eq_self_iff.mpr (fun k hk => by simpa using h k hk)]

theorem lower_bound_mono (l : List Nat) (x y : Nat) (hxy : x ≤ y) :
    lower_bound l x ≤ lower_bound l y := by
  unfold lower_bound
  induction l with
  | nil => exact Nat.le_refl _
  | cons a t ih =>
    rw [List.takeWhile_cons, List.takeWhile_cons]
    by_cases ha : a < x
    · rw [if_pos (by simpa using ha), if_pos (by simpa using (show a < y by omega))]
      exact Nat.succ_le_succ ih
    · rw [if_neg (by simpa using ha)]
      exact Nat.zero_le _

/-- The offsets written by a successful transform with `nnz > 0`, for any end bit of the
sort: entry `i` is the base plus the position of the first key not below `i + base` in
the key sequence the sort leaves. -/
theorem template_col_ptr_raw {α : Type} (sizeof_J : Nat) (rocsparse_clz : Nat → Nat)
    (o : SortOutcome) (m n nnz : Nat) (csr_val : List α) (csr_row_ptr csr_col_ind : List Nat)
    (copy_values : rocsparse_action)
    (idx_base : rocsparse_index_base) (st : DeviceState α) (s : Scratch)
    (hm : 0 < m) (hn : 0 < n) (hnnz : 0 < nnz)
    (hv : valid_csr m n nnz idx_base csr_row_ptr csr_col_ind)
    (hbuf : st.temp_buffer = some s)
    (hrow : nnz ≤ st.csc_row_ind.length)
    (hnum : copy_values = .numeric → csr_val.length = nnz ∧ nnz ≤ st.csc_val.length) :
    (rocsparse_csr2csc_template sizeof_J rocsparse_clz o m n nnz csr_val csr_row_ptr
        csr_col_ind copy_values idx_base st).2.csc_col_ptr
      = copy_into st.csc_col_ptr ((List.range (n + 1)).map fun i =>
          lower_bound ((radix_sort 0 (rocsparse_clz n)
            (csr_col_ind.zip (List.range nnz))).map Prod.fst) (i + idx_base.val)
            + idx_base.val) := by
  rw [template_eq_core sizeof_J rocsparse_clz o m n nnz csr_val csr_row_ptr csr_col_ind
    copy_values idx_base st s hm hn hnnz hbuf]
  simp only
  cases copy_values with
  | symbolic =>
    exact (core_symbolic_spec rocsparse_clz o m n nnz csr_val csr_row_ptr
      csr_col_ind idx_base
      ⟨st.csc_val, st.csc_row_ind, st.csc_col_ptr, s.tmp_work1, s.tmp_work2, s.tmp_perm⟩
      hv).2.1
  | numeric =>
    exact (core_numeric_spec rocsparse_clz o m n nnz csr_val csr_row_ptr
      csr_col_ind idx_base
      ⟨st.csc_val, st.csc_row_ind, st.csc_col_ptr, s.tmp_work1, s.tmp_work2, s.tmp_perm⟩
      hnnz hv (hnum rfl).1 hrow (hnum rfl).2).2.1

/-- C16, as the code has it. For a valid CSR input with `m, n > 0` (any `nnz`, either
mode, any end bit of the sort), output arrays of the documented sizes and, when
`nnz = 0`, `n + 1` representable in the dimension type `J`
(`n + 1 < 2^(8 * sizeof(J) - 1)`), a successful transform leaves a well-formed offset
array in `csc_col_ptr`: it has at least `n + 1` entries, `csc_col_ptr[0] = idx_base`,
`csc_col_ptr[j] ≤ csc_col_ptr[j + 1]` for all `j < n`, and
`csc_col_ptr[n] - idx_base = nnz`. -/
theorem csr2csc_offsets_well_formed {α : Type} (sizeof_J : Nat) (rocsparse_clz : Nat → Nat)
    (o : SortOutcome) (m n nnz : Nat) (csr_val : List α) (csr_row_ptr csr_col_ind : List Nat)
    (copy_values : rocsparse_action)
    (idx_base : rocsparse_index_base) (st : DeviceState α)
    (hm : 0 < m) (hn : 0 < n)
    (hv : valid_csr m n nnz idx_base csr_row_ptr csr_col_ind)
    (hcol : n + 1 ≤ st.csc_col_ptr.length)
    (hrow : nnz ≤ st.csc_row_ind.length)
    (hnum : copy_values = .numeric → csr_val.length = nnz ∧ nnz ≤ st.csc_val.length)
    (hJ : nnz = 0 → n + 1 < 2 ^ (8 * sizeof_J - 1))
    (hok : (rocsparse_csr2csc_template sizeof_J rocsparse_clz o m n nnz csr_val csr_row_ptr
      csr_col_ind copy_values idx_base st).1 = .success) :
    n + 1 ≤ (rocsparse_csr2csc_template sizeof_J rocsparse_clz o m n nnz csr_val csr_row_ptr
      csr_col_ind copy_values idx_base st).2.csc_col_ptr.length ∧
    (rocsparse_csr2csc_template sizeof_J rocsparse_clz o m n nnz csr_val csr_row_ptr
      csr_col_ind copy_values idx_base st).2.csc_col_ptr[0]? = some idx_base.val ∧
    (∀ j, j < n →
      (rocsparse_csr2csc_template sizeof_J rocsparse_clz o m n nnz csr_val csr_row_ptr
        csr_col_ind copy_values idx_base st).2.csc_col_ptr.getD j 0
      ≤ (rocsparse_csr2csc_template sizeof_J rocsparse_clz o m n nnz csr_val csr_row_ptr
        csr_col_ind copy_values idx_base st).2.csc_col_ptr.getD (j + 1) 0) ∧
    (rocsparse_csr2csc_template sizeof_J rocsparse_clz o m n nnz csr_val csr_row_ptr
      csr_col_ind copy_values idx_base st).2.csc_col_ptr.getD n 0 - idx_base.val = nnz := by
  rcases Nat.eq_zero_or_pos nnz with h0 | hpos
  · subst h0
    rw [template_nnz_zero sizeof_J rocsparse_clz o m n csr_val csr_row_ptr csr_col_ind
      copy_values idx_base st hm hn, template_fill_size sizeof_J n (hJ rfl),
      set_array_to_value_launch_eq n idx_base.val st.csc_col_ptr hcol]
    have hget : ∀ j, j ≤ n →
        (List.replicate (n + 1) idx_base.val ++ st.csc_col_ptr.drop (n + 1))[j]?
          = some idx_base.val := by
      intro j hj
      rw [List.getElem?_append, List.length_replicate, if_pos (by omega),
        List.getElem?_replicate, if_pos (by omega)]
    have hgetD : ∀ j, j ≤ n →
        (List.replicate (n + 1) idx_base.val ++ st.csc_col_ptr.drop (n + 1)).getD j 0
          = idx_base.val := by
      intro j hj
      rw [List.getD_eq_getElem?_getD, hget j hj]
      rfl
    refine ⟨?_, hget 0 (Nat.zero_le _), ?_, ?_⟩
    · show n + 1 ≤ (List.replicate (n + 1) idx_base.val
        ++ st.csc_col_ptr.drop (n + 1)).length
      rw [List.length_append, List.length_replicate]
      omega
    · intro j hj
      show (List.replicate (n + 1) idx_base.val ++ st.csc_col_ptr.drop (n + 1)).getD j 0
        ≤ (List.replicate (n + 1) idx_base.val ++ st.csc_col_ptr.drop (n + 1)).getD (j + 1) 0
      rw [hgetD j (by omega), hgetD (j + 1) (by omega)]
    · show (List.replicate (n + 1) idx_base.val ++ st.csc_col_ptr.drop (n + 1)).getD n 0
        - idx_base.val = 0
      rw [hgetD n (Nat.le_refl _)]
      omega
  · have hst := template_status sizeof_J rocsparse_clz o m n nnz csr_val csr_row_ptr
      csr_col_ind copy_values idx_base st
    rw [hok, if_neg (by omega)] at hst
    cases hb : st.temp_buffer with
    | none =>
      rw [hb] at hst
      exact absurd hst (by decide)
    | some s =>
      have hcl : csr_col_ind.length = nnz := hv.2.2.2.2.1
      have hperm := sorted_keys_perm (rocsparse_clz n) nnz csr_col_ind hcl
      have hlen : ((radix_sort 0 (rocsparse_clz n)
          (csr_col_ind.zip (List.range nnz))).map Prod.fst).length = nnz := by
        rw [hperm.length_eq, hcl]
      have hrange : ∀ k ∈ (radix_sort 0 (rocsparse_clz n)
          (csr_col_ind.zip (List.range nnz))).map Prod.fst,
          idx_base.val ≤ k ∧ k < idx_base.val + n :=
        fun k hk => hv.2.2.2.2.2 k (hperm.mem_iff.mp hk)
      rw [template_col_ptr_raw sizeof_J rocsparse_clz o m n nnz csr_val csr_row_ptr
        csr_col_ind copy_values idx_base st s hm hn hpos hv hb hrow hnum]
      generalize (radix_sort 0 (rocsparse_clz n)
          (csr_col_ind.zip (List.range nnz))).map Prod.fst = K at hlen hrange
      have hget : ∀ j, j ≤ n →
          (copy_into st.csc_col_ptr ((List.range (n + 1)).map fun i =>
            lower_bound K (i + idx_base.val) + idx_base.val))[j]?
          = some (lower_bound K (j + idx_base.val) + idx_base.val) :=
        fun j hj => getElem?_copy_into_map_range _ _ _ _ (by omega)
      have hgetD : ∀ j, j ≤ n →
          (copy_into st.csc_col_ptr ((List.range (n + 1)).map fun i =>
            lower_bound K (i + idx_base.val) + idx_base.val)).getD j 0
          = lower_bound K (j + idx_base.val) + idx_base.val := by
        intro j hj
        rw [List.getD_eq_getElem?_getD, hget j hj]
        rfl
      refine ⟨?_, ?_, ?_, ?_⟩
      · unfold copy_into
        rw [List.length_append, List.length_map, List.length_range]
        omega
      · rw [hget 0 (Nat.zero_le _), lower_bound_eq_zero K _
          (fun k hk => by have := (hrange k hk).1; omega)]
        simp
      · intro j hj
        rw [hgetD j (by omega), hgetD (j + 1) (by omega)]
        have := lower_bound_mono K (j + idx_base.val) (j + 1 + idx_base.val) (by omega)
        omega
      · rw [hgetD n (Nat.le_refl _), lower_bound_eq_length K _
          (fun k hk => by have := (hrange k hk).2; omega), hlen]
        omega

/-- C16 as amended, for a 3 x 2 matrix with 4 nonzeros in symbolic mode and 32-bit
dimensions: the offsets written are `[0, 1, 4]`. -/
theorem csr2csc_offsets_well_formed_witness :
    (rocsparse_csr2csc_template 4 (fun _ => 1) ⟨true, false, [7], [8]⟩ 3 2 4 ([] : List Nat)
      [0, 2, 3, 4] [1, 0, 1, 1] .symbolic .zero
      ⟨[0, 0, 0, 0], [0, 0, 0, 0], [9, 9, 9], some ⟨[], [], []⟩⟩).2.csc_col_ptr = [0, 1, 4] ∧
    (rocsparse_csr2csc_template 4 (fun _ => 1) ⟨true, false, [7], [8]⟩ 3 2 4 ([] : List Nat)
      [0, 2, 3, 4] [1, 0, 1, 1] .symbolic .zero
      ⟨[0, 0, 0, 0], [0, 0, 0, 0], [9, 9, 9], some ⟨[], [], []⟩⟩).2.csc_col_ptr.getD 2 0
      - rocsparse_index_base.zero.val = 4 :=
  ⟨by decide, (csr2csc_offsets_well_formed 4 (fun _ => 1) ⟨true, false, [7], [8]⟩ 3 2 4
    ([] : List Nat) [0, 2, 3, 4] [1, 0, 1, 1] .symbolic .zero
    ⟨[0, 0, 0, 0], [0, 0, 0, 0], [9, 9, 9], some ⟨[], [], []⟩⟩
    (by decide) (by decide) (by decide) (by decide) (by decide)
    (fun h => rocsparse_action.noConfusion h) (fun h => absurd h (by decide))
    (by decide)).2.2.2⟩

/-- C16 as stated fails at `n = INT32_MAX` with 32-bit dimensions and `nnz = 0` (`m = 1`,
base 1, row offsets `[1, 1]`, a `csc_col_ptr` of `2^31` zeros): the input is a valid CSR
structure and the call succeeds, but the kernel argument `(n + 1)` wraps around in `J`,
nothing is written, and `csc_col_ptr[0]` is 0 and not the base 1. -/
theorem csr2csc_offsets_well_formed_counterexample :
    valid_csr 1 (2 ^ 31 - 1) 0 .one [1, 1] [] ∧
    rocsparse_csr2csc_template 4 (fun _ => 0) ⟨false, false, [], []⟩ 1 (2 ^ 31 - 1) 0
        ([] : List Nat) [1, 1] [] .symbolic .one ⟨[], [], List.replicate (2 ^ 31) 0, none⟩
      = (.success, ⟨[], [], List.replicate (2 ^ 31) 0, none⟩) ∧
    (List.replicate (2 ^ 31) 0)[0]? = some 0 ∧
    (some 0 : Option Nat) ≠ some rocsparse_index_base.one.val := by
  refine ⟨by decide, ?_, ?_, by decide⟩
  · rw [template_nnz_zero 4 (fun _ => 0) ⟨false, false, [], []⟩ 1 (2 ^ 31 - 1) ([] : List Nat)
      [1, 1] [] .symbolic .one ⟨[], [], List.replicate (2 ^ 31) 0, none⟩ (by decide)
      (by decide), template_fill_size_overflow.2, set_array_to_value_launch_zero]
  · rw [List.getElem?_replicate, if_pos (by decide)]

/-- The `n + 1` offsets written by a successful transform, for `nnz = 0` as well as for
`nnz > 0`: entry `j` is the base plus the number of nonzeros in columns below `j`. -/
theorem template_offsets {α : Type} (sizeof_J : Nat) (rocsparse_clz : Nat → Nat)
    (o : SortOutcome) (m n nnz : Nat) (csr_val : List α) (csr_row_ptr csr_col_ind : List Nat)
    (copy_values : rocsparse_action)
    (idx_base : rocsparse_index_base) (st : DeviceState α)
    (hm : 0 < m) (hn : 0 < n)
    (hv : valid_csr m n nnz idx_base csr_row_ptr csr_col_ind)
    (hcol : n + 1 ≤ st.csc_col_ptr.length)
    (hrow : nnz ≤ st.csc_row_ind.length)
    (hnum : copy_values = .numeric → csr_val.length = nnz ∧ nnz ≤ st.csc_val.length)
    (hclz : idx_base.val + n ≤ 2 ^ rocsparse_clz n)
    (hJ : nnz = 0 → n + 1 < 2 ^ (8 * sizeof_J - 1))
    (hok : (rocsparse_csr2csc_template sizeof_J rocsparse_clz o m n nnz csr_val csr_row_ptr
      csr_col_ind copy_values idx_base st).1 = .success) :
    n + 1 ≤ (rocsparse_csr2csc_template sizeof_J rocsparse_clz o m n nnz csr_val csr_row_ptr
      csr_col_ind copy_values idx_base st).2.csc_col_ptr.length ∧
    ∀ j, j ≤ n →
      (rocsparse_csr2csc_template sizeof_J rocsparse_clz o m n nnz csr_val csr_row_ptr
        csr_col_ind copy_values idx_base st).2.csc_col_ptr[j]?
        = some (idx_base.val
            + count_below idx_base (csr_pattern csr_row_ptr csr_col_ind idx_base) j) := by
  rcases Nat.eq_zero_or_pos nnz with h0 | hpos
  · subst h0
    have hnil : csr_col_ind = [] := List.length_eq_zero.mp hv.2.2.2.2.1
    have hout : (rocsparse_csr2csc_template sizeof_J rocsparse_clz o m n 0 csr_val csr_row_ptr
        csr_col_ind copy_values idx_base st).2.csc_col_ptr
        = List.replicate (n + 1) idx_base.val ++ st.csc_col_ptr.drop (n + 1) := by
      rw [template_nnz_zero sizeof_J rocsparse_clz o m n csr_val csr_row_ptr csr_col_ind
        copy_values idx_base st hm hn, template_fill_size sizeof_J n (hJ rfl),
        set_array_to_value_launch_eq n idx_base.val st.csc_col_ptr hcol]
    rw [hout]
    refine ⟨by rw [List.length_append, List.length_replicate]; omega, ?_⟩
    intro j hj
    rw [List.getElem?_append, List.length_replicate, if_pos (by omega),
      List.getElem?_replicate, if_pos (by omega), count_below_csr_pattern, hnil]
    rfl
  · have hst := template_status sizeof_J rocsparse_clz o m n nnz csr_val csr_row_ptr csr_col_ind
      copy_values idx_base st
    rw [hok, if_neg (by omega)] at hst
    cases hb : st.temp_buffer with
    | none =>
      rw [hb] at hst
      exact absurd hst (by decide)
    | some s =>
      obtain ⟨_, h2, _⟩ := template_structure sizeof_J rocsparse_clz o m n nnz csr_val csr_row_ptr
        csr_col_ind copy_values idx_base st s hm hn hpos hv hb hrow hnum hclz
      rw [h2]
      refine ⟨?_, fun j hj => getElem?_copy_into_map_range _ _ _ _ (by omega)⟩
      unfold copy_into
      rw [List.length_append, List.length_map, List.length_range]
      omega

/-! ## Index-base consistency -/

theorem csr_row_of_one_based (ptr : List Nat) (p : Nat) :
    csr_row_of (ptr.map (fun e => e + 1)) .one p = csr_row_of ptr .zero p := by
  unfold csr_row_of
  rw [← List.map_drop, List.filter_map, List.length_map]
  congr 2
  funext e
  simp only [Function.comp, rocsparse_index_base.val]
  apply decide_eq_decide.mpr
  omega

theorem csr_nonzeros_one_based {α : Type} (ptr cols : List Nat) (vals : List α) :
    csr_nonzeros (ptr.map (fun e => e + 1)) (cols.map (fun c => c + 1)) vals .one
      = (csr_nonzeros ptr cols vals .zero).map
          (fun t => (t.1 + 1, t.2.1 + 1, t.2.2)) := by
  unfold csr_nonzeros
  rw [List.length_map]
  have h : (List.range cols.length).map
        (fun p => csr_row_of (ptr.map (fun e => e + 1)) .one p
          + rocsparse_index_base.one.val)
      = ((List.range cols.length).map
          (fun p => csr_row_of ptr .zero p + rocsparse_index_base.zero.val)).map
          (fun r => r + 1) := by
    rw [List.map_map]
    apply List.map_congr_left
    intro p _
    rw [csr_row_of_one_based]
    rfl
  rw [h, List.zip_map_left (fun c => c + 1) cols vals, List.zip_map]
  apply List.map_congr_left
  intro t _
  rfl

theorem csr_pattern_one_based (ptr cols : List Nat) :
    csr_pattern (ptr.map (fun e => e + 1)) (cols.map (fun c => c + 1)) .one
      = (csr_pattern ptr cols .zero).map (fun t => (t.1 + 1, t.2.1 + 1, t.2.2)) := by
  unfold csr_pattern
  rw [List.length_map]
  exact csr_nonzeros_one_based ptr cols _

theorem by_column_one_based {α : Type} (n : Nat) (Y : List (Nat × Nat × α)) :
    by_column n .one (Y.map (fun t => (t.1 + 1, t.2.1 + 1, t.2.2)))
      = (by_column n .zero Y).map (fun t => (t.1 + 1, t.2.1 + 1, t.2.2)) := by
  unfold by_column
  rw [List.map_flatMap]
  congr 1
  funext j
  rw [List.filter_map]
  congr 2
  funext t
  simp only [Function.comp, rocsparse_index_base.val]
  apply decide_eq_decide.mpr
  omega

theorem count_below_one_based {α : Type} (Y : List (Nat × Nat × α)) (j : Nat) :
    count_below .one (Y.map (fun t => (t.1 + 1, t.2.1 + 1, t.2.2))) j
      = count_below .zero Y j := by
  unfold count_below
  rw [List.filter_map, List.length_map]
  congr 2
  funext t
  simp only [Function.comp, rocsparse_index_base.val]
  apply decide_eq_decide.mpr
  omega

theorem valid_csr_one_based (m n nnz : Nat) (ptr cols : List Nat)
    (hv : valid_csr m n nnz .zero ptr cols) :
    valid_csr m n nnz .one (ptr.map (fun e => e + 1)) (cols.map (fun c => c + 1)) := by
  obtain ⟨h1, h2, h3, h4, h5, h6⟩ := hv
  refine ⟨by rw [List.length_map, h1], ?_, ?_, ?_, by rw [List.length_map, h5], ?_⟩
  · rw [List.getElem?_map, h2]
    rfl
  · rw [List.getElem?_map, h3]
    simp only [Option.map_some', rocsparse_index_base.val]
    congr 1
    omega
  · rw [List.pairwise_map]
    exact h4.imp (fun h => by omega)
  · intro c hc
    obtain ⟨c0, hc0, rfl⟩ := List.mem_map.mp hc
    have := h6 c0 hc0
    simp only [rocsparse_index_base.val] at this ⊢
    omega

theorem temp_buffer_of_success {α : Type} (sizeof_J : Nat) (clz : Nat → Nat) (o : SortOutcome) (m n
    nnz : Nat)
    (csr_val : List α) (ptr cols : List Nat) (act : rocsparse_action)
    (idx_base : rocsparse_index_base) (st : DeviceState α)
    (hm : 0 < m) (hn : 0 < n) (hnnz : 0 < nnz)
    (hok : (rocsparse_csr2csc_template sizeof_J clz o m n nnz csr_val ptr cols act idx_base st).1
      = .success) : ∃ s, st.temp_buffer = some s := by
  have hst := template_status sizeof_J clz o m n nnz csr_val ptr cols act idx_base st
  rw [hok, if_neg (by omega)] at hst
  cases hb : st.temp_buffer with
  | none =>
    rw [hb] at hst
    exact absurd hst (by decide)
  | some s => exact ⟨s, rfl⟩

/-- Every row index emitted by a successful transform lies in
`[idx_base, idx_base + m)`. -/
theorem template_rows_range {α : Type} (sizeof_J : Nat) (rocsparse_clz : Nat → Nat)
    (o : SortOutcome) (m n nnz : Nat) (csr_val : List α) (csr_row_ptr csr_col_ind : List Nat)
    (copy_values : rocsparse_action)
    (idx_base : rocsparse_index_base) (st : DeviceState α)
    (hm : 0 < m) (hn : 0 < n)
    (hv : valid_csr m n nnz idx_base csr_row_ptr csr_col_ind)
    (hrow : nnz ≤ st.csc_row_ind.length)
    (hnum : copy_values = .numeric → csr_val.length = nnz ∧ nnz ≤ st.csc_val.length)
    (hclz : idx_base.val + n ≤ 2 ^ rocsparse_clz n)
    (hok : (rocsparse_csr2csc_template sizeof_J rocsparse_clz o m n nnz csr_val csr_row_ptr
      csr_col_ind copy_values idx_base st).1 = .success) :
    ∀ r ∈ (rocsparse_csr2csc_template sizeof_J rocsparse_clz o m n nnz csr_val csr_row_ptr
        csr_col_ind copy_values idx_base st).2.csc_row_ind.take nnz,
      idx_base.val ≤ r ∧ r < idx_base.val + m := by
  rcases Nat.eq_zero_or_pos nnz with h0 | hpos
  · subst h0
    intro r hr
    rw [List.take_zero] at hr
    exact absurd hr (List.not_mem_nil r)
  · obtain ⟨s, hb⟩ := temp_buffer_of_success sizeof_J rocsparse_clz o m n nnz csr_val csr_row_ptr
      csr_col_ind copy_values idx_base st hm hn hpos hok
    obtain ⟨_, _, h3⟩ := template_structure sizeof_J rocsparse_clz o m n nnz csr_val csr_row_ptr
      csr_col_ind copy_values idx_base st s hm hn hpos hv hb hrow hnum hclz
    rw [h3]
    intro r hr
    obtain ⟨t, ht, rfl⟩ := List.mem_map.mp hr
    have hcr : ∀ t ∈ csr_pattern csr_row_ptr csr_col_ind idx_base,
        idx_base.val ≤ t.2.1 ∧ t.2.1 < idx_base.val + n :=
      fun t ht => hv.2.2.2.2.2 _ (csr_pattern_col_mem _ _ _ t ht)
    have hperm := by_column_perm n idx_base _ hcr
    exact csr_nonzeros_row_range m n nnz csr_row_ptr csr_col_ind _ idx_base hv t
      (hperm.mem_iff.mp ht)

/-- When the end bit covers the 1-based keys: for a valid matrix with `m, n > 0`, output arrays of
the
documented sizes and a sort key width that covers the 1-based column keys: when the
transform succeeds on the 0-based encoding (with `idx_base = 0`) and on the 1-based
encoding (row offsets and column indices each one more, `idx_base = 1`), every one of the
`n + 1` column offsets and every one of the `nnz` row indices of the 1-based run is one
more than the corresponding entry of the 0-based run, in numeric mode the `nnz` values
are identical, and every emitted row index lies in `[idx_base, idx_base + m)`. -/
theorem index_base_consistent_of_cover {α : Type} (sizeof_J : Nat) (rocsparse_clz : Nat → Nat)
    (o0 o1 : SortOutcome) (m n nnz : Nat) (csr_val : List α) (csr_row_ptr csr_col_ind : List Nat)
    (copy_values : rocsparse_action) (st0 st1 : DeviceState α)
    (hm : 0 < m) (hn : 0 < n)
    (hv : valid_csr m n nnz .zero csr_row_ptr csr_col_ind)
    (hcol0 : n + 1 ≤ st0.csc_col_ptr.length) (hcol1 : n + 1 ≤ st1.csc_col_ptr.length)
    (hrow0 : nnz ≤ st0.csc_row_ind.length) (hrow1 : nnz ≤ st1.csc_row_ind.length)
    (hnum0 : copy_values = .numeric → csr_val.length = nnz ∧ nnz ≤ st0.csc_val.length)
    (hnum1 : copy_values = .numeric → csr_val.length = nnz ∧ nnz ≤ st1.csc_val.length)
    (hclz : 1 + n ≤ 2 ^ rocsparse_clz n)
    (hJ : nnz = 0 → n + 1 < 2 ^ (8 * sizeof_J - 1))
    (hok0 : (rocsparse_csr2csc_template sizeof_J rocsparse_clz o0 m n nnz csr_val csr_row_ptr
      csr_col_ind copy_values .zero st0).1 = .success)
    (hok1 : (rocsparse_csr2csc_template sizeof_J rocsparse_clz o1 m n nnz csr_val
      (csr_row_ptr.map (fun e => e + 1)) (csr_col_ind.map (fun c => c + 1)) copy_values .one
      st1).1 = .success) :
    (∀ j, j ≤ n → ∃ v,
      (rocsparse_csr2csc_template sizeof_J rocsparse_clz o0 m n nnz csr_val csr_row_ptr
        csr_col_ind copy_values .zero st0).2.csc_col_ptr[j]? = some v ∧
      (rocsparse_csr2csc_template sizeof_J rocsparse_clz o1 m n nnz csr_val
        (csr_row_ptr.map (fun e => e + 1)) (csr_col_ind.map (fun c => c + 1)) copy_values
        .one st1).2.csc_col_ptr[j]? = some (v + 1)) ∧
    (rocsparse_csr2csc_template sizeof_J rocsparse_clz o1 m n nnz csr_val
        (csr_row_ptr.map (fun e => e + 1)) (csr_col_ind.map (fun c => c + 1)) copy_values
        .one st1).2.csc_row_ind.take nnz
      = ((rocsparse_csr2csc_template sizeof_J rocsparse_clz o0 m n nnz csr_val csr_row_ptr
        csr_col_ind copy_values .zero st0).2.csc_row_ind.take nnz).map (fun r => r + 1) ∧
    (copy_values = .numeric →
      (rocsparse_csr2csc_template sizeof_J rocsparse_clz o1 m n nnz csr_val
        (csr_row_ptr.map (fun e => e + 1)) (csr_col_ind.map (fun c => c + 1)) copy_values
        .one st1).2.csc_val.take nnz
      = (rocsparse_csr2csc_template sizeof_J rocsparse_clz o0 m n nnz csr_val csr_row_ptr
        csr_col_ind copy_values .zero st0).2.csc_val.take nnz) ∧
    (∀ r ∈ (rocsparse_csr2csc_template sizeof_J rocsparse_clz o0 m n nnz csr_val csr_row_ptr
        csr_col_ind copy_values .zero st0).2.csc_row_ind.take nnz,
      rocsparse_index_base.zero.val ≤ r ∧ r < rocsparse_index_base.zero.val + m) ∧
    (∀ r ∈ (rocsparse_csr2csc_template sizeof_J rocsparse_clz o1 m n nnz csr_val
        (csr_row_ptr.map (fun e => e + 1)) (csr_col_ind.map (fun c => c + 1)) copy_values
        .one st1).2.csc_row_ind.take nnz,
      rocsparse_index_base.one.val ≤ r ∧ r < rocsparse_index_base.one.val + m) := by
  have hv1 := valid_csr_one_based m n nnz csr_row_ptr csr_col_ind hv
  have hclz0 : rocsparse_index_base.zero.val + n ≤ 2 ^ rocsparse_clz n := by
    simp only [rocsparse_index_base.val]
    omega
  have hclz1 : rocsparse_index_base.one.val + n ≤ 2 ^ rocsparse_clz n := hclz
  refine ⟨?_, ?_, ?_,
    template_rows_range sizeof_J rocsparse_clz o0 m n nnz csr_val csr_row_ptr csr_col_ind
        copy_values
      .zero st0 hm hn hv hrow0 hnum0 hclz0 hok0,
    template_rows_range sizeof_J rocsparse_clz o1 m n nnz csr_val _ _ copy_values
      .one st1 hm hn hv1 hrow1 hnum1 hclz1 hok1⟩
  · intro j hj
    have h0 := (template_offsets sizeof_J rocsparse_clz o0 m n nnz csr_val csr_row_ptr csr_col_ind
      copy_values .zero st0 hm hn hv hcol0 hrow0 hnum0 hclz0 hJ hok0).2 j hj
    have h1 := (template_offsets sizeof_J rocsparse_clz o1 m n nnz csr_val _ _
      copy_values .one st1 hm hn hv1 hcol1 hrow1 hnum1 hclz1 hJ hok1).2 j hj
    rw [csr_pattern_one_based, count_below_one_based] at h1
    refine ⟨_, h0, ?_⟩
    rw [h1]
    simp only [rocsparse_index_base.val]
    congr 1
    omega
  · rcases Nat.eq_zero_or_pos nnz with hz | hpos
    · subst hz
      rfl
    · obtain ⟨s0, hb0⟩ := temp_buffer_of_success sizeof_J rocsparse_clz o0 m n nnz csr_val
          csr_row_ptr
        csr_col_ind copy_values .zero st0 hm hn hpos hok0
      obtain ⟨s1, hb1⟩ := temp_buffer_of_success sizeof_J rocsparse_clz o1 m n nnz csr_val _ _
        copy_values .one st1 hm hn hpos hok1
      obtain ⟨_, _, r0⟩ := template_structure sizeof_J rocsparse_clz o0 m n nnz csr_val csr_row_ptr
        csr_col_ind copy_values .zero st0 s0 hm hn hpos hv hb0 hrow0 hnum0 hclz0
      obtain ⟨_, _, r1⟩ := template_structure sizeof_J rocsparse_clz o1 m n nnz csr_val _ _
        copy_values .one st1 s1 hm hn hpos hv1 hb1 hrow1 hnum1 hclz1
      rw [r0, r1, csr_pattern_one_based, by_column_one_based, List.map_map, List.map_map]
      rfl
  · intro hnumeric
    subst hnumeric
    rcases Nat.eq_zero_or_pos nnz with hz | hpos
    · subst hz
      rfl
    · obtain ⟨s0, hb0⟩ := temp_buffer_of_success sizeof_J rocsparse_clz o0 m n nnz csr_val
          csr_row_ptr
        csr_col_ind .numeric .zero st0 hm hn hpos hok0
      obtain ⟨s1, hb1⟩ := temp_buffer_of_success sizeof_J rocsparse_clz o1 m n nnz csr_val _ _
        .numeric .one st1 hm hn hpos hok1
      obtain ⟨_, _, _, v0⟩ := template_numeric_spec sizeof_J rocsparse_clz o0 m n nnz csr_val
        csr_row_ptr csr_col_ind .zero st0 s0 hm hn hpos hv (hnum0 rfl).1 hb0 hrow0
        (hnum0 rfl).2 hclz0
      obtain ⟨_, _, _, v1⟩ := template_numeric_spec sizeof_J rocsparse_clz o1 m n nnz csr_val _ _
        .one st1 s1 hm hn hpos hv1 (hnum1 rfl).1 hb1 hrow1 (hnum1 rfl).2 hclz1
      rw [v0, v1, csr_nonzeros_one_based, by_column_one_based, List.map_map]
      rfl

/-- The two encodings of the 3 x 2 matrix with rows `[., 10]`, `[20, 30]`, `[., 40]` (read `.` as an
absent entry): the rows of the 1-based run are one more than those of the 0-based run,
the values agree, and the 1-based run writes the offsets `[1, 2, 5]`. -/
theorem index_base_consistent_of_cover_witness :
    (rocsparse_csr2csc_template 4 (fun _ => 2) ⟨false, true, [], []⟩ 3 2 4 [10, 20, 30, 40]
        ([0, 1, 3, 4].map (fun e => e + 1)) ([1, 0, 1, 1].map (fun c => c + 1)) .numeric
        .one ⟨[0, 0, 0, 0], [0, 0, 0, 0], [0, 0, 0], some ⟨[], [], []⟩⟩).2.csc_row_ind.take 4
      = ((rocsparse_csr2csc_template 4 (fun _ => 2) ⟨true, false, [7], [8]⟩ 3 2 4
        [10, 20, 30, 40] [0, 1, 3, 4] [1, 0, 1, 1] .numeric .zero
        ⟨[0, 0, 0, 0], [0, 0, 0, 0], [0, 0, 0], some ⟨[], [], []⟩⟩).2.csc_row_ind.take
          4).map (fun r => r + 1) ∧
    (rocsparse_csr2csc_template 4 (fun _ => 2) ⟨false, true, [], []⟩ 3 2 4 [10, 20, 30, 40]
        ([0, 1, 3, 4].map (fun e => e + 1)) ([1, 0, 1, 1].map (fun c => c + 1)) .numeric
        .one ⟨[0, 0, 0, 0], [0, 0, 0, 0], [0, 0, 0], some ⟨[], [], []⟩⟩).2.csc_val.take 4
      = (rocsparse_csr2csc_template 4 (fun _ => 2) ⟨true, false, [7], [8]⟩ 3 2 4
        [10, 20, 30, 40] [0, 1, 3, 4] [1, 0, 1, 1] .numeric .zero
        ⟨[0, 0, 0, 0], [0, 0, 0, 0], [0, 0, 0], some ⟨[], [], []⟩⟩).2.csc_val.take 4 ∧
    (rocsparse_csr2csc_template 4 (fun _ => 2) ⟨false, true, [], []⟩ 3 2 4 [10, 20, 30, 40]
        ([0, 1, 3, 4].map (fun e => e + 1)) ([1, 0, 1, 1].map (fun c => c + 1)) .numeric
        .one ⟨[0, 0, 0, 0], [0, 0, 0, 0], [0, 0, 0], some ⟨[], [], []⟩⟩).2.csc_col_ptr
      = [1, 2, 5] := by
  obtain ⟨_, h2, h3, _, _⟩ := index_base_consistent_of_cover 4 (fun _ => 2)
    ⟨true, false, [7], [8]⟩ ⟨false, true, [], []⟩
    3 2 4 [10, 20, 30, 40] [0, 1, 3, 4] [1, 0, 1, 1] .numeric
    ⟨[0, 0, 0, 0], [0, 0, 0, 0], [0, 0, 0], some ⟨[], [], []⟩⟩
    ⟨[0, 0, 0, 0], [0, 0, 0, 0], [0, 0, 0], some ⟨[], [], []⟩⟩
    (by decide) (by decide) (by decide) (by decide) (by decide) (by decide) (by decide)
    (fun _ => ⟨by decide, by decide⟩) (fun _ => ⟨by decide, by decide⟩) (by decide)
    (fun h => absurd h (by decide)) (by decide) (by decide)
  exact ⟨h2, h3 rfl, by decide⟩

/-! ## Source and destination pointer pairs -/

/-- In numeric mode the argument checks apply one rule to both pointer pairs: exchanging
the pair `(csr_val, csr_col_ind)` with the pair `(csc_val, csc_row_ind)` does not change
their outcome. -/
theorem checks_numeric_swap {α : Type} (handle : rocsparse_handle) (m n nnz : Int)
    (csr_val : Option (List α)) (csr_row_ptr csr_col_ind : Option (List Nat))
    (csc_val : Option (List α)) (csc_row_ind csc_col_ptr : Option (List Nat))
    (idx_base : Option rocsparse_index_base) :
    rocsparse_csr2csc_impl_checks handle m n nnz csr_val csr_row_ptr csr_col_ind
        csc_val csc_row_ind csc_col_ptr (some .numeric) idx_base
      = rocsparse_csr2csc_impl_checks handle m n nnz csc_val csr_row_ptr csc_row_ind
        csr_val csr_col_ind csc_col_ptr (some .numeric) idx_base := by
  cases handle with
  | none => rw [checks_handle_null, checks_handle_null]
  | some u =>
    cases idx_base with
    | none => rw [checks_base_invalid, checks_base_invalid]
    | some base =>
      by_cases hneg : m < 0 ∨ n < 0 ∨ nnz < 0
      · rw [checks_size_negative u m n nnz _ _ _ _ _ _ _ _ hneg,
          checks_size_negative u m n nnz _ _ _ _ _ _ _ _ hneg]
      · rw [checks_pointer_stage u m n nnz _ _ _ _ _ _ _ _ (by omega) (by omega) (by omega),
          checks_pointer_stage u m n nnz _ _ _ _ _ _ _ _ (by omega) (by omega) (by omega)]
        by_cases hreq : (m > 0 ∧ csr_row_ptr.isNone) ∨ (n > 0 ∧ csc_col_ptr.isNone)
        · rw [if_pos hreq, if_pos hreq]
        · rw [if_neg hreq, if_neg hreq, if_pos rfl, if_pos rfl]
          by_cases hz : nnz = 0 <;>
            cases csr_val <;> cases csr_col_ind <;> cases csc_val <;> cases csc_row_ind <;>
            simp [hz]

/-- C23, as the code has it. The numeric-mode pointer validation of
`rocsparse_csr2csc_impl` treats the source side and the destination side alike: for every
handle, sizes, index base and pointers, the outcome of the argument checks is unchanged
when the pair `(csr_val, csr_col_ind)` and the pair `(csc_val, csc_row_ind)` are
exchanged; and with the other pair present, a pair is rejected with invalid-pointer
exactly when one of its pointers is null and the other is not, or when `nnz != 0` and
both are null, whichever side it is on. -/
theorem csr2csc_numeric_pointer_rule_symmetric {α : Type} (handle : rocsparse_handle)
    (m n nnz : Int) (val : Option (List α)) (ind : Option (List Nat))
    (val2 : Option (List α)) (ind2 : Option (List Nat))
    (csr_row_ptr csc_col_ptr : Option (List Nat)) (idx_base : Option rocsparse_index_base)
    (u : Unit) (base : rocsparse_index_base) (a : List α) (b : List Nat) :
    rocsparse_csr2csc_impl_checks handle m n nnz val csr_row_ptr ind
        val2 ind2 csc_col_ptr (some .numeric) idx_base
      = rocsparse_csr2csc_impl_checks handle m n nnz val2 csr_row_ptr ind2
        val ind csc_col_ptr (some .numeric) idx_base ∧
    (0 ≤ m → 0 ≤ n → 0 ≤ nnz →
      ¬ ((m > 0 ∧ csr_row_ptr.isNone) ∨ (n > 0 ∧ csc_col_ptr.isNone)) →
      ((rocsparse_csr2csc_impl_checks (some u) m n nnz val csr_row_ptr ind
          (some a) (some b) csc_col_ptr (some .numeric) (some base) = some .invalid_pointer
        ↔ (val.isNone ≠ ind.isNone ∨ (nnz ≠ 0 ∧ val.isNone ∧ ind.isNone))) ∧
       (rocsparse_csr2csc_impl_checks (some u) m n nnz (some a) csr_row_ptr (some b)
          val ind csc_col_ptr (some .numeric) (some base) = some .invalid_pointer
        ↔ (val.isNone ≠ ind.isNone ∨ (nnz ≠ 0 ∧ val.isNone ∧ ind.isNone))))) := by
  refine ⟨checks_numeric_swap handle m n nnz val csr_row_ptr ind val2 ind2 csc_col_ptr
    idx_base, ?_⟩
  intro hm hn hnnz hreq
  rw [← checks_numeric_swap (some u) m n nnz val csr_row_ptr ind (some a) (some b)
    csc_col_ptr (some base), and_self,
    checks_pointer_stage u m n nnz _ _ _ _ _ _ _ _ hm hn hnnz, if_neg hreq, if_pos rfl]
  by_cases hz : nnz = 0 <;> cases val <;> cases ind <;> simp [hz]

/-- C23 as stated has no instance: there are no pointers, sizes, handle and index base
for which the numeric-mode checks answer differently after the source pair and the
destination pair have been exchanged. -/
theorem csr2csc_numeric_pointer_rule_counterexample :
    ¬ ∃ (handle : rocsparse_handle) (m n nnz : Int)
        (val val2 : Option (List Nat)) (ind ind2 csr_row_ptr csc_col_ptr : Option (List Nat))
        (idx_base : Option rocsparse_index_base),
      rocsparse_csr2csc_impl_checks handle m n nnz val csr_row_ptr ind
          val2 ind2 csc_col_ptr (some .numeric) idx_base
        ≠ rocsparse_csr2csc_impl_checks handle m n nnz val2 csr_row_ptr ind2
          val ind csc_col_ptr (some .numeric) idx_base := by
  rintro ⟨handle, m, n, nnz, val, val2, ind, ind2, csr_row_ptr, csc_col_ptr, idx_base, h⟩
  exact h (checks_numeric_swap handle m n nnz val csr_row_ptr ind val2 ind2 csc_col_ptr
    idx_base)

/-- C23 as amended, at `nnz = 3` with a null value pointer next to a non-null index
pointer: the pattern is rejected on the source side and on the destination side. -/
theorem csr2csc_numeric_pointer_rule_symmetric_witness :
    rocsparse_csr2csc_impl_checks (some ()) 2 3 3 (none : Option (List Nat)) (some [0, 2, 3])
        (some [2, 0, 1]) (some [0, 0, 0]) (some [0, 0, 0]) (some [0, 0, 0, 0])
        (some .numeric) (some .zero) = some .invalid_pointer ∧
    rocsparse_csr2csc_impl_checks (some ()) 2 3 3 (some [0, 0, 0]) (some [0, 2, 3])
        (some [0, 0, 0]) (none : Option (List Nat)) (some [2, 0, 1]) (some [0, 0, 0, 0])
        (some .numeric) (some .zero) = some .invalid_pointer :=
  ⟨((csr2csc_numeric_pointer_rule_symmetric (some ()) 2 3 3 (none : Option (List Nat))
      (some [2, 0, 1]) none none (some [0, 2, 3]) (some [0, 0, 0, 0]) (some .zero) ()
      .zero [0, 0, 0] [0, 0, 0]).2 (by decide) (by decide) (by decide) (by decide)).1.mpr
      (Or.inl (by decide)),
    ((csr2csc_numeric_pointer_rule_symmetric (some ()) 2 3 3 (none : Option (List Nat))
      (some [2, 0, 1]) none none (some [0, 2, 3]) (some [0, 0, 0, 0]) (some .zero) ()
      .zero [0, 0, 0] [0, 0, 0]).2 (by decide) (by decide) (by decide) (by decide)).2.mpr
      (Or.inl (by decide))⟩

/-! ## The end bit of the sort -/

/-- An end bit covers the keys of an index base exactly when `idx_base + n ≤ 2 ^ endbit`. -/
theorem keys_covered_iff (n e : Nat) (idx_base : rocsparse_index_base) (hn : 1 ≤ n) :
    (∀ c, idx_base.val ≤ c → c < idx_base.val + n → c < 2 ^ e) ↔ idx_base.val + n ≤ 2 ^ e := by
  constructor
  · intro h
    have := h (idx_base.val + n - 1) (by omega) (by omega)
    omega
  · intro h c _ hc
    omega

theorem clz_pow_eq_iff (n : Nat) : n = 2 ^ rocsparse_clz n ↔ ∃ k, n = 2 ^ k := by
  constructor
  · intro h
    exact ⟨_, h⟩
  · rintro ⟨k, rfl⟩
    unfold rocsparse_clz
    rw [Nat.clog_pow 2 k (by norm_num)]

/-- Coverage of the keys by the end bit of the specification. With `rocsparse_clz(n) =
ceil(log2(n))` and
`n ≥ 1`: for `idx_base = 0` every admissible column index `c` in `[0, n)` satisfies
`c < 2^endbit`; for `idx_base = 1` every admissible `c` in `[1, 1 + n)` does so exactly
when `n` is not a power of two; and for any end bit `e` and either base, `e` covers the
admissible column indices exactly when `idx_base + n ≤ 2^e`. -/
theorem end_bit_cover_keys (n : Nat) (hn : 1 ≤ n) :
    (∀ c, rocsparse_index_base.zero.val ≤ c → c < rocsparse_index_base.zero.val + n →
      c < 2 ^ rocsparse_clz n) ∧
    ((∀ c, rocsparse_index_base.one.val ≤ c → c < rocsparse_index_base.one.val + n →
      c < 2 ^ rocsparse_clz n) ↔ ¬ ∃ k, n = 2 ^ k) ∧
    (∀ (e : Nat) (idx_base : rocsparse_index_base),
      (∀ c, idx_base.val ≤ c → c < idx_base.val + n → c < 2 ^ e)
        ↔ idx_base.val + n ≤ 2 ^ e) := by
  have hle : n ≤ 2 ^ rocsparse_clz n := Nat.le_pow_clog (by norm_num) n
  refine ⟨?_, ?_, fun e idx_base => keys_covered_iff n e idx_base hn⟩
  · rw [keys_covered_iff n _ _ hn]
    simpa [rocsparse_index_base.val] using hle
  · rw [keys_covered_iff n _ _ hn, ← clz_pow_eq_iff]
    simp only [rocsparse_index_base.val]
    omega

/-- At `n = 3` (not a power of two) and `idx_base = 1`: the largest
admissible key 3 is below `2 ^ rocsparse_clz 3`. -/
theorem end_bit_cover_keys_example :
    (rocsparse_index_base.one.val ≤ 3 ∧ 3 < rocsparse_index_base.one.val + 3) ∧
      3 < 2 ^ rocsparse_clz 3 :=
  ⟨⟨by decide, by decide⟩,
    (end_bit_cover_keys 3 (by decide)).2.1.mpr (by
      rintro ⟨k, hk⟩
      have h2 : k < 2 := by
        by_contra hge
        have : 2 ^ 2 ≤ 2 ^ k := Nat.pow_le_pow_right (by norm_num) (by omega)
        omega
      interval_cases k <;> omega) 3 (by decide) (by decide)⟩

theorem align256_dvd (x : Nat) : 256 ∣ align256 x := by
  unfold align256
  rw [Nat.dvd_mod_iff (by simp only [SIZE_BITS]; exact ⟨2 ^ 56, by norm_num⟩)]
  exact Nat.dvd_mul_left _ _

/-- The offsets carved by `rocsparse_csr2csc_core` when nothing wraps around; `w` is the
width of the elements of `tmp_work2` and `tmp_perm`. -/
theorem core_layout_no_wrap (sizeof_I sizeof_J nnz : Nat) (copy_values : rocsparse_action)
    (hfit : (sizeof_J + 2 * max sizeof_I sizeof_J) * nnz + 765 < 2 ^ 64) :
    rocsparse_csr2csc_core_layout sizeof_I sizeof_J nnz copy_values
      = ⟨0, align256 (sizeof_J * nnz),
          align256 (sizeof_J * nnz)
            + align256 ((match copy_values with
                | .symbolic => sizeof_J
                | .numeric => sizeof_I) * nnz),
          align256 (sizeof_J * nnz)
            + align256 ((match copy_values with
                | .symbolic => sizeof_J
                | .numeric => sizeof_I) * nnz)
            + align256 ((match copy_values with
                | .symbolic => sizeof_J
                | .numeric => sizeof_I) * nnz)⟩ := by
  have hexp : (sizeof_J + 2 * max sizeof_I sizeof_J) * nnz
      = sizeof_J * nnz + 2 * (max sizeof_I sizeof_J * nnz) := by ring
  rw [hexp] at hfit
  have hI : sizeof_I * nnz ≤ max sizeof_I sizeof_J * nnz :=
    Nat.mul_le_mul_right _ (le_max_left _ _)
  have hJ : sizeof_J * nnz ≤ max sizeof_I sizeof_J * nnz :=
    Nat.mul_le_mul_right _ (le_max_right _ _)
  generalize max sizeof_I sizeof_J * nnz = z at hfit hI hJ
  have bJ := align256_le_bounds (sizeof_J * nnz) (by omega)
  have bI := align256_le_bounds (sizeof_I * nnz) (by omega)
  cases copy_values
  · simp only [rocsparse_csr2csc_core_layout, bytes_of, SIZE_BITS, Nat.zero_add]
    rw [Nat.mod_eq_of_lt (show sizeof_J * nnz < 2 ^ 64 by omega)]
    generalize align256 (sizeof_J * nnz) = a at bJ ⊢
    rw [Nat.mod_eq_of_lt (show a < 2 ^ 64 by omega),
      Nat.mod_eq_of_lt (show a + a < 2 ^ 64 by omega),
      Nat.mod_eq_of_lt (show a + a + a < 2 ^ 64 by omega)]
  · simp only [rocsparse_csr2csc_core_layout, bytes_of, SIZE_BITS, Nat.zero_add]
    rw [Nat.mod_eq_of_lt (show sizeof_J * nnz < 2 ^ 64 by omega),
      Nat.mod_eq_of_lt (show sizeof_I * nnz < 2 ^ 64 by omega)]
    generalize align256 (sizeof_J * nnz) = a at bJ ⊢
    generalize align256 (sizeof_I * nnz) = b at bI ⊢
    rw [Nat.mod_eq_of_lt (show a < 2 ^ 64 by omega),
      Nat.mod_eq_of_lt (show a + b < 2 ^ 64 by omega),
      Nat.mod_eq_of_lt (show a + b + b < 2 ^ 64 by omega)]

/-- C24, as the code has it. For `nnz > 0`, both actions and element widths `wI`, `wJ`
such that the sizes do not wrap around in `size_t`
(`S + (wJ + 2 * max(wI, wJ)) * nnz + 1020 < 2^64`, with `S` the scratch size reported by
the sort primitive): the offsets of `tmp_work1`, `tmp_work2`, `tmp_perm` and of the sort
scratch are multiples of 256; `tmp_work1` has room for `nnz` elements of width `wJ` before
`tmp_work2` starts, `tmp_work2` for `nnz` elements of its width (`wJ` in symbolic mode,
`wI` in numeric mode) before `tmp_perm` starts, and `tmp_perm` likewise before the sort
scratch starts; the offset of the sort scratch, where the third region ends, is at most
the sum of the three auxiliary terms of the size estimate and hence at most the reported
size: the carved regions lie within a buffer of the reported size. -/
theorem csr2csc_scratch_layout_safe (query : SortStorageQuery)
    (sizeof_I sizeof_J m n nnz : Nat) (copy_values act : rocsparse_action)
    (buffer_size S : Nat)
    (hm : 0 < m) (hn : 0 < n) (hnnz : 0 < nnz)
    (hq : query sizeof_J sizeof_J nnz 0 32 = .ok S)
    (hfit : S + (sizeof_J + 2 * max sizeof_I sizeof_J) * nnz + 1020 < 2 ^ 64) :
    (256 ∣ (rocsparse_csr2csc_core_layout sizeof_I sizeof_J nnz copy_values).work1 ∧
     256 ∣ (rocsparse_csr2csc_core_layout sizeof_I sizeof_J nnz copy_values).work2 ∧
     256 ∣ (rocsparse_csr2csc_core_layout sizeof_I sizeof_J nnz copy_values).perm ∧
     256 ∣ (rocsparse_csr2csc_core_layout sizeof_I sizeof_J nnz copy_values).rocprim) ∧
    ((rocsparse_csr2csc_core_layout sizeof_I sizeof_J nnz copy_values).work1
        + sizeof_J * nnz
      ≤ (rocsparse_csr2csc_core_layout sizeof_I sizeof_J nnz copy_values).work2 ∧
     (rocsparse_csr2csc_core_layout sizeof_I sizeof_J nnz copy_values).work2
        + (match copy_values with
            | .symbolic => sizeof_J
            | .numeric => sizeof_I) * nnz
      ≤ (rocsparse_csr2csc_core_layout sizeof_I sizeof_J nnz copy_values).perm ∧
     (rocsparse_csr2csc_core_layout sizeof_I sizeof_J nnz copy_values).perm
        + (match copy_values with
            | .symbolic => sizeof_J
            | .numeric => sizeof_I) * nnz
      ≤ (rocsparse_csr2csc_core_layout sizeof_I sizeof_J nnz copy_values).rocprim) ∧
    (rocsparse_csr2csc_core_layout sizeof_I sizeof_J nnz copy_values).rocprim
      ≤ align256 (bytes_of sizeof_J nnz) + align256 (bytes_of (max sizeof_I sizeof_J) nnz)
        + align256 (bytes_of (max sizeof_I sizeof_J) nnz) ∧
    (rocsparse_csr2csc_core_layout sizeof_I sizeof_J nnz copy_values).rocprim
      ≤ (rocsparse_csr2csc_buffer_size_template query sizeof_I sizeof_J m n nnz act
          buffer_size).2 := by
  have hexp : (sizeof_J + 2 * max sizeof_I sizeof_J) * nnz
      = sizeof_J * nnz + 2 * (max sizeof_I sizeof_J * nnz) := by ring
  rw [buffer_size_template_no_wrap query sizeof_I sizeof_J m n nnz act buffer_size S hm hn
      hnnz hq hfit,
    core_layout_no_wrap sizeof_I sizeof_J nnz copy_values (by omega)]
  rw [hexp] at hfit
  have hI : sizeof_I * nnz ≤ max sizeof_I sizeof_J * nnz :=
    Nat.mul_le_mul_right _ (le_max_left _ _)
  have hJ : sizeof_J * nnz ≤ max sizeof_I sizeof_J * nnz :=
    Nat.mul_le_mul_right _ (le_max_right _ _)
  have bS := align256_le_bounds S (by omega)
  have bJ := align256_le_bounds (sizeof_J * nnz) (by omega)
  have bI := align256_le_bounds (sizeof_I * nnz) (by omega)
  have mJ := align256_mono_le _ _ hJ (by omega)
  have mI := align256_mono_le _ _ hI (by omega)
  have dJ := align256_dvd (sizeof_J * nnz)
  have dI := align256_dvd (sizeof_I * nnz)
  simp only [bytes_of, SIZE_BITS]
  rw [Nat.mod_eq_of_lt (show sizeof_J * nnz < 2 ^ 64 by omega),
    Nat.mod_eq_of_lt (show max sizeof_I sizeof_J * nnz < 2 ^ 64 by omega)]
  cases copy_values
  · dsimp only
    generalize max sizeof_I sizeof_J * nnz = z at hfit hI hJ bS mJ mI ⊢
    generalize sizeof_J * nnz = x at hfit hJ bJ mJ dJ ⊢
    generalize sizeof_I * nnz = y at hI bI mI dI ⊢
    refine ⟨⟨Nat.dvd_zero _, dJ, ?_, ?_⟩, ⟨by omega, by omega, by omega⟩, by omega, by omega⟩
    · exact Nat.dvd_add dJ dJ
    · exact Nat.dvd_add (Nat.dvd_add dJ dJ) dJ
  · dsimp only
    generalize max sizeof_I sizeof_J * nnz = z at hfit hI hJ bS mJ mI ⊢
    generalize sizeof_J * nnz = x at hfit hJ bJ mJ dJ ⊢
    generalize sizeof_I * nnz = y at hI bI mI dI ⊢
    refine ⟨⟨Nat.dvd_zero _, dJ, ?_, ?_⟩, ⟨by omega, by omega, by omega⟩, by omega, by omega⟩
    · exact Nat.dvd_add dJ dI
    · exact Nat.dvd_add (Nat.dvd_add dJ dI) dI

/-- C24 as amended, for `nnz = 64`, `(wI, wJ) = (8, 4)` in numeric mode and a sort
primitive that reports 1000 bytes: the carved regions end at offset 1280, within the
reported 2304 bytes. -/
theorem csr2csc_scratch_layout_safe_witness :
    rocsparse_csr2csc_core_layout 8 4 64 .numeric = ⟨0, 256, 768, 1280⟩ ∧
    (rocsparse_csr2csc_core_layout 8 4 64 .numeric).rocprim
      ≤ (rocsparse_csr2csc_buffer_size_template (fun _ _ _ _ _ => .ok 1000) 8 4 1 1 64
          .numeric 0).2 :=
  ⟨by decide, (csr2csc_scratch_layout_safe (fun _ _ _ _ _ => .ok 1000) 8 4 1 1 64 .numeric
    .numeric 0 1000 (by decide) (by decide) (by decide) rfl (by decide)).2.2.2⟩

/-- C24 as stated fails where `size_t` wraps around: for `nnz = 2^61` and
`(wI, wJ) = (8, 8)` every carved region starts at offset 0, so the regions are not
disjoint, and none has room for `nnz` elements. -/
theorem csr2csc_scratch_layout_safe_counterexample :
    instantiated_widths 8 8 ∧ 0 < 2 ^ 61 ∧
    rocsparse_csr2csc_core_layout 8 8 (2 ^ 61) .numeric = ⟨0, 0, 0, 0⟩ ∧
    rocsparse_csr2csc_core_layout 8 8 (2 ^ 61) .symbolic = ⟨0, 0, 0, 0⟩ ∧
    ¬ ((rocsparse_csr2csc_core_layout 8 8 (2 ^ 61) .numeric).work1 + 8 * 2 ^ 61
        ≤ (rocsparse_csr2csc_core_layout 8 8 (2 ^ 61) .numeric).work2) := by
  decide

/-! ## Independence of the ping-pong outcome -/

/-- C22. Ping-pong independence. For `nnz > 0`, a valid CSR input and output arrays with
room for `nnz` entries, in both modes and for any two outcomes of the sort (which member
of the key double buffer and which member of the value double buffer is left current,
and what the other members hold): `rocsparse_csr2csc_core` returns the same status, the
same `csc_col_ptr`, the same `nnz` entries of `csc_row_ind` and the same `nnz` entries of
`csc_val`. Whatever the outcome, `csc_row_ind` holds the row indices in the order of the
stable sort by column (symbolic mode: whether or not the final copy is taken; numeric
mode: although `csc_row_ind` served as the alternate key buffer and `tmp_work1` was
overwritten with row indices), and in numeric mode `csc_val` holds the values in that
order. -/
theorem csr2csc_ping_pong_independent {α : Type} (rocsparse_clz : Nat → Nat)
    (o1 o2 : SortOutcome) (m n nnz : Nat) (csr_val : List α)
    (csr_row_ptr csr_col_ind : List Nat) (copy_values : rocsparse_action)
    (idx_base : rocsparse_index_base) (mem : Mem α)
    (hpos : 0 < nnz)
    (hv : valid_csr m n nnz idx_base csr_row_ptr csr_col_ind)
    (hrow : nnz ≤ mem.csc_row_ind.length)
    (hnum : copy_values = .numeric → csr_val.length = nnz ∧ nnz ≤ mem.csc_val.length) :
    (rocsparse_csr2csc_core rocsparse_clz o1 m n nnz csr_val csr_row_ptr
        (csr_row_ptr.drop 1) csr_col_ind copy_values idx_base mem).1
      = (rocsparse_csr2csc_core rocsparse_clz o2 m n nnz csr_val csr_row_ptr
        (csr_row_ptr.drop 1) csr_col_ind copy_values idx_base mem).1 ∧
    (rocsparse_csr2csc_core rocsparse_clz o1 m n nnz csr_val csr_row_ptr
        (csr_row_ptr.drop 1) csr_col_ind copy_values idx_base mem).2.csc_col_ptr
      = (rocsparse_csr2csc_core rocsparse_clz o2 m n nnz csr_val csr_row_ptr
        (csr_row_ptr.drop 1) csr_col_ind copy_values idx_base mem).2.csc_col_ptr ∧
    (rocsparse_csr2csc_core rocsparse_clz o1 m n nnz csr_val csr_row_ptr
        (csr_row_ptr.drop 1) csr_col_ind copy_values idx_base mem).2.csc_row_ind.take nnz
      = (rocsparse_csr2csc_core rocsparse_clz o2 m n nnz csr_val csr_row_ptr
        (csr_row_ptr.drop 1) csr_col_ind copy_values idx_base mem).2.csc_row_ind.take nnz ∧
    (rocsparse_csr2csc_core rocsparse_clz o1 m n nnz csr_val csr_row_ptr
        (csr_row_ptr.drop 1) csr_col_ind copy_values idx_base mem).2.csc_val.take nnz
      = (rocsparse_csr2csc_core rocsparse_clz o2 m n nnz csr_val csr_row_ptr
        (csr_row_ptr.drop 1) csr_col_ind copy_values idx_base mem).2.csc_val.take nnz ∧
    (rocsparse_csr2csc_core rocsparse_clz o1 m n nnz csr_val csr_row_ptr
        (csr_row_ptr.drop 1) csr_col_ind copy_values idx_base mem).2.csc_row_ind.take nnz
      = (radix_sort 0 (rocsparse_clz n) (csr_col_ind.zip (List.range nnz))).map
          (fun p => csr_row_of csr_row_ptr idx_base p.2 + idx_base.val) ∧
    (copy_values = .numeric →
      ((rocsparse_csr2csc_core rocsparse_clz o1 m n nnz csr_val csr_row_ptr
        (csr_row_ptr.drop 1) csr_col_ind copy_values idx_base mem).2.csc_val.take nnz).map
          some
      = (radix_sort 0 (rocsparse_clz n) (csr_col_ind.zip (List.range nnz))).map
          (fun p => csr_val[p.2]?)) := by
  cases copy_values with
  | symbolic =>
    obtain ⟨a1, a2, a3, a4⟩ := core_symbolic_spec rocsparse_clz o1 m n nnz csr_val
      csr_row_ptr csr_col_ind idx_base mem hv
    obtain ⟨b1, b2, b3, b4⟩ := core_symbolic_spec rocsparse_clz o2 m n nnz csr_val
      csr_row_ptr csr_col_ind idx_base mem hv
    exact ⟨a1.trans b1.symm, a2.trans b2.symm, a3.trans b3.symm, by rw [a4, b4], a3,
      fun h => rocsparse_action.noConfusion h⟩
  | numeric =>
    obtain ⟨a1, a2, a3, a4⟩ := core_numeric_spec rocsparse_clz o1 m n nnz csr_val
      csr_row_ptr csr_col_ind idx_base mem hpos hv (hnum rfl).1 hrow (hnum rfl).2
    obtain ⟨b1, b2, b3, b4⟩ := core_numeric_spec rocsparse_clz o2 m n nnz csr_val
      csr_row_ptr csr_col_ind idx_base mem hpos hv (hnum rfl).1 hrow (hnum rfl).2
    refine ⟨a1.trans b1.symm, a2.trans b2.symm, a3.trans b3.symm, ?_, a3, fun _ => a4⟩
    exact (List.map_injective_iff.mpr (Option.some_injective α)) (a4.trans b4.symm)

/-- C22 in numeric mode for a 2 x 3 matrix: the outcome that swaps the key buffers (the
sorted keys end in `csc_row_ind`) and the outcome that swaps the value buffers give the
same outputs. -/
theorem csr2csc_ping_pong_independent_witness :
    (rocsparse_csr2csc_core (fun _ => 2) ⟨true, false, [7, 7, 7], [8, 8, 8]⟩ 2 3 3
        [5, 7, 9] [0, 2, 3] ([0, 2, 3].drop 1) [2, 0, 1] .numeric .zero
        ⟨[0, 0, 0], [0, 0, 0], [0, 0, 0, 0], [], [], []⟩).2.csc_row_ind.take 3
      = (rocsparse_csr2csc_core (fun _ => 2) ⟨false, true, [], []⟩ 2 3 3
        [5, 7, 9] [0, 2, 3] ([0, 2, 3].drop 1) [2, 0, 1] .numeric .zero
        ⟨[0, 0, 0], [0, 0, 0], [0, 0, 0, 0], [], [], []⟩).2.csc_row_ind.take 3 ∧
    (rocsparse_csr2csc_core (fun _ => 2) ⟨true, false, [7, 7, 7], [8, 8, 8]⟩ 2 3 3
        [5, 7, 9] [0, 2, 3] ([0, 2, 3].drop 1) [2, 0, 1] .numeric .zero
        ⟨[0, 0, 0], [0, 0, 0], [0, 0, 0, 0], [], [], []⟩).2.csc_val.take 3
      = (rocsparse_csr2csc_core (fun _ => 2) ⟨false, true, [], []⟩ 2 3 3
        [5, 7, 9] [0, 2, 3] ([0, 2, 3].drop 1) [2, 0, 1] .numeric .zero
        ⟨[0, 0, 0], [0, 0, 0], [0, 0, 0, 0], [], [], []⟩).2.csc_val.take 3 ∧
    (rocsparse_csr2csc_core (fun _ => 2) ⟨true, false, [7, 7, 7], [8, 8, 8]⟩ 2 3 3
        [5, 7, 9] [0, 2, 3] ([0, 2, 3].drop 1) [2, 0, 1] .numeric .zero
        ⟨[0, 0, 0], [0, 0, 0], [0, 0, 0, 0], [], [], []⟩).2.csc_row_ind.take 3
      = [0, 1, 0] := by
  obtain ⟨_, _, h3, h4, h5, _⟩ := csr2csc_ping_pong_independent (fun _ => 2)
    ⟨true, false, [7, 7, 7], [8, 8, 8]⟩ ⟨false, true, [], []⟩ 2 3 3 [5, 7, 9] [0, 2, 3]
    [2, 0, 1] .numeric .zero ⟨[0, 0, 0], [0, 0, 0], [0, 0, 0, 0], [], [], []⟩
    (by decide) (by decide) (by decide) (fun _ => ⟨by decide, by decide⟩)
  exact ⟨h3, h4, h5.trans (by decide)⟩

/-! ## The size-query protocol of `rocsparse_spvv` -/

/-- A combination of the table is dispatched: to the real template when the compute type
is real, to the complex template when it is complex. -/
theorem RETURN_SPVV_of_mem {R : Type} (itype : rocsparse_indextype)
    (xtype ytype ctype : rocsparse_datatype)
    (real complex : CType → CType → CType → CType → R)
    (h : (itype, xtype, ytype, ctype) ∈ spvv_dispatch_table) :
    ∃ T I X Y,
      (RETURN_SPVV itype xtype ytype ctype real complex = some (real T I X Y)
        ∧ ctype ≠ .f32_c ∧ ctype ≠ .f64_c) ∨
      (RETURN_SPVV itype xtype ytype ctype real complex = some (complex T I X Y)
        ∧ (ctype = .f32_c ∨ ctype = .f64_c)) := by
  simp only [spvv_dispatch_table, List.mem_cons, Prod.mk.injEq, List.mem_singleton,
    List.mem_nil_iff, or_false] at h
  rcases h with ⟨rfl, rfl, rfl, rfl⟩ | ⟨rfl, rfl, rfl, rfl⟩ | ⟨rfl, rfl, rfl, rfl⟩ |
    ⟨rfl, rfl, rfl, rfl⟩ | ⟨rfl, rfl, rfl, rfl⟩ | ⟨rfl, rfl, rfl, rfl⟩ |
    ⟨rfl, rfl, rfl, rfl⟩ | ⟨rfl, rfl, rfl, rfl⟩ | ⟨rfl, rfl, rfl, rfl⟩ |
    ⟨rfl, rfl, rfl, rfl⟩ | ⟨rfl, rfl, rfl, rfl⟩ | ⟨rfl, rfl, rfl, rfl⟩
  · exact ⟨_, _, _, _, Or.inl ⟨rfl, by decide, by decide⟩⟩
  · exact ⟨_, _, _, _, Or.inl ⟨rfl, by decide, by decide⟩⟩
  · exact ⟨_, _, _, _, Or.inr ⟨rfl, by decide⟩⟩
  · exact ⟨_, _, _, _, Or.inr ⟨rfl, by decide⟩⟩
  · exact ⟨_, _, _, _, Or.inl ⟨rfl, by decide, by decide⟩⟩
  · exact ⟨_, _, _, _, Or.inl ⟨rfl, by decide, by decide⟩⟩
  · exact ⟨_, _, _, _, Or.inl ⟨rfl, by decide, by decide⟩⟩
  · exact ⟨_, _, _, _, Or.inl ⟨rfl, by decide, by decide⟩⟩
  · exact ⟨_, _, _, _, Or.inr ⟨rfl, by decide⟩⟩
  · exact ⟨_, _, _, _, Or.inr ⟨rfl, by decide⟩⟩
  · exact ⟨_, _, _, _, Or.inl ⟨rfl, by decide, by decide⟩⟩
  · exact ⟨_, _, _, _, Or.inl ⟨rfl, by decide, by decide⟩⟩

/-- A combination outside the table falls through the macro. -/
theorem RETURN_SPVV_of_not_mem {R : Type} (itype : rocsparse_indextype)
    (xtype ytype ctype : rocsparse_datatype)
    (real complex : CType → CType → CType → CType → R)
    (h : (itype, xtype, ytype, ctype) ∉ spvv_dispatch_table) :
    RETURN_SPVV itype xtype ytype ctype real complex = none := by
  have n1 : ¬ (ctype = .f32_r ∧ itype = .i32 ∧ xtype = .f32_r ∧ ytype = .f32_r) := by
    rintro ⟨rfl, rfl, rfl, rfl⟩
    exact h (by decide)
  have n2 : ¬ (ctype = .f64_r ∧ itype = .i32 ∧ xtype = .f64_r ∧ ytype = .f64_r) := by
    rintro ⟨rfl, rfl, rfl, rfl⟩
    exact h (by decide)
  have n3 : ¬ (ctype = .f32_c ∧ itype = .i32 ∧ xtype = .f32_c ∧ ytype = .f32_c) := by
    rintro ⟨rfl, rfl, rfl, rfl⟩
    exact h (by decide)
  have n4 : ¬ (ctype = .f64_c ∧ itype = .i32 ∧ xtype = .f64_c ∧ ytype = .f64_c) := by
    rintro ⟨rfl, rfl, rfl, rfl⟩
    exact h (by decide)
  have n5 : ¬ (ctype = .i32_r ∧ itype = .i32 ∧ xtype = .i8_r ∧ ytype = .i8_r) := by
    rintro ⟨rfl, rfl, rfl, rfl⟩
    exact h (by decide)
  have n6 : ¬ (ctype = .f32_r ∧ itype = .i32 ∧ xtype = .i8_r ∧ ytype = .i8_r) := by
    rintro ⟨rfl, rfl, rfl, rfl⟩
    exact h (by decide)
  have n7 : ¬ (ctype = .f32_r ∧ itype = .i64 ∧ xtype = .f32_r ∧ ytype = .f32_r) := by
    rintro ⟨rfl, rfl, rfl, rfl⟩
    exact h (by decide)
  have n8 : ¬ (ctype = .f64_r ∧ itype = .i64 ∧ xtype = .f64_r ∧ ytype = .f64_r) := by
    rintro ⟨rfl, rfl, rfl, rfl⟩
    exact h (by decide)
  have n9 : ¬ (ctype = .f32_c ∧ itype = .i64 ∧ xtype = .f32_c ∧ ytype = .f32_c) := by
    rintro ⟨rfl, rfl, rfl, rfl⟩
    exact h (by decide)
  have n10 : ¬ (ctype = .f64_c ∧ itype = .i64 ∧ xtype = .f64_c ∧ ytype = .f64_c) := by
    rintro ⟨rfl, rfl, rfl, rfl⟩
    exact h (by decide)
  have n11 : ¬ (ctype = .i32_r ∧ itype = .i64 ∧ xtype = .i8_r ∧ ytype = .i8_r) := by
    rintro ⟨rfl, rfl, rfl, rfl⟩
    exact h (by decide)
  have n12 : ¬ (ctype = .f32_r ∧ itype = .i64 ∧ xtype = .i8_r ∧ ytype = .i8_r) := by
    rintro ⟨rfl, rfl, rfl, rfl⟩
    exact h (by decide)
  unfold RETURN_SPVV
  rw [if_neg n1, if_neg n2, if_neg n3, if_neg n4, if_neg n5, if_neg n6, if_neg n7,
    if_neg n8, if_neg n9, if_neg n10, if_neg n11, if_neg n12]

/-- After the argument checks `rocsparse_spvv` is the dispatch macro followed by the
final `return rocsparse_status_not_implemented`. -/
theorem spvv_validated {δ ρ : Type} (doti dotci : DotTemplate δ ρ) (u : Unit)
    (t : rocsparse_operation) (xd : rocsparse_spvec_descr δ) (yd : rocsparse_dnvec_descr δ)
    (r : ρ) (c : rocsparse_datatype) (bs : Option Nat) (temp : Option Unit)
    (hx : xd.init = true) (hy : yd.init = true)
    (hbs : ¬ (temp.isNone ∧ bs.isNone)) :
    rocsparse_spvv doti dotci (some u) (some t) (some xd) (some yd) (some r) (some c) bs temp
      = (RETURN_SPVV xd.idx_type xd.data_type yd.data_type c
          (fun T I X Y => rocsparse_spvv_template_real doti T I X Y t xd yd (some r) c bs
            temp)
          (fun T I X Y => rocsparse_spvv_template_complex doti dotci T I X Y t xd yd
            (some r) c bs temp)).getD (.not_implemented, bs, some r) := by
  unfold rocsparse_spvv
  simp only [rocsparse_enum_utils.is_invalid, Option.isNone_some, Bool.false_eq_true,
    if_false]
  rw [if_neg hbs, if_neg (by rw [hx, hy]; decide)]
  cases RETURN_SPVV xd.idx_type xd.data_type yd.data_type c
      (fun T I X Y => rocsparse_spvv_template_real doti T I X Y t xd yd (some r) c bs temp)
      (fun T I X Y => rocsparse_spvv_template_complex doti dotci T I X Y t xd yd
        (some r) c bs temp) <;> rfl

/-- C25. Size-query protocol of `rocsparse_spvv`. For a call that passes validation
(non-null handle, valid `trans` and compute type, non-null initialized descriptors,
non-null `result` and `buffer_size`): if `(index type, x type, y type, compute type)` is
one of the twelve combinations of the dispatch table and `temp_buffer` is null, the call
returns success, sets `*buffer_size` to 4 and leaves `result` as it was, for every
`trans`; for a complex compute type with `rocsparse_operation_transpose` the same call
with a non-null `temp_buffer` returns not-implemented; and a combination outside the
table returns not-implemented, whatever `temp_buffer` is, and writes nothing. -/
theorem spvv_size_query_protocol {δ ρ : Type} (doti dotci : DotTemplate δ ρ) (u : Unit)
    (t : rocsparse_operation) (xd : rocsparse_spvec_descr δ) (yd : rocsparse_dnvec_descr δ)
    (r : ρ) (c : rocsparse_datatype) (b : Nat)
    (hx : xd.init = true) (hy : yd.init = true) :
    ((xd.idx_type, xd.data_type, yd.data_type, c) ∈ spvv_dispatch_table →
      rocsparse_spvv doti dotci (some u) (some t) (some xd) (some yd) (some r) (some c)
        (some b) none = (.success, some 4, some r)) ∧
    ((xd.idx_type, xd.data_type, yd.data_type, c) ∈ spvv_dispatch_table →
      (c = .f32_c ∨ c = .f64_c) → t = .transpose →
      rocsparse_spvv doti dotci (some u) (some t) (some xd) (some yd) (some r) (some c)
        (some b) (some ()) = (.not_implemented, some b, some r)) ∧
    ((xd.idx_type, xd.data_type, yd.data_type, c) ∉ spvv_dispatch_table →
      ∀ temp : Option Unit,
        rocsparse_spvv doti dotci (some u) (some t) (some xd) (some yd) (some r) (some c)
          (some b) temp = (.not_implemented, some b, some r)) := by
  refine ⟨?_, ?_, ?_⟩
  · intro hmem
    rw [spvv_validated doti dotci u t xd yd r c (some b) none hx hy (by simp)]
    obtain ⟨T, I, X, Y, ⟨h, _⟩ | ⟨h, _⟩⟩ := RETURN_SPVV_of_mem xd.idx_type xd.data_type
      yd.data_type c
      (fun T I X Y => rocsparse_spvv_template_real doti T I X Y t xd yd (some r) c (some b)
        none)
      (fun T I X Y => rocsparse_spvv_template_complex doti dotci T I X Y t xd yd
        (some r) c (some b) none) hmem
    · rw [h]
      rfl
    · rw [h]
      rfl
  · intro hmem hc ht
    rw [spvv_validated doti dotci u t xd yd r c (some b) (some ()) hx hy (by simp)]
    obtain ⟨T, I, X, Y, ⟨_, h1, h2⟩ | ⟨h, _⟩⟩ := RETURN_SPVV_of_mem xd.idx_type xd.data_type
      yd.data_type c
      (fun T I X Y => rocsparse_spvv_template_real doti T I X Y t xd yd (some r) c (some b)
        (some ()))
      (fun T I X Y => rocsparse_spvv_template_complex doti dotci T I X Y t xd yd
        (some r) c (some b) (some ())) hmem
    · rcases hc with hc | hc
      · exact absurd hc h1
      · exact absurd hc h2
    · rw [h, ht]
      simp only [Option.getD_some, rocsparse_spvv_template_complex, Option.isNone_some,
        Bool.false_eq_true, if_false, if_pos hc]
      rfl
  · intro hnot temp
    rw [spvv_validated doti dotci u t xd yd r c (some b) temp hx hy (by simp),
      RETURN_SPVV_of_not_mem _ _ _ _ _ _ hnot]
    rfl

/-- C25 for single-precision complex vectors with 32-bit indices and
`rocsparse_operation_transpose`: the size query succeeds with 4 bytes although the
computation itself is not implemented. -/
theorem spvv_size_query_protocol_witness :
    rocsparse_spvv (fun _ _ _ _ _ _ _ _ (res : Option Nat) _ => (.success, res))
        (fun _ _ _ _ _ _ _ _ (res : Option Nat) _ => (.success, res)) (some ())
        (some .transpose) (some ⟨true, 3, (), (), .i32, .f32_c, .zero⟩)
        (some ⟨true, (), .f32_c⟩) (some 7) (some .f32_c) (some 0) none
      = (.success, some 4, some 7) ∧
    rocsparse_spvv (fun _ _ _ _ _ _ _ _ (res : Option Nat) _ => (.success, res))
        (fun _ _ _ _ _ _ _ _ (res : Option Nat) _ => (.success, res)) (some ())
        (some .transpose) (some ⟨true, 3, (), (), .i32, .f32_c, .zero⟩)
        (some ⟨true, (), .f32_c⟩) (some 7) (some .f32_c) (some 0) (some ())
      = (.not_implemented, some 0, some 7) :=
  ⟨(spvv_size_query_protocol (fun _ _ _ _ _ _ _ _ (res : Option Nat) _ => (.success, res))
      (fun _ _ _ _ _ _ _ _ (res : Option Nat) _ => (.success, res)) () .transpose
      ⟨true, 3, (), (), .i32, .f32_c, .zero⟩ ⟨true, (), .f32_c⟩ 7 .f32_c 0 rfl rfl).1
      (by decide),
    (spvv_size_query_protocol (fun _ _ _ _ _ _ _ _ (res : Option Nat) _ => (.success, res))
      (fun _ _ _ _ _ _ _ _ (res : Option Nat) _ => (.success, res)) () .transpose
      ⟨true, 3, (), (), .i32, .f32_c, .zero⟩ ⟨true, (), .f32_c⟩ 7 .f32_c 0 rfl rfl).2.1
      (by decide) (Or.inl rfl) rfl⟩

/-! ## Stability for any end bit -/

set_option maxRecDepth 8000

end RocSparse
